import Mathlib

/-!
# ddBotImageQueue: camera registry, decode cache, colorizer and texture mapper

Shallow embedding of `src/app/ddBotImageQueue.cpp`.

Conventions of the embedding

* `size_t` values are `Nat` reduced modulo `2^64`; `int` values are `Int`.
* the coordinates of points, the entries of transforms and the pixels the
  camera model returns are finite doubles, written as rationals (`ℚ`); the
  statements hold for all rationals.  The product of a transform with a
  point is Eigen's; it is written with exact arithmetic, and the examples use
  values for which every order of evaluation is exact.
* the arithmetic the code itself performs on `double` and `float` values (the
  vignette test, the texture coordinates) is IEEE 754 arithmetic: each
  operation rounds its exact result to the nearest number of its format,
  binary64 for `double` and binary32 for `float`, ties to even, with
  subnormal numbers and overflow to an infinity (`Dbl`).  No extended
  precision and no fused operation is used.  The two zeros are identified.
* memory that `new` returns uninitialised holds arbitrary bytes, given by a
  parameter (`fresh`); allocations succeed.
* bytes are `Nat`.
* the heap objects behind `CameraData*` are stored by value in the map that
  owns the pointers; the mutex is not modelled (one handler runs at a time).
* a step whose behaviour is undefined in C++ (null dereference, out-of-range
  `operator[]`, a copy past the end of an allocation, float to int conversion
  out of range) makes the enclosing `Option`-valued function return `none`.
* the collaborators that are not part of this file (LCM decoding, the frame
  graph, the JPEG codec, the camera model) are parameters: `Env`, `BotCamTrans`.
-/

namespace ddBotImageQueue

/-! ## Numbers -/

/-- Conversion of an `int` to `size_t`. -/
def toSizeT (x : Int) : Nat := (x % (2 ^ 64 : Int)).toNat

/-- Product of two `size_t` values. -/
def sizeMul (a b : Nat) : Nat := (a * b) % 2 ^ 64

/-- Sum of two `size_t` values. -/
def sizeAdd (a b : Nat) : Nat := (a + b) % 2 ^ 64

/-- Difference of two `size_t` values. -/
def sizeSub (a b : Nat) : Nat := (a + (2 ^ 64 - b % 2 ^ 64)) % 2 ^ 64

/-! ## Floating point -/

/-- The power `2^k` as a rational. -/
def pow2 (k : Int) : ℚ :=
  if 0 ≤ k then ((2 ^ k.toNat : Nat) : ℚ) else 1 / ((2 ^ (-k).toNat : Nat) : ℚ)

/-- The number of halvings that bring `n` below 2, at most `fuel`. -/
def halvings : Nat → Nat → Nat
  | 0, _ => 0
  | fuel + 1, n => if 2 ≤ n then halvings fuel (n / 2) + 1 else 0

/-- The integer part of the binary logarithm of a positive natural number. -/
def natLog2 (n : Nat) : Nat := halvings n n

/-- The integer part of the binary logarithm of a positive rational. -/
def ilog2 (a : ℚ) : Int :=
  let k0 : Int := (natLog2 a.num.toNat : Int) - (natLog2 a.den : Int)
  if pow2 k0 ≤ a then k0 else k0 - 1

/-- Rounding of a rational to the nearest integer, ties to even. -/
def roundHalfEven (x : ℚ) : Int :=
  let f : Int := x.num / (x.den : Int)
  let r : ℚ := x - f
  if r < 1 / 2 then f else if 1 / 2 < r then f + 1 else if f % 2 = 0 then f else f + 1

/-- The binary floating-point number with `p` significant bits and exponent
at least `emin` nearest to `q`, ties to even, the exponent unbounded above. -/
def roundValue (p : Nat) (emin : Int) (q : ℚ) : ℚ :=
  if q = 0 then 0
  else
    let a : ℚ := if q < 0 then -q else q
    let e : Int := max (ilog2 a) emin
    let k : Int := e - ((p : Int) - 1)
    let n : Int := roundHalfEven (a / pow2 k)
    if q < 0 then -((n : ℚ) * pow2 k) else (n : ℚ) * pow2 k

/-- A `double` (or `float`) value: a finite number, an infinity, or not-a-number.
The two zeros are not distinguished. -/
inductive Dbl where
  | fin (q : ℚ)
  | inf (neg : Bool)
  | nan
  deriving DecidableEq

namespace Dbl

/-- The value of the format with `p` significant bits and exponents from
`emin` to `emax` that the exact result `q` of an operation rounds to: the
nearest number of the format, or an infinity on overflow. -/
def round (p : Nat) (emin emax : Int) (q : ℚ) : Dbl :=
  let r := roundValue p emin q
  if pow2 (emax + 1) ≤ r then inf false
  else if r ≤ -pow2 (emax + 1) then inf true
  else fin r

/-- The `double` result of an operation whose exact result is `q`. -/
def ofRat (q : ℚ) : Dbl := round 53 (-1022) 1023 q

/-- The conversion of a `double` to `float` (`float u = ...`). -/
def toFloat : Dbl → Dbl
  | fin q => round 24 (-126) 127 q
  | inf neg => inf neg
  | nan => nan

/-- Quotient `x / n` of a finite double by a `size_t`: the `size_t` is
converted to double, then the doubles are divided. -/
def divSize (x : ℚ) (n : Nat) : Dbl :=
  if n = 0 then (if x = 0 then nan else inf (decide (x < 0)))
  else ofRat (x / roundValue 53 (-1022) (n : ℚ))

/-- Difference `a - u` of doubles, with a finite left operand. -/
def rsub (a : ℚ) : Dbl → Dbl
  | fin q => ofRat (a - q)
  | inf neg => inf (!neg)
  | nan => nan

/-- Product of two doubles. -/
def mul : Dbl → Dbl → Dbl
  | fin a, fin b => ofRat (a * b)
  | inf a, inf b => inf (a != b)
  | fin a, inf b => if a = 0 then nan else inf (decide (a < 0) != b)
  | inf a, fin b => if b = 0 then nan else inf (a != decide (b < 0))
  | _, _ => nan

/-- Sum of two doubles. -/
def add : Dbl → Dbl → Dbl
  | fin a, fin b => ofRat (a + b)
  | inf a, inf b => if a = b then inf a else nan
  | fin _, inf b => inf b
  | inf a, fin _ => inf a
  | _, _ => nan

/-- Comparison `x > c` with a finite right operand; false on not-a-number. -/
def gt (x : Dbl) (c : ℚ) : Bool :=
  match x with
  | fin q => decide (c < q)
  | inf neg => !neg
  | nan => false

end Dbl

/-- Conversion `static_cast<int>(x)` of a double: truncation toward zero,
undefined (`none`) when the truncated value does not fit a 32-bit `int`. -/
def toInt (x : ℚ) : Option Int :=
  let t := Int.tdiv x.num (x.den : Int)
  if -(2 ^ 31 : Int) ≤ t ∧ t < (2 ^ 31 : Int) then some t else none

/-- A 3D point (`Eigen::Vector3d`, `double[3]`). -/
abbrev Vec3 := ℚ × ℚ × ℚ

/-- A 4x4 row-major matrix (`Eigen::Isometry3d`, `double matx[16]`). -/
abbrev Isometry3d := Fin 4 → Fin 4 → ℚ

/-- Product `mat * p` of an isometry with a 3D point (affine part). -/
def Isometry3d.apply (m : Isometry3d) (p : Vec3) : Vec3 :=
  (m 0 0 * p.1 + m 0 1 * p.2.1 + m 0 2 * p.2.2 + m 0 3,
   m 1 0 * p.1 + m 1 1 * p.2.1 + m 1 2 * p.2.2 + m 1 3,
   m 2 0 * p.1 + m 2 1 * p.2.1 + m 2 2 * p.2.2 + m 2 3)

/-! ## Messages -/

/-- The LCM type `bot_core::image_t`. -/
structure image_t where
  utime : Int
  width : Int
  height : Int
  row_stride : Int
  pixelformat : Int
  size : Int
  data : List Nat
  deriving DecidableEq

/-- Constant `bot_core::image_t::PIXEL_FORMAT_RGB` (declared with the LCM
type; the proofs use only that the format constants are distinct). -/
def PIXEL_FORMAT_RGB : Int := 859981650

/-- Constant `bot_core::image_t::PIXEL_FORMAT_MJPEG`. -/
def PIXEL_FORMAT_MJPEG : Int := 1196444237

/-- The LCM type `multisense::images_t`. -/
structure images_t where
  utime : Int
  n_images : Int
  image_types : List Int
  images : List image_t
  deriving DecidableEq

/-! ## Collaborators -/

/-- The camera model behind a `BotCamTrans*`. -/
structure BotCamTrans where
  /-- Function `bot_camtrans_project_point`: `some pix` when it returns 0. -/
  project_point : Vec3 → Option (ℚ × ℚ)
  /-- Function `bot_camtrans_unproject_pixel`: the ray it writes. -/
  unproject_pixel : ℚ → ℚ → Vec3
  /-- Function `bot_camtrans_get_image_width`. -/
  get_image_width : ℚ

/-- The collaborators of the queue. -/
structure Env where
  /-- Function `jpeg_decompress_8u_rgb src size dest w h stride`: the byte of
  `dest` at each index after the call. -/
  jpeg_decompress_8u_rgb : List Nat → Int → List Nat → Nat → Nat → Nat → Nat → Nat
  /-- In-place `bot_core::image_t::decode` of a payload over a previous value. -/
  image_decode : List Nat → image_t → image_t
  /-- Method `multisense::images_t::decode` into a fresh local message. -/
  images_decode : List Nat → images_t
  /-- Function `bot_frames_get_trans_mat_4x4_with_utime`: `some matx` when the
  status is non-zero. -/
  bot_frames_get_trans : String → String → Int → Option Isometry3d

/-! ## Maps -/

/-- Lookup `QMap::value(key)`: the value of the first entry with the key. -/
def qvalue {K V : Type} [DecidableEq K] (k : K) : List (K × V) → Option V
  | [] => none
  | (k', v) :: rest => if k' = k then some v else qvalue k rest

/-- Insertion `QMap::operator[](key) = v`, keeping the keys ascending. -/
def qinsert {K V : Type} [LT K] [DecidableRel (fun a b : K => a < b)] [DecidableEq K]
    (k : K) (v : V) : List (K × V) → List (K × V)
  | [] => [(k, v)]
  | (k', v') :: rest =>
    if k < k' then (k, v) :: (k', v') :: rest
    else if k = k' then (k, v) :: rest
    else (k', v') :: qinsert k v rest

/-- Write through the pointer stored under `key`: the pointee of the first
entry with the key is replaced. -/
def qstore {K V : Type} [DecidableEq K] (k : K) (v : V) : List (K × V) → List (K × V)
  | [] => []
  | (k', v') :: rest => if k' = k then (k', v) :: rest else (k', v') :: qstore k v rest

/-! ## Camera records and the queue -/

/-- The struct `CameraData`. -/
structure CameraData where
  mName : String
  mHasCalibration : Bool
  mCamTrans : Option BotCamTrans
  mCoordFrame : String
  mImageMessage : image_t
  mImageBuffer : List Nat
  mLocalToCamera : Isometry3d
  mBodyToCamera : Isometry3d

/-- The slot a subscriber is connected to. -/
inductive Slot where
  | onImagesMessage
  | onImageMessage
  deriving DecidableEq

/-- The members of `ddBotImageQueue`. -/
structure Queue where
  mCameraData : List (String × CameraData)
  mChannelMap : List (String × List (Int × String))
  mSubscribers : List (String × Slot)

/-- Method `getCameraData`: `mCameraData.value(cameraName, NULL)`. -/
def getCameraData (q : Queue) (cameraName : String) : Option CameraData :=
  qvalue cameraName q.mCameraData

/-- Method `getTransform(from, to, mat, utime)`: `mat` after the call. -/
def getTransform (env : Env) (from_frame to_frame : String) (mat : Isometry3d)
    (utime : Int) : Isometry3d :=
  match env.bot_frames_get_trans from_frame to_frame utime with
  | none => mat
  | some matx => matx

/-- The block `if (cameraData->mHasCalibration) { getTransform ...; getTransform ... }`
that ends both ingest handlers. -/
def refreshTransforms (env : Env) (cd : CameraData) : CameraData :=
  if cd.mHasCalibration then
    { cd with
      mLocalToCamera :=
        getTransform env "local" cd.mCoordFrame cd.mLocalToCamera cd.mImageMessage.utime
      mBodyToCamera :=
        getTransform env "utorso" cd.mCoordFrame cd.mBodyToCamera cd.mImageMessage.utime }
  else cd

/-- Non-const `mChannelMap[channel]`: the map after the access (a missing
channel gets an empty binding map). -/
def channelMapTouch (channel : String) (m : List (String × List (Int × String))) :
    List (String × List (Int × String)) :=
  match qvalue channel m with
  | some _ => m
  | none => qinsert channel [] m

/-- The binding map `mChannelMap[channel]`. -/
def channelBindings (channel : String) (m : List (String × List (Int × String))) :
    List (Int × String) :=
  (qvalue channel m).getD []

/-- Method `onImageMessage`. -/
def onImageMessage (env : Env) (q : Queue) (data : List Nat) (channel : String) :
    Option Queue :=
  let bindings := channelBindings channel q.mChannelMap
  -- `mChannelMap[channel][-1]` inserts a default name when the key is missing
  let (cameraName, channelMap') :=
    match qvalue (-1) bindings with
    | some name => (name, q.mChannelMap)
    | none => ("", qinsert channel (qinsert (-1) "" bindings) q.mChannelMap)
  match getCameraData q cameraName with
  | none => none
  | some cd =>
    let cd1 := { cd with mImageMessage := env.image_decode data cd.mImageMessage }
    let cd2 := { cd1 with mImageBuffer := [] }
    let cd3 := refreshTransforms env cd2
    some { q with mCameraData := qstore cameraName cd3 q.mCameraData
                  mChannelMap := channelMap' }

/-- The inner loop of `onImagesMessage` from index `i` on, over the `n`
remaining indices: `none` on an out-of-range access, `some none` when no
sub-image has the type. -/
def findImage (message : images_t) (imageType : Int) : Nat → Nat → Option (Option image_t)
  | _, 0 => some none
  | i, n + 1 =>
    match message.image_types[i]? with
    | none => none
    | some ty =>
      if ty = imageType then
        match message.images[i]? with
        | none => none
        | some im => some (some im)
      else findImage message imageType (i + 1) n

/-- The outer loop of `onImagesMessage` over the bindings still to visit. -/
def onImagesLoop (env : Env) (message : images_t) :
    List (Int × String) → List (String × CameraData) → Option (List (String × CameraData))
  | [], cams => some cams
  | (imageType, cameraName) :: rest, cams =>
    match findImage message imageType 0 message.n_images.toNat with
    | none => none
    | some none => some cams
    | some (some imageMessage) =>
      match qvalue cameraName cams with
      | none => none
      | some cd =>
        let cd1 := { cd with mImageMessage := imageMessage }
        let cd2 := { cd1 with mImageBuffer := [] }
        let cd3 := refreshTransforms env cd2
        onImagesLoop env message rest (qstore cameraName cd3 cams)

/-- Method `onImagesMessage`. -/
def onImagesMessage (env : Env) (q : Queue) (data : List Nat) (channel : String) :
    Option Queue :=
  let message := env.images_decode data
  let cameraNameMap := channelBindings channel q.mChannelMap
  match onImagesLoop env message cameraNameMap q.mCameraData with
  | none => none
  | some cams =>
    some { q with mCameraData := cams
                  mChannelMap := channelMapTouch channel q.mChannelMap }

/-! ## Decode cache -/

/-- A `vtkImageData`: either a fresh empty object, or an image of extent
`(0, xmax, 0, ymax, 0, 0)` with 3 unsigned char components and the bytes
`scalars` in its scalar memory. -/
inductive vtkImageData where
  | empty
  | rgb (xmax ymax : Int) (scalars : List Nat)
  deriving DecidableEq

/-- The statements `mImageBuffer.resize(buf_size); jpeg_decompress_8u_rgb(...)`
on an empty buffer: the buffer afterwards. -/
def jpegInto (env : Env) (m : image_t) (w h buf_size : Nat) : List Nat :=
  let dest := List.replicate buf_size 0
  (List.range buf_size).map
    (env.jpeg_decompress_8u_rgb m.data m.size dest w h (sizeMul w 3))

/-- Conversion of a `size_t` to `int` (the arguments of `SetWholeExtent`). -/
def sizeToInt (n : Nat) : Int := ((n : Int) + 2 ^ 31) % 2 ^ 32 - 2 ^ 31

/-- The number of bytes `AllocateScalars` provides for the extent
`(0, w-1, 0, h-1, 0, 0)` with 3 unsigned char components; an extent with a
negative maximum is empty. -/
def scalarCapacity (w h : Nat) : Nat :=
  let xmax := sizeToInt (sizeSub w 1)
  let ymax := sizeToInt (sizeSub h 1)
  if xmax < 0 ∨ ymax < 0 then 0 else (xmax + 1).toNat * (ymax + 1).toNat * 3

/-- The statement `std::copy(mImageBuffer.begin(), mImageBuffer.end(), outPtr)`
into newly allocated scalars of `capacity` bytes that hold the bytes `fresh`:
the scalars afterwards, undefined (`none`) when the buffer is longer than the
scalars. -/
def copyIntoScalars (fresh : Nat → Nat) (capacity : Nat) (buffer : List Nat) :
    Option (List Nat) :=
  if buffer.length ≤ capacity then
    some (buffer ++
      (List.range (capacity - buffer.length)).map (fun i => fresh (buffer.length + i)))
  else none

/-- The end of `toVtkImage`, from `SetWholeExtent` on: the image built from
the decoded buffer of the record. -/
def fillImage (fresh : Nat → Nat) (w h : Nat) (cd : CameraData) (calls : Nat) :
    Option (vtkImageData × CameraData × Nat) :=
  (copyIntoScalars fresh (scalarCapacity w h) cd.mImageBuffer).map fun scalars =>
    (vtkImageData.rgb (sizeToInt (sizeSub w 1)) (sizeToInt (sizeSub h 1)) scalars, cd, calls)

/-- Method `toVtkImage`: the image returned, the record afterwards, and the
number of calls of the JPEG codec; `fresh` is the content of the scalar memory
when it is allocated. -/
def toVtkImage (env : Env) (fresh : Nat → Nat) (cd : CameraData) :
    Option (vtkImageData × CameraData × Nat) :=
  let w := toSizeT cd.mImageMessage.width
  let h := toSizeT cd.mImageMessage.height
  let buf_size := sizeMul (sizeMul w h) 3
  if buf_size = 0 then some (vtkImageData.empty, cd, 0)
  else if cd.mImageBuffer.length = 0 then
    if cd.mImageMessage.pixelformat = PIXEL_FORMAT_RGB then
      fillImage fresh w h { cd with mImageBuffer := cd.mImageMessage.data } 0
    else if cd.mImageMessage.pixelformat ≠ PIXEL_FORMAT_MJPEG then
      some (vtkImageData.empty, cd, 0)
    else
      fillImage fresh w h
        { cd with mImageBuffer := jpegInto env cd.mImageMessage w h buf_size } 1
  else fillImage fresh w h cd 0

/-! ## Point collections -/

/-- A point-data array: a `vtkUnsignedCharArray` or a `vtkFloatArray`, with
its number of components and its values, tuple after tuple. -/
inductive DataArray where
  | uchar (comps : Nat) (data : List Nat)
  | float (comps : Nat) (data : List Dbl)
  deriving DecidableEq

/-- A `vtkPolyData`: its points and the named arrays of its point data. -/
structure vtkPolyData where
  points : List Vec3
  arrays : List (String × DataArray)
  deriving DecidableEq

/-- Call `polyData->GetPointData()->GetArray(name)`. -/
def getArray (polyData : vtkPolyData) (name : String) : Option DataArray :=
  qvalue name polyData.arrays

/-- Call `polyData->GetPointData()->AddArray(array)`: an array of the same
name is replaced, otherwise the array is appended. -/
def addArray (name : String) (array : DataArray) (arrays : List (String × DataArray)) :
    List (String × DataArray) :=
  match qvalue name arrays with
  | some _ => qstore name array arrays
  | none => arrays ++ [(name, array)]

/-- Call `array->SetComponent(i, j, v)` on an array of `comps` components:
undefined (`none`) when the value index is out of range. -/
def setComponent {α : Type} (data : List α) (comps i j : Nat) (v : α) : Option (List α) :=
  if i * comps + j < data.length then some (data.set (i * comps + j) v) else none

/-! ## Colorizer -/

/-- The test `mName == "CAMERACHEST_LEFT" || mName == "CAMERACHEST_RIGHT"`. -/
def computeDist (cd : CameraData) : Bool :=
  cd.mName = "CAMERACHEST_LEFT" || cd.mName = "CAMERACHEST_RIGHT"

/-- The test `((0.5 - u)*(0.5 - u) + (0.5 - v)*(0.5 - v)) > 0.2` of
`colorizePoints`, with `float u = pix[0] / (w-1)` and `float v = pix[1] / (h-1)`:
the quotients are doubles narrowed to `float`, the sum of squares is computed
in `double` and compared with the double nearest to 0.2. -/
def vignetteTest (pix : ℚ × ℚ) (w h : Nat) : Bool :=
  let u := Dbl.toFloat (Dbl.divSize pix.1 (sizeSub w 1))
  let v := Dbl.toFloat (Dbl.divSize pix.2 (sizeSub h 1))
  Dbl.gt (Dbl.add (Dbl.mul (Dbl.rsub (1/2) u) (Dbl.rsub (1/2) u))
                  (Dbl.mul (Dbl.rsub (1/2) v) (Dbl.rsub (1/2) v)))
    (roundValue 53 (-1022) (1/5))

/-- The `int` product `px*3`: undefined (`none`) on overflow. -/
def intMul3 (px : Int) : Option Int :=
  if px * 3 < (2 ^ 31 : Int) ∧ -(2 ^ 31 : Int) ≤ px * 3 then some (px * 3) else none

/-- The offset `bufIndex = w*py*3 + px*3` of `colorizePoints`, in `size_t`
arithmetic (`px3` is the `int` product `px*3`). -/
def bufIndex (w : Nat) (px3 py : Int) : Nat :=
  sizeAdd (sizeMul (sizeMul w (toSizeT py)) 3) (toSizeT px3)

/-- One iteration of the loop of `colorizePoints` for point `i`: the values
of the `rgb` array (of `comps` components) after it. -/
def colorizePoint (cd : CameraData) (w h : Nat) (comps : Nat) (i : Nat) (ptLocal : Vec3)
    (rgb : List Nat) : Option (List Nat) :=
  let pt := Isometry3d.apply cd.mLocalToCamera ptLocal
  match cd.mCamTrans with
  | none => none
  | some camTrans =>
    match camTrans.project_point pt with
    | none => some rgb
    | some pix =>
      match toInt pix.1, toInt pix.2 with
      | some px, some py =>
        if 0 ≤ px ∧ px.toNat < w ∧ 0 ≤ py ∧ py.toNat < h then
          if computeDist cd ∧ vignetteTest pix w h then some rgb
          else
            match intMul3 px with
            | none => none
            | some px3 =>
              match cd.mImageBuffer[sizeAdd (bufIndex w px3 py) 0]?,
                    cd.mImageBuffer[sizeAdd (bufIndex w px3 py) 1]?,
                    cd.mImageBuffer[sizeAdd (bufIndex w px3 py) 2]? with
              | some r, some g, some b =>
                (setComponent rgb comps i 0 r).bind fun rgb1 =>
                (setComponent rgb1 comps i 1 g).bind fun rgb2 =>
                setComponent rgb2 comps i 2 b
              | _, _, _ => none
        else some rgb
      | _, _ => none

/-- The loop of `colorizePoints` from point `i` on. -/
def colorizeLoop (cd : CameraData) (w h : Nat) (comps : Nat) :
    Nat → List Vec3 → List Nat → Option (List Nat)
  | _, [], rgb => some rgb
  | i, ptLocal :: rest, rgb =>
    match colorizePoint cd w h comps i ptLocal rgb with
    | none => none
    | some rgb' => colorizeLoop cd w h comps (i + 1) rest rgb'

/-- The block of `colorizePoints` that fetches the `rgb` array or, when
`SafeDownCast` yields null, creates it with 3 components and one white tuple
per point and adds it: the number of components, the values, and the arrays
of the point data afterwards. -/
def ensureRgbArray (polyData : vtkPolyData) : Nat × List Nat × List (String × DataArray) :=
  match getArray polyData "rgb" with
  | some (DataArray.uchar comps data) => (comps, data, polyData.arrays)
  | _ =>
    let data := List.replicate (3 * polyData.points.length) 255
    (3, data, addArray "rgb" (DataArray.uchar 3 data) polyData.arrays)

/-- The record after the block `if (!mImageBuffer.size()) { ... }` of
`colorizePoints`, when the block does not return. -/
def colorizeDecode (env : Env) (cd : CameraData) : CameraData :=
  let w := toSizeT cd.mImageMessage.width
  let h := toSizeT cd.mImageMessage.height
  let buf_size := sizeMul (sizeMul w h) 3
  if cd.mImageBuffer.length = 0
  then { cd with mImageBuffer := jpegInto env cd.mImageMessage w h buf_size }
  else cd

/-- Method `colorizePoints(polyData, cameraData)`: the point collection and
the record afterwards. -/
def colorizePoints (env : Env) (polyData : vtkPolyData) (cd : CameraData) :
    Option (vtkPolyData × CameraData) :=
  if ¬ cd.mHasCalibration then some (polyData, cd)
  else
    let w := toSizeT cd.mImageMessage.width
    let h := toSizeT cd.mImageMessage.height
    if cd.mImageBuffer.length = 0 ∧ cd.mImageMessage.pixelformat ≠ PIXEL_FORMAT_MJPEG then
      some (polyData, cd)
    else
      let cd' := colorizeDecode env cd
      let (comps, rgb, arrays) := ensureRgbArray polyData
      match colorizeLoop cd' w h comps 0 polyData.points rgb with
      | none => none
      | some rgb' =>
        some ({ polyData with arrays := qstore "rgb" (DataArray.uchar comps rgb') arrays }, cd')

/-! ## Frustum bounds -/

/-- Method `getCameraFrustumBounds(cameraData)`. -/
def getCameraFrustumBounds (cd : CameraData) : Option (List ℚ) :=
  match cd.mCamTrans with
  | none => none
  | some camTrans =>
    let width := camTrans.get_image_width
    let height := camTrans.get_image_width
    let ray : List Vec3 :=
      [camTrans.unproject_pixel 0 0, camTrans.unproject_pixel width 0,
       camTrans.unproject_pixel width height, camTrans.unproject_pixel 0 height]
    some (ray.foldl (fun rays pt => rays ++ [pt.1, pt.2.1, pt.2.2]) [])

/-- Method `getCameraFrustumBounds(cameraName)`. -/
def Queue.getCameraFrustumBounds (q : Queue) (cameraName : String) : Option (List ℚ) :=
  match getCameraData q cameraName with
  | none => some []
  | some cd => ddBotImageQueue.getCameraFrustumBounds cd

/-! ## Texture mapper -/

/-- One iteration of the loop of `computeTextureCoords` for point `i`: the
quotients `pix[0] / (w-1)` and `pix[1] / (h-1)`, narrowed to `float`, are
written to tuple `i`. -/
def textureCoordPoint (cd : CameraData) (w h : Nat) (comps : Nat) (i : Nat) (ptLocal : Vec3)
    (tcoords : List Dbl) : Option (List Dbl) :=
  let pt := ptLocal
  match cd.mCamTrans with
  | none => none
  | some camTrans =>
    match camTrans.project_point pt with
    | none => some tcoords
    | some pix =>
      let u := Dbl.toFloat (Dbl.divSize pix.1 (sizeSub w 1))
      let v := Dbl.toFloat (Dbl.divSize pix.2 (sizeSub h 1))
      (setComponent tcoords comps i 0 u).bind fun t1 => setComponent t1 comps i 1 v

/-- The loop of `computeTextureCoords` from point `i` on. -/
def textureCoordLoop (cd : CameraData) (w h : Nat) (comps : Nat) :
    Nat → List Vec3 → List Dbl → Option (List Dbl)
  | _, [], tcoords => some tcoords
  | i, ptLocal :: rest, tcoords =>
    match textureCoordPoint cd w h comps i ptLocal tcoords with
    | none => none
    | some tcoords' => textureCoordLoop cd w h comps (i + 1) rest tcoords'

/-- The block of `computeTextureCoords` that fetches the array
`tcoords_<name>` or, when `SafeDownCast` yields null, creates it with 2
components and one tuple `(-1, -1)` per point and adds it. -/
def ensureTcoordsArray (polyData : vtkPolyData) (arrayName : String) :
    Nat × List Dbl × List (String × DataArray) :=
  match getArray polyData arrayName with
  | some (DataArray.float comps data) => (comps, data, polyData.arrays)
  | _ =>
    let data := List.replicate (2 * polyData.points.length) (Dbl.fin (-1))
    (2, data, addArray arrayName (DataArray.float 2 data) polyData.arrays)

/-- Method `computeTextureCoords(polyData, cameraData)`. -/
def computeTextureCoords (polyData : vtkPolyData) (cd : CameraData) : Option vtkPolyData :=
  if ¬ cd.mHasCalibration then some polyData
  else
    let w := toSizeT cd.mImageMessage.width
    let h := toSizeT cd.mImageMessage.height
    let arrayName := "tcoords_" ++ cd.mName
    let (comps, tcoords, arrays) := ensureTcoordsArray polyData arrayName
    match textureCoordLoop cd w h comps 0 polyData.points tcoords with
    | none => none
    | some tcoords' =>
      some { polyData with arrays := qstore arrayName (DataArray.float comps tcoords') arrays }

/-! ## Registration -/

/-- What `initCameraData` and `addCameraStream` take from outside this file:
the parameter server behind `mBotParam`, the conversion `QString::toAscii`,
and the value of a freshly constructed `CameraData` (its constructor is
declared in the header). -/
structure Setup where
  /-- Conversion `name.toAscii().data()`. -/
  toAscii : String → String
  /-- Function `bot_param_get_new_camtrans`: `none` for a null result. -/
  bot_param_get_new_camtrans : String → Option BotCamTrans
  /-- Function `bot_param_get_str`: `some val` when it returns 0. -/
  bot_param_get_str : String → Option String
  /-- The object `new CameraData`. -/
  newCameraData : CameraData

/-- Method `initCameraData`: the value returned and the record afterwards. -/
def initCameraData (setup : Setup) (cameraName : String) (cameraData : CameraData) :
    Bool × CameraData :=
  let cd1 := { cameraData with mName := setup.toAscii cameraName, mHasCalibration := true }
  let cd2 := { cd1 with mCamTrans := setup.bot_param_get_new_camtrans (setup.toAscii cameraName) }
  let cd3 := if cd2.mCamTrans.isNone then { cd2 with mHasCalibration := false } else cd2
  let key := "cameras." ++ cameraName ++ ".coord_frame"
  let cd4 :=
    match setup.bot_param_get_str (setup.toAscii key) with
    | some val => { cd3 with mCoordFrame := val }
    | none => { cd3 with mHasCalibration := false }
  (true, cd4)

/-- Method `addCameraStream(channel, cameraName, imageType)`: the value
returned and the queue afterwards. -/
def addCameraStream (setup : Setup) (q : Queue) (channel cameraName : String)
    (imageType : Int) : Bool × Queue :=
  let created : Option (List (String × CameraData)) :=
    if ¬ (qvalue cameraName q.mCameraData).isSome then
      let r := initCameraData setup cameraName setup.newCameraData
      if ¬ r.1 then none else some (qinsert cameraName r.2 q.mCameraData)
    else some q.mCameraData
  match created with
  | none => (false, q)
  | some cameras =>
    let channelMap :=
      qinsert channel (qinsert imageType cameraName (channelBindings channel q.mChannelMap))
        q.mChannelMap
    let subscribers :=
      if ¬ (qvalue channel q.mSubscribers).isSome then
        qinsert channel
          (if imageType ≥ 0 then Slot.onImagesMessage else Slot.onImageMessage) q.mSubscribers
      else q.mSubscribers
    (true, { mCameraData := cameras, mChannelMap := channelMap, mSubscribers := subscribers })

/-- Method `addCameraStream(channel)`. -/
def addCameraStreamOfChannel (setup : Setup) (q : Queue) (channel : String) : Bool × Queue :=
  addCameraStream setup q channel channel (-1)

/-- The constructor of `ddBotImageQueue`: the three maps are empty. -/
def newQueue : Queue := { mCameraData := [], mChannelMap := [], mSubscribers := [] }

/-- The queue after a sequence of `addCameraStream(channel, cameraName,
imageType)` calls. -/
def addCameraStreams (setup : Setup) (q : Queue) (calls : List (String × String × Int)) : Queue :=
  calls.foldl (fun q c => (addCameraStream setup q c.1 c.2.1 c.2.2).2) q

/-! ## Vocabulary of the statements -/

/-- A decoded multi-image message whose vectors have `n_images` entries. -/
def images_t.WF (message : images_t) : Prop :=
  message.n_images = (message.image_types.length : Int) ∧
    message.image_types.length = message.images.length

instance (message : images_t) : Decidable message.WF := by
  unfold images_t.WF
  infer_instance

/-- Sub-image `im` is the first one of the message that carries tag `t`. -/
def FirstWithTag (message : images_t) (t : Int) (im : image_t) : Prop :=
  ∃ j, message.image_types[j]? = some t ∧ message.images[j]? = some im ∧
    ∀ k : Nat, k < j → message.image_types[k]? ≠ some t

/-- The bindings `onImagesMessage` visits before it returns: those before the
first binding whose image type is not among the tags of the message. -/
def visitedBindings (message : images_t) (bindings : List (Int × String)) :
    List (Int × String) :=
  bindings.takeWhile (fun b => decide (b.1 ∈ message.image_types))

/-- The decoding of a raw frame that `toVtkImage` stores in an empty decoded
buffer: the data of a raw RGB frame, the output of the codec otherwise. -/
def decodedFrame (env : Env) (m : image_t) : List Nat :=
  if m.pixelformat = PIXEL_FORMAT_RGB then m.data
  else jpegInto env m (toSizeT m.width) (toSizeT m.height)
    (sizeMul (sizeMul (toSizeT m.width) (toSizeT m.height)) 3)

/-- The next `toVtkImage` call on the record sees the raw frame of the record
and nothing else of the record: the image it returns is the one any record
with the same raw frame and an empty decoded buffer yields, and the pixel data
of a returned image are the decoding of the raw frame, followed, when the
decoding is shorter than the scalar memory, by the bytes that memory held when
it was allocated. -/
def NextImageFromFrame (env : Env) (cd : CameraData) : Prop :=
  (∀ (fresh : Nat → Nat) (other : CameraData), other.mImageBuffer = [] →
    other.mImageMessage = cd.mImageMessage →
    (toVtkImage env fresh cd).map (fun r => r.1)
      = (toVtkImage env fresh other).map (fun r => r.1)) ∧
  (∀ (fresh : Nat → Nat) (xmax ymax : Int) (scalars : List Nat),
    (toVtkImage env fresh cd).map (fun r => r.1) = some (vtkImageData.rgb xmax ymax scalars) →
    scalars = decodedFrame env cd.mImageMessage ++
      (List.range (scalarCapacity (toSizeT cd.mImageMessage.width)
          (toSizeT cd.mImageMessage.height) - (decodedFrame env cd.mImageMessage).length)).map
        (fun i => fresh ((decodedFrame env cd.mImageMessage).length + i)))

/-- The projection `colorizePoints` computes for a point: the camera model
applied to the cached `mLocalToCamera` transform of the point. -/
def projectedPixel (cd : CameraData) (ptLocal : Vec3) : Option (ℚ × ℚ) :=
  match cd.mCamTrans with
  | none => none
  | some camTrans => camTrans.project_point (Isometry3d.apply cd.mLocalToCamera ptLocal)

/-- The first three components of tuple `i` of an array of `comps`
components. -/
def tuple3At (data : List Nat) (comps i : Nat) : Option (Nat × Nat × Nat) :=
  match data[i * comps + 0]?, data[i * comps + 1]?, data[i * comps + 2]? with
  | some r, some g, some b => some (r, g, b)
  | _, _, _ => none

/-- The first three components of tuple `i` of the unsigned char array with
the given name (`GetComponent(i, 0..2)`). -/
def getTuple3 (polyData : vtkPolyData) (name : String) (i : Nat) : Option (Nat × Nat × Nat) :=
  match getArray polyData name with
  | some (DataArray.uchar comps data) => tuple3At data comps i
  | _ => none

/-- The first two components of tuple `i` of an array of `comps` components. -/
def tuple2At (data : List Dbl) (comps i : Nat) : Option (Dbl × Dbl) :=
  match data[i * comps + 0]?, data[i * comps + 1]? with
  | some u, some v => some (u, v)
  | _, _ => none

/-- The first two components of tuple `i` of the float array with the given
name (`GetComponent(i, 0..1)`). -/
def getTuple2 (polyData : vtkPolyData) (name : String) (i : Nat) : Option (Dbl × Dbl) :=
  match getArray polyData name with
  | some (DataArray.float comps data) => tuple2At data comps i
  | _ => none

/-- The projection `computeTextureCoords` computes for a point: the camera
model applied to the point itself. -/
def texturePixel (cd : CameraData) (ptLocal : Vec3) : Option (ℚ × ℚ) :=
  match cd.mCamTrans with
  | none => none
  | some camTrans => camTrans.project_point ptLocal

/-- The registry invariant: every camera name bound in the channel map has
a record, every channel of the channel map has a subscriber, and no channel
has two subscribers. -/
def RegistryInv (q : Queue) : Prop :=
  (∀ e ∈ q.mChannelMap, ∀ b ∈ e.2, (getCameraData q b.2).isSome) ∧
  (∀ e ∈ q.mChannelMap, (qvalue e.1 q.mSubscribers).isSome) ∧
  (∀ channel : String, (q.mSubscribers.map Prod.fst).count channel ≤ 1)

/-- The sentinel invariant: a channel whose subscriber is connected to
`onImageMessage` has a binding for the image type -1. -/
def SentinelInv (q : Queue) : Prop :=
  ∀ channel : String, qvalue channel q.mSubscribers = some Slot.onImageMessage →
    (qvalue (-1) (channelBindings channel q.mChannelMap)).isSome

/-! ## Example data -/

/-- The identity transform. -/
def identityTransform : Isometry3d := fun i j => if i = j then 1 else 0

/-- A translation by 10 along x. -/
def shiftTransform : Isometry3d := fun i j => if i = j then 1 else if i = 0 ∧ j = 3 then 10 else 0

/-- A camera model that maps a point in front of the camera (`z > 0`) to the
pixel `(x, y)` and fails for other points. -/
def exCamTrans : BotCamTrans :=
  { project_point := fun p => if 0 < p.2.2 then some (p.1, p.2.1) else none
    unproject_pixel := fun x y => (x, y, 1)
    get_image_width := 2 }

/-- A raw frame of the given size and pixel format. -/
def exFrame (w h : Int) (pixelformat : Int) (data : List Nat) : image_t :=
  { utime := 1, width := w, height := h, row_stride := 3 * w, pixelformat := pixelformat,
    size := (data.length : Int), data := data }

/-- Example collaborators: the codec copies the source bytes, a single-image
payload is `[width, height, bytes...]` in MJPEG format, a multi-image payload
lists the tags of its 1x1 sub-images, and no frame transform is known. -/
def exEnv : Env :=
  { jpeg_decompress_8u_rgb := fun src _ _ _ _ _ i => src.getD i 0
    image_decode := fun data old =>
      { old with width := (data.getD 0 0 : Nat), height := (data.getD 1 0 : Nat),
                 pixelformat := PIXEL_FORMAT_MJPEG, size := (data.length : Int) - 2,
                 data := data.drop 2 }
    images_decode := fun data =>
      { utime := 0, n_images := (data.length : Int),
        image_types := data.map (fun t => (t : Int)),
        images := data.map (fun t => exFrame 1 1 PIXEL_FORMAT_MJPEG [t, t + 1, t + 2]) }
    bot_frames_get_trans := fun _ _ _ => none }

/-- A calibrated camera record with the given name, raw frame and decoded buffer. -/
def exRecord (name : String) (frame : image_t) (buffer : List Nat) : CameraData :=
  { mName := name, mHasCalibration := true, mCamTrans := some exCamTrans,
    mCoordFrame := "head", mImageMessage := frame, mImageBuffer := buffer,
    mLocalToCamera := identityTransform, mBodyToCamera := identityTransform }

/-- A queue with two cameras fed by the multi-image channel `CAMERA` and one
of them also by its own single-image channel; both decoded buffers are populated. -/
def exQueue : Queue :=
  { mCameraData :=
      [("CAMERA_LEFT", exRecord "CAMERA_LEFT" (exFrame 1 1 PIXEL_FORMAT_MJPEG [50, 51, 52]) [50, 51, 52]),
       ("CAMERA_RIGHT", exRecord "CAMERA_RIGHT" (exFrame 1 1 PIXEL_FORMAT_MJPEG [60, 61, 62]) [60, 61, 62])]
    mChannelMap :=
      [("CAMERA", [(0, "CAMERA_LEFT"), (1, "CAMERA_RIGHT")]),
       ("CAMERA_LEFT", [(-1, "CAMERA_LEFT")])]
    mSubscribers := [("CAMERA", Slot.onImagesMessage), ("CAMERA_LEFT", Slot.onImageMessage)] }

/-- The example queue with both image types of channel `CAMERA` bound to the
same camera (`addCameraStream("CAMERA", "CAMERA_LEFT", 0)` followed by
`addCameraStream("CAMERA", "CAMERA_LEFT", 1)`). -/
def exQueueShared : Queue :=
  { exQueue with
    mChannelMap :=
      [("CAMERA", [(0, "CAMERA_LEFT"), (1, "CAMERA_LEFT")]),
       ("CAMERA_LEFT", [(-1, "CAMERA_LEFT")])] }

/-- A point collection without attribute arrays: the first point is behind
the example camera, the second projects to pixel (5, 5), the third to (1, 1),
the fourth to (0, 0) and the fifth to (3/4, 1/2). -/
def exPoints : vtkPolyData :=
  { points := [(0, 0, -1), (5, 5, 1), (1, 1, 1), (0, 0, 1), (3/4, 1/2, 1)], arrays := [] }

/-- Twelve decoded or compressed bytes of a 2x2 image. -/
def exBytes : List Nat := [10, 11, 12, 20, 21, 22, 30, 31, 32, 40, 41, 42]

/-- Constant `bot_core::image_t::PIXEL_FORMAT_GRAY`, a format `toVtkImage`
and `colorizePoints` do not decode. -/
def PIXEL_FORMAT_GRAY : Int := 1497715271

/-- A record whose camera model was found but whose `coord_frame` key was
not: `initCameraData` leaves `mHasCalibration` false. -/
def exUncalibrated : CameraData :=
  { exRecord "CAMERA_LEFT" (exFrame 2 2 PIXEL_FORMAT_MJPEG exBytes) [] with
    mHasCalibration := false, mCoordFrame := "" }

/-- A calibrated chest camera record with a 2x2 MJPEG frame and an empty
decoded buffer. -/
def exChest : CameraData :=
  exRecord "CAMERACHEST_LEFT" (exFrame 2 2 PIXEL_FORMAT_MJPEG exBytes) []

/-- The example points after `colorizePoints` on the chest camera record: only
the fifth point is coloured. -/
def exChestColored : vtkPolyData :=
  { exPoints with arrays := [("rgb", DataArray.uchar 3
      [255, 255, 255, 255, 255, 255, 255, 255, 255, 255, 255, 255, 10, 11, 12])] }

/-- A calibrated record of camera `CAMERA_LEFT` with a 2x2 MJPEG frame. -/
def exLeft : CameraData :=
  exRecord "CAMERA_LEFT" (exFrame 2 2 PIXEL_FORMAT_MJPEG exBytes) []

/-- The example points after `computeTextureCoords` on `exLeft`. -/
def exTextured : vtkPolyData :=
  { exPoints with arrays := [("tcoords_CAMERA_LEFT", DataArray.float 2
      [Dbl.fin (-1), Dbl.fin (-1), Dbl.fin 5, Dbl.fin 5, Dbl.fin 1, Dbl.fin 1,
       Dbl.fin 0, Dbl.fin 0, Dbl.fin (3/4), Dbl.fin (1/2)])] }

/-- A collection of one point in front of the camera, after an earlier
`computeTextureCoords` call on `exLeft`. -/
def exOnePointTextured : vtkPolyData :=
  { points := [(1, 1, 1)],
    arrays := [("tcoords_CAMERA_LEFT", DataArray.float 2 [Dbl.fin 1, Dbl.fin 1])] }

/-- The record `exLeft` with a cached `mLocalToCamera` that shifts x by 10. -/
def exLeftShifted : CameraData :=
  { exLeft with mLocalToCamera := shiftTransform }

/-- A calibrated record with an empty decoded buffer whose raw frame is a 2x2
image in raw RGB format. -/
def exRgb : CameraData :=
  exRecord "CAMERA_LEFT" (exFrame 2 2 PIXEL_FORMAT_RGB exBytes) []

/-- The example collaborators with a single-image decoder that yields a 2x2
frame in raw RGB format whose data are the payload bytes. -/
def exEnvRgb : Env :=
  { exEnv with
    image_decode := fun data old =>
      { old with width := 2, height := 2, pixelformat := PIXEL_FORMAT_RGB,
                 size := (data.length : Int), data := data } }

/-- The record of `CAMERA_LEFT` after a single-image message that carries a
2x2 raw RGB frame with three data bytes, followed by a `toVtkImage` call. -/
def exShortFrameRecord : Option CameraData :=
  ((onImageMessage exEnvRgb exQueue [1, 2, 3] "CAMERA_LEFT").bind
      (fun q' => getCameraData q' "CAMERA_LEFT")).bind
    (fun cd => (toVtkImage exEnvRgb (fun _ => 0) cd).map (fun r => r.2.1))

/-- A queue whose camera `CAMERA_LEFT` holds a 2x2 MJPEG frame and the twelve
bytes decoded from it. -/
def exQueueDecoded : Queue :=
  { exQueue with
    mCameraData :=
      [("CAMERA_LEFT", exRecord "CAMERA_LEFT" (exFrame 2 2 PIXEL_FORMAT_MJPEG exBytes) exBytes)] }

/-- Scalar memory that still holds the pixel data of the image made from the
twelve example bytes. -/
def exStaleMemory : Nat → Nat := fun i => exBytes.getD i 0

/-- A record with an empty decoded buffer whose raw frame is a 2x2 image in
raw RGB format with three data bytes instead of twelve. -/
def exShortRgb : CameraData :=
  exRecord "CAMERA_LEFT" (exFrame 2 2 PIXEL_FORMAT_RGB [1, 2, 3]) []

/-- A record with an empty decoded buffer whose raw frame is a 2x2 image in
raw RGB format with thirteen data bytes instead of twelve. -/
def exLongRgb : CameraData :=
  exRecord "CAMERA_LEFT" (exFrame 2 2 PIXEL_FORMAT_RGB (exBytes ++ [50])) []

/-- An example setup: every camera has a model and a coordinate frame, and a
new record has a 1x1 MJPEG frame and an empty decoded buffer. -/
def exSetup : Setup :=
  { toAscii := fun s => s
    bot_param_get_new_camtrans := fun _ => some exCamTrans
    bot_param_get_str := fun _ => some "head"
    newCameraData := exRecord "" (exFrame 1 1 PIXEL_FORMAT_MJPEG [0, 0, 0]) [] }

/-- The four `addCameraStream` calls of `init`
(`multisense::images_t::LEFT` is 0). -/
def initCalls : List (String × String × Int) :=
  [("CAMERACHEST_LEFT", "CAMERACHEST_LEFT", -1), ("CAMERACHEST_RIGHT", "CAMERACHEST_RIGHT", -1),
   ("CAMERA_LEFT", "CAMERA_LEFT", -1), ("CAMERA", "CAMERA_LEFT", 0)]

/-! ## Lemmas on rounding -/

theorem pow2_eq_zpow (k : Int) : pow2 k = (2 : ℚ) ^ k := by
  unfold pow2
  split
  · rename_i h
    obtain ⟨n, rfl⟩ := Int.eq_ofNat_of_zero_le h
    simp
  · rename_i h
    have hk : 0 ≤ -k := by omega
    obtain ⟨n, hn⟩ := Int.eq_ofNat_of_zero_le hk
    have e : k = -(n : Int) := by omega
    subst e
    simp

theorem pow2_pos (k : Int) : 0 < pow2 k := by
  rw [pow2_eq_zpow]; positivity

theorem pow2_add (a b : Int) : pow2 (a + b) = pow2 a * pow2 b := by
  simp only [pow2_eq_zpow]
  exact zpow_add₀ (by norm_num) a b

theorem pow2_le_pow2 {a b : Int} (h : a ≤ b) : pow2 a ≤ pow2 b := by
  simp only [pow2_eq_zpow]
  exact zpow_le_zpow_right₀ (by norm_num) h

theorem pow2_lt_pow2 {a b : Int} (h : a < b) : pow2 a < pow2 b := by
  simp only [pow2_eq_zpow]
  exact zpow_lt_zpow_right₀ (by norm_num) h

theorem pow2_natCast (n : Nat) : pow2 (n : Int) = ((2 ^ n : Nat) : ℚ) := by
  rw [pow2_eq_zpow]; simp

theorem halvings_spec : ∀ (fuel n : Nat), 1 ≤ n → n ≤ fuel →
    2 ^ halvings fuel n ≤ n ∧ n < 2 ^ (halvings fuel n + 1) := by
  intro fuel
  induction fuel with
  | zero => intro n h1 h2; omega
  | succ fuel ih =>
    intro n h1 h2
    unfold halvings
    by_cases h : 2 ≤ n
    · simp only [h, if_true]
      have hdiv : 1 ≤ n / 2 := by omega
      have hle : n / 2 ≤ fuel := by omega
      obtain ⟨a, b⟩ := ih (n / 2) hdiv hle
      constructor
      · rw [pow_succ]; omega
      · rw [pow_succ]; omega
    · simp only [h, if_false]
      constructor <;> simp <;> omega

theorem natLog2_spec (n : Nat) (h : 1 ≤ n) :
    2 ^ natLog2 n ≤ n ∧ n < 2 ^ (natLog2 n + 1) :=
  halvings_spec n n h (le_refl _)

/-- The integer part of the binary logarithm brackets a positive rational. -/
theorem ilog2_spec (a : ℚ) (ha : 0 < a) :
    pow2 (ilog2 a) ≤ a ∧ a < pow2 (ilog2 a + 1) := by
  have hnum : 0 < a.num := Rat.num_pos.mpr ha
  have hden : 0 < a.den := a.den_pos
  obtain ⟨n, hn⟩ := Int.eq_ofNat_of_zero_le (le_of_lt hnum)
  have hn1 : 1 ≤ n := by omega
  obtain ⟨n1, n2⟩ := natLog2_spec n hn1
  obtain ⟨d1, d2⟩ := natLog2_spec a.den hden
  have hnt : a.num.toNat = n := by omega
  have hdq : (0 : ℚ) < (a.den : ℚ) := by exact_mod_cast hden
  have hmul : a * (a.den : ℚ) = (n : ℚ) := by
    have h1 : a * (a.den : ℚ) = (a.num : ℚ) := Rat.mul_den_eq_num a
    rw [h1, hn]
    simp
  -- bounds of numerator and denominator as rationals
  have qn1 : pow2 (natLog2 n : Int) ≤ (n : ℚ) := by
    rw [pow2_natCast]; exact_mod_cast n1
  have qn2 : (n : ℚ) < pow2 ((natLog2 n : Int) + 1) := by
    have : ((natLog2 n : Int) + 1) = ((natLog2 n + 1 : Nat) : Int) := by push_cast; ring
    rw [this, pow2_natCast]; exact_mod_cast n2
  have qd1 : pow2 (natLog2 a.den : Int) ≤ (a.den : ℚ) := by
    rw [pow2_natCast]; exact_mod_cast d1
  have qd2 : (a.den : ℚ) < pow2 ((natLog2 a.den : Int) + 1) := by
    have : ((natLog2 a.den : Int) + 1) = ((natLog2 a.den + 1 : Nat) : Int) := by
      push_cast; ring
    rw [this, pow2_natCast]; exact_mod_cast d2
  -- with k0 = log2 n - log2 d:  2^(k0-1) < a < 2^(k0+1)
  have hlow : pow2 ((natLog2 n : Int) - (natLog2 a.den : Int) - 1) ≤ a := by
    apply le_of_mul_le_mul_right _ hdq
    rw [hmul]
    have e : (natLog2 n : Int) =
        ((natLog2 n : Int) - (natLog2 a.den : Int) - 1) + ((natLog2 a.den : Int) + 1) := by ring
    have h1 : pow2 ((natLog2 n : Int) - (natLog2 a.den : Int) - 1) * (a.den : ℚ) ≤
        pow2 ((natLog2 n : Int) - (natLog2 a.den : Int) - 1) *
          pow2 ((natLog2 a.den : Int) + 1) :=
      mul_le_mul_of_nonneg_left (le_of_lt qd2) (le_of_lt (pow2_pos _))
    rw [← pow2_add, ← e] at h1
    exact le_trans h1 qn1
  have hhigh : a < pow2 ((natLog2 n : Int) - (natLog2 a.den : Int) + 1) := by
    apply lt_of_mul_lt_mul_right _ (le_of_lt hdq)
    rw [hmul]
    have e : (natLog2 n : Int) + 1 =
        ((natLog2 n : Int) - (natLog2 a.den : Int) + 1) + (natLog2 a.den : Int) := by ring
    have h1 : pow2 ((natLog2 n : Int) - (natLog2 a.den : Int) + 1) *
          pow2 (natLog2 a.den : Int) ≤
        pow2 ((natLog2 n : Int) - (natLog2 a.den : Int) + 1) * (a.den : ℚ) :=
      mul_le_mul_of_nonneg_left qd1 (le_of_lt (pow2_pos _))
    rw [← pow2_add, ← e] at h1
    exact lt_of_lt_of_le qn2 h1
  unfold ilog2
  simp only [hnt]
  by_cases hc : pow2 ((natLog2 n : Int) - (natLog2 a.den : Int)) ≤ a
  · rw [if_pos hc]
    exact ⟨hc, hhigh⟩
  · rw [if_neg hc]
    refine ⟨hlow, ?_⟩
    have : (natLog2 n : Int) - (natLog2 a.den : Int) - 1 + 1 =
        (natLog2 n : Int) - (natLog2 a.den : Int) := by ring
    rw [this]
    exact lt_of_not_le hc

theorem ilog2_mono (a b : ℚ) (ha : 0 < a) (hab : a ≤ b) : ilog2 a ≤ ilog2 b := by
  by_contra hc
  have hlt : ilog2 b + 1 ≤ ilog2 a := by omega
  obtain ⟨a1, _⟩ := ilog2_spec a ha
  obtain ⟨_, b2⟩ := ilog2_spec b (lt_of_lt_of_le ha hab)
  have := pow2_le_pow2 hlt
  linarith

theorem roundHalfEven_eq (x : ℚ) :
    roundHalfEven x =
      if x - (⌊x⌋ : ℚ) < 1 / 2 then ⌊x⌋ else if 1 / 2 < x - (⌊x⌋ : ℚ) then ⌊x⌋ + 1
      else if ⌊x⌋ % 2 = 0 then ⌊x⌋ else ⌊x⌋ + 1 := by
  unfold roundHalfEven
  rw [← Rat.floor_def]

theorem roundHalfEven_mono (x y : ℚ) (h : x ≤ y) : roundHalfEven x ≤ roundHalfEven y := by
  rw [roundHalfEven_eq, roundHalfEven_eq]
  have hf : ⌊x⌋ ≤ ⌊y⌋ := Int.floor_mono h
  have x1 : (⌊x⌋ : ℚ) ≤ x := Int.floor_le x
  have y1 : (⌊y⌋ : ℚ) ≤ y := Int.floor_le y
  rcases lt_or_eq_of_le hf with hlt | heq
  · split_ifs <;> omega
  · rw [← heq]
    rw [← heq] at y1
    split_ifs <;> first | omega | (exfalso; linarith)

theorem roundHalfEven_intCast (m : Int) : roundHalfEven (m : ℚ) = m := by
  rw [roundHalfEven_eq]
  simp

theorem le_roundHalfEven (x : ℚ) (m : Int) (h : (m : ℚ) ≤ x) : m ≤ roundHalfEven x := by
  have := roundHalfEven_mono _ _ h
  rwa [roundHalfEven_intCast] at this

theorem roundHalfEven_le (x : ℚ) (m : Int) (h : x ≤ (m : ℚ)) : roundHalfEven x ≤ m := by
  have := roundHalfEven_mono _ _ h
  rwa [roundHalfEven_intCast] at this

theorem roundValue_of_pos (p : Nat) (emin : Int) (a : ℚ) (ha : 0 < a) :
    roundValue p emin a =
      (roundHalfEven (a / pow2 (max (ilog2 a) emin - ((p : Int) - 1))) : ℚ) *
        pow2 (max (ilog2 a) emin - ((p : Int) - 1)) := by
  unfold roundValue
  rw [if_neg (ne_of_gt ha)]
  simp only []
  rw [if_neg (not_lt.mpr (le_of_lt ha)), if_neg (not_lt.mpr (le_of_lt ha))]

theorem roundValue_zero (p : Nat) (emin : Int) : roundValue p emin 0 = 0 := by
  unfold roundValue
  rw [if_pos rfl]

theorem roundValue_neg (p : Nat) (emin : Int) (q : ℚ) :
    roundValue p emin (-q) = -roundValue p emin q := by
  rcases lt_trichotomy q 0 with h | h | h
  · have h2 : 0 < -q := by linarith
    rw [roundValue_of_pos p emin _ h2]
    unfold roundValue
    rw [if_neg (ne_of_lt h)]
    simp only []
    rw [if_pos h, if_pos h]
    simp
  · subst h
    simp [roundValue_zero]
  · have h2 : -q < 0 := by linarith
    rw [roundValue_of_pos p emin _ h]
    unfold roundValue
    rw [if_neg (ne_of_lt h2)]
    simp only []
    rw [if_pos h2, if_pos h2]
    simp

theorem roundValue_nonneg (p : Nat) (emin : Int) (q : ℚ) (h : 0 ≤ q) :
    0 ≤ roundValue p emin q := by
  rcases eq_or_lt_of_le h with h0 | h0
  · rw [← h0, roundValue_zero]
  · rw [roundValue_of_pos p emin q h0]
    have hk := pow2_pos (max (ilog2 q) emin - ((p : Int) - 1))
    have h1 : (0 : Int) ≤ roundHalfEven (q / pow2 (max (ilog2 q) emin - ((p : Int) - 1))) := by
      apply le_roundHalfEven
      have : 0 ≤ q / pow2 (max (ilog2 q) emin - ((p : Int) - 1)) := by positivity
      simpa using this
    have h2 : (0 : ℚ) ≤ (roundHalfEven (q / pow2 (max (ilog2 q) emin - ((p : Int) - 1))) : ℚ) := by
      exact_mod_cast h1
    positivity

theorem pow2_intCast (k : Int) (h : 0 ≤ k) : pow2 k = (((2 : Int) ^ k.toNat : Int) : ℚ) := by
  unfold pow2
  rw [if_pos h]
  push_cast
  rfl

theorem roundValue_mono_pos (p : Nat) (hp : 1 ≤ p) (emin : Int) (a b : ℚ) (ha : 0 < a)
    (hab : a ≤ b) : roundValue p emin a ≤ roundValue p emin b := by
  have hb : 0 < b := lt_of_lt_of_le ha hab
  rw [roundValue_of_pos p emin a ha, roundValue_of_pos p emin b hb]
  have hil := ilog2_mono a b ha hab
  obtain ⟨a1, a2⟩ := ilog2_spec a ha
  obtain ⟨b1, b2⟩ := ilog2_spec b hb
  rcases lt_or_eq_of_le (max_le_max hil (le_refl emin)) with hlt | heq
  · -- different quanta: a power of two lies between the two roundings
    have hbe : max (ilog2 b) emin = ilog2 b := by omega
    have hae : ilog2 a + 1 ≤ max (ilog2 b) emin := by omega
    have hmid : pow2 (max (ilog2 b) emin) ≤ b := by rw [hbe]; exact b1
    have hamid : a ≤ pow2 (max (ilog2 b) emin) := le_trans (le_of_lt a2) (pow2_le_pow2 hae)
    generalize max (ilog2 a) emin = ea at hlt hae hamid ⊢
    generalize max (ilog2 b) emin = eb at hlt hae hamid hmid hbe ⊢
    have hka := pow2_pos (ea - ((p : Int) - 1))
    have hkb := pow2_pos (eb - ((p : Int) - 1))
    have s1 : pow2 eb = pow2 (eb - (ea - ((p : Int) - 1))) * pow2 (ea - ((p : Int) - 1)) := by
      rw [← pow2_add]; congr 1; ring
    have s2 : pow2 eb = pow2 ((p : Int) - 1) * pow2 (eb - ((p : Int) - 1)) := by
      rw [← pow2_add]; congr 1; ring
    have n1 : (0 : Int) ≤ eb - (ea - ((p : Int) - 1)) := by omega
    have n2 : (0 : Int) ≤ (p : Int) - 1 := by omega
    have u1 : roundHalfEven (a / pow2 (ea - ((p : Int) - 1))) ≤
        (2 : Int) ^ (eb - (ea - ((p : Int) - 1))).toNat := by
      apply roundHalfEven_le
      rw [← pow2_intCast _ n1, div_le_iff₀ hka, ← s1]
      exact hamid
    have u2 : (2 : Int) ^ ((p : Int) - 1).toNat ≤
        roundHalfEven (b / pow2 (eb - ((p : Int) - 1))) := by
      apply le_roundHalfEven
      rw [← pow2_intCast _ n2, le_div_iff₀ hkb, ← s2]
      exact hmid
    have v1 : (roundHalfEven (a / pow2 (ea - ((p : Int) - 1))) : ℚ) ≤
        pow2 (eb - (ea - ((p : Int) - 1))) := by
      rw [pow2_intCast _ n1]; exact_mod_cast u1
    have v2 : pow2 ((p : Int) - 1) ≤
        (roundHalfEven (b / pow2 (eb - ((p : Int) - 1))) : ℚ) := by
      rw [pow2_intCast _ n2]; exact_mod_cast u2
    calc (roundHalfEven (a / pow2 (ea - ((p : Int) - 1))) : ℚ) * pow2 (ea - ((p : Int) - 1))
        ≤ pow2 (eb - (ea - ((p : Int) - 1))) * pow2 (ea - ((p : Int) - 1)) :=
          mul_le_mul_of_nonneg_right v1 (le_of_lt hka)
      _ = pow2 eb := s1.symm
      _ = pow2 ((p : Int) - 1) * pow2 (eb - ((p : Int) - 1)) := s2
      _ ≤ _ := mul_le_mul_of_nonneg_right v2 (le_of_lt hkb)
  · rw [heq]
    have hk := pow2_pos (max (ilog2 b) emin - ((p : Int) - 1))
    apply mul_le_mul_of_nonneg_right _ (le_of_lt hk)
    have := roundHalfEven_mono _ _ (div_le_div_of_nonneg_right hab (le_of_lt hk))
    exact_mod_cast this

/-- Rounding to nearest is monotone. -/
theorem roundValue_mono (p : Nat) (hp : 1 ≤ p) (emin : Int) (a b : ℚ) (hab : a ≤ b) :
    roundValue p emin a ≤ roundValue p emin b := by
  rcases lt_or_le 0 a with ha | ha
  · exact roundValue_mono_pos p hp emin a b ha hab
  · rcases lt_or_le b 0 with hb | hb
    · have h1 := roundValue_mono_pos p hp emin (-b) (-a) (by linarith) (by linarith)
      rw [roundValue_neg, roundValue_neg] at h1
      linarith
    · have h1 := roundValue_nonneg p emin b hb
      have h2 := roundValue_nonneg p emin (-a) (by linarith)
      rw [roundValue_neg] at h2
      linarith

theorem one_le_pow2 (k : Int) (h : 0 ≤ k) : 1 ≤ pow2 k := by
  have := pow2_le_pow2 h
  have e : pow2 0 = 1 := by rw [pow2_eq_zpow]; simp
  rwa [e] at this

/-- A value bracketed by two numbers of the format that are below the
overflow threshold rounds to a finite number between them. -/
theorem round_bracket (p : Nat) (hp : 1 ≤ p) (emin emax : Int) (q lo hi : ℚ)
    (h1 : lo ≤ q) (h2 : q ≤ hi)
    (e1 : roundValue p emin lo = lo) (e2 : roundValue p emin hi = hi)
    (b1 : -pow2 (emax + 1) < lo) (b2 : hi < pow2 (emax + 1)) :
    Dbl.round p emin emax q = Dbl.fin (roundValue p emin q) ∧
      lo ≤ roundValue p emin q ∧ roundValue p emin q ≤ hi := by
  have m1 := roundValue_mono p hp emin lo q h1
  have m2 := roundValue_mono p hp emin q hi h2
  rw [e1] at m1
  rw [e2] at m2
  refine ⟨?_, m1, m2⟩
  unfold Dbl.round
  simp only []
  rw [if_neg (by linarith), if_neg (by linarith)]

theorem ofRat_bracket (q lo hi : ℚ) (h1 : lo ≤ q) (h2 : q ≤ hi)
    (e1 : roundValue 53 (-1022) lo = lo) (e2 : roundValue 53 (-1022) hi = hi)
    (b1 : -1 < lo) (b2 : hi < 1) :
    ∃ r, Dbl.ofRat q = Dbl.fin r ∧ lo ≤ r ∧ r ≤ hi := by
  have hb := one_le_pow2 (1023 + 1) (by norm_num)
  obtain ⟨a, b, c⟩ := round_bracket 53 (by norm_num) (-1022) 1023 q lo hi h1 h2 e1 e2
    (by linarith) (by linarith)
  exact ⟨_, a, b, c⟩

theorem toFloat_bracket (q lo hi : ℚ) (h1 : lo ≤ q) (h2 : q ≤ hi)
    (e1 : roundValue 24 (-126) lo = lo) (e2 : roundValue 24 (-126) hi = hi)
    (b1 : -1 < lo) (b2 : hi < 1) :
    ∃ r, Dbl.toFloat (Dbl.fin q) = Dbl.fin r ∧ lo ≤ r ∧ r ≤ hi := by
  have hb := one_le_pow2 (127 + 1) (by norm_num)
  obtain ⟨a, b, c⟩ := round_bracket 24 (by norm_num) (-126) 127 q lo hi h1 h2 e1 e2
    (by linarith) (by linarith)
  exact ⟨_, a, b, c⟩

/-- A positive value that is an integer multiple of its own quantum rounds to itself. -/
theorem roundValue_exact (p : Nat) (emin : Int) (a : ℚ) (ha : 0 < a) (m : Int)
    (hm : a = (m : ℚ) * pow2 (max (ilog2 a) emin - ((p : Int) - 1))) :
    roundValue p emin a = a := by
  rw [roundValue_of_pos p emin a ha]
  have hk := pow2_pos (max (ilog2 a) emin - ((p : Int) - 1))
  have : a / pow2 (max (ilog2 a) emin - ((p : Int) - 1)) = (m : ℚ) := by
    rw [div_eq_iff (ne_of_gt hk)]; exact hm
  rw [this, roundHalfEven_intCast]
  exact hm.symm

/-- The natural numbers up to `2^p` belong to a format of `p` significant bits. -/
theorem roundValue_natCast (p : Nat) (hp : 1 ≤ p) (emin : Int) (hemin : emin ≤ 0) (n : Nat)
    (hn : n ≤ 2 ^ p) : roundValue p emin (n : ℚ) = (n : ℚ) := by
  rcases Nat.eq_zero_or_pos n with h0 | h0
  · subst h0; simp [roundValue_zero]
  have ha : (0 : ℚ) < (n : ℚ) := by exact_mod_cast h0
  obtain ⟨s1, s2⟩ := ilog2_spec (n : ℚ) ha
  have e0 : pow2 0 = 1 := by rw [pow2_eq_zpow]; simp
  have hnq : (1 : ℚ) ≤ (n : ℚ) := by exact_mod_cast h0
  have hlog : 0 ≤ ilog2 (n : ℚ) := by
    by_contra hc
    have : pow2 (ilog2 (n : ℚ) + 1) ≤ pow2 0 := pow2_le_pow2 (by omega)
    rw [e0] at this
    linarith
  have hmax : max (ilog2 (n : ℚ)) emin = ilog2 (n : ℚ) := by omega
  have hup : ilog2 (n : ℚ) ≤ (p : Int) := by
    by_contra hc
    have h3 : pow2 ((p : Int) + 1) ≤ pow2 (ilog2 (n : ℚ)) := pow2_le_pow2 (by omega)
    have h4 : pow2 ((p : Int)) < pow2 ((p : Int) + 1) := pow2_lt_pow2 (by omega)
    rw [pow2_natCast] at h4
    have h5 : (n : ℚ) ≤ ((2 ^ p : Nat) : ℚ) := by exact_mod_cast hn
    linarith
  rcases lt_or_eq_of_le hup with hlt | heq
  · -- the quantum is at most 1
    have hk : 0 ≤ -(ilog2 (n : ℚ) - ((p : Int) - 1)) := by omega
    apply roundValue_exact p emin (n : ℚ) ha ((n : Int) * (2 : Int) ^ (-(ilog2 (n : ℚ) - ((p : Int) - 1))).toNat)
    rw [hmax]
    push_cast
    have := pow2_intCast _ hk
    push_cast at this
    rw [← this, mul_assoc, ← pow2_add]
    simp [e0]
  · -- the value is `2^p`
    have h5 : (n : ℚ) ≤ ((2 ^ p : Nat) : ℚ) := by exact_mod_cast hn
    have h6 : (n : ℚ) = pow2 (p : Int) := by
      rw [heq] at s1
      rw [pow2_natCast] at s1 ⊢
      linarith
    apply roundValue_exact p emin (n : ℚ) ha ((2 : Int) ^ (p - 1))
    rw [hmax, heq, h6]
    have e1 : ((p : Int) - ((p : Int) - 1)) = 1 := by ring
    rw [e1]
    have e2 : (p : Int) = ((p - 1 : Nat) : Int) + 1 := by omega
    rw [e2, pow2_add, pow2_natCast]
    push_cast
    have e3 : p - 1 + 1 - 1 = p - 1 := by omega
    simp [e3]

/-! ## Lemmas on maps -/

theorem qvalue_qstore_same {K V : Type} [DecidableEq K] (k : K) (v : V)
    (m : List (K × V)) (h : (qvalue k m).isSome) : qvalue k (qstore k v m) = some v := by
  induction m with
  | nil => simp [qvalue] at h
  | cons e rest ih =>
    obtain ⟨k', v'⟩ := e
    by_cases hk : k' = k
    · simp [qstore, qvalue, hk]
    · simp [qstore, qvalue, hk] at h ⊢
      exact ih h

theorem qvalue_qstore_other {K V : Type} [DecidableEq K] (k k2 : K) (v : V)
    (m : List (K × V)) (h : k2 ≠ k) : qvalue k2 (qstore k v m) = qvalue k2 m := by
  induction m with
  | nil => simp [qstore]
  | cons e rest ih =>
    obtain ⟨k', v'⟩ := e
    by_cases hk : k' = k
    · subst hk
      have : ¬ k' = k2 := fun e => h e.symm
      simp [qstore, qvalue, this]
    · by_cases hk2 : k' = k2
      · subst hk2
        simp [qstore, qvalue, hk]
      · simp [qstore, qvalue, hk, hk2, ih]

/-! ## Lemmas on `size_t` arithmetic -/

theorem toSizeT_lt (x : Int) : toSizeT x < 2 ^ 64 := by
  unfold toSizeT
  have h1 : 0 ≤ x % (2 ^ 64 : Int) := Int.emod_nonneg _ (by norm_num)
  have h2 : x % (2 ^ 64 : Int) < 2 ^ 64 := Int.emod_lt_of_pos _ (by norm_num)
  omega

theorem sizeSub_one (w : Nat) (h1 : 1 ≤ w) (h2 : w < 2 ^ 64) : sizeSub w 1 = w - 1 := by
  unfold sizeSub
  omega

/-! ## Lemmas on the decode cache -/

theorem jpegInto_length (env : Env) (m : image_t) (w h n : Nat) :
    (jpegInto env m w h n).length = n := by
  simp [jpegInto]

theorem refreshTransforms_buffer (env : Env) (cd : CameraData) :
    (refreshTransforms env cd).mImageBuffer = cd.mImageBuffer := by
  unfold refreshTransforms
  split <;> rfl

theorem refreshTransforms_message (env : Env) (cd : CameraData) :
    (refreshTransforms env cd).mImageMessage = cd.mImageMessage := by
  unfold refreshTransforms
  split <;> rfl

/-- The end of `toVtkImage` returns exactly when the decoded buffer fits the
scalar memory; the image then holds the buffer, followed by what the memory
held. -/
theorem fillImage_of_le (fresh : Nat → Nat) (w h : Nat) (cd : CameraData) (calls : Nat)
    (hle : cd.mImageBuffer.length ≤ scalarCapacity w h) :
    fillImage fresh w h cd calls =
      some (vtkImageData.rgb (sizeToInt (sizeSub w 1)) (sizeToInt (sizeSub h 1))
        (cd.mImageBuffer ++ (List.range (scalarCapacity w h - cd.mImageBuffer.length)).map
          (fun i => fresh (cd.mImageBuffer.length + i))), cd, calls) := by
  unfold fillImage copyIntoScalars
  rw [if_pos hle]
  rfl

theorem fillImage_of_gt (fresh : Nat → Nat) (w h : Nat) (cd : CameraData) (calls : Nat)
    (hgt : scalarCapacity w h < cd.mImageBuffer.length) :
    fillImage fresh w h cd calls = none := by
  unfold fillImage copyIntoScalars
  rw [if_neg (by omega)]
  rfl

theorem fillImage_some (fresh : Nat → Nat) (w h : Nat) (cd : CameraData) (calls : Nat)
    (r : vtkImageData × CameraData × Nat) (hr : fillImage fresh w h cd calls = some r) :
    cd.mImageBuffer.length ≤ scalarCapacity w h ∧
    r = (vtkImageData.rgb (sizeToInt (sizeSub w 1)) (sizeToInt (sizeSub h 1))
      (cd.mImageBuffer ++ (List.range (scalarCapacity w h - cd.mImageBuffer.length)).map
        (fun i => fresh (cd.mImageBuffer.length + i))), cd, calls) := by
  by_cases hle : cd.mImageBuffer.length ≤ scalarCapacity w h
  · rw [fillImage_of_le fresh w h cd calls hle] at hr
    exact ⟨hle, (Option.some.inj hr).symm⟩
  · rw [fillImage_of_gt fresh w h cd calls (by omega)] at hr
    cases hr

/-- On a record with a populated decoded buffer `toVtkImage` goes straight to
the image. -/
theorem toVtkImage_populated (env : Env) (fresh : Nat → Nat) (cd : CameraData)
    (h0 : sizeMul (sizeMul (toSizeT cd.mImageMessage.width)
      (toSizeT cd.mImageMessage.height)) 3 ≠ 0)
    (hb : cd.mImageBuffer ≠ []) :
    toVtkImage env fresh cd =
      fillImage fresh (toSizeT cd.mImageMessage.width) (toSizeT cd.mImageMessage.height) cd 0 := by
  have hl : ¬ cd.mImageBuffer.length = 0 := by
    intro h; exact hb (List.length_eq_zero.mp h)
  unfold toVtkImage
  simp only []
  rw [if_neg h0, if_neg hl]

/-- With an empty decoded buffer the image `toVtkImage` returns is a
function of the raw frame and of the content of the new scalar memory. -/
theorem toVtkImage_of_empty (env : Env) (fresh : Nat → Nat) (a b : CameraData)
    (ha : a.mImageBuffer = []) (hb : b.mImageBuffer = [])
    (hm : a.mImageMessage = b.mImageMessage) :
    (toVtkImage env fresh a).map (fun r => r.1) = (toVtkImage env fresh b).map (fun r => r.1) := by
  unfold toVtkImage fillImage
  simp only [ha, hb, hm, List.length_nil]
  split_ifs <;> simp [Option.map_map, Function.comp_def]

/-- The pixel data of the image `toVtkImage` returns for a record with an
empty decoded buffer. -/
theorem toVtkImage_scalars_of_empty (env : Env) (fresh : Nat → Nat) (cd : CameraData)
    (he : cd.mImageBuffer = []) (xmax ymax : Int) (scalars : List Nat)
    (h : (toVtkImage env fresh cd).map (fun r => r.1)
      = some (vtkImageData.rgb xmax ymax scalars)) :
    scalars = decodedFrame env cd.mImageMessage ++
      (List.range (scalarCapacity (toSizeT cd.mImageMessage.width)
          (toSizeT cd.mImageMessage.height) - (decodedFrame env cd.mImageMessage).length)).map
        (fun i => fresh ((decodedFrame env cd.mImageMessage).length + i)) := by
  obtain ⟨r, hr, hr1⟩ := Option.map_eq_some'.mp h
  unfold toVtkImage at hr
  simp only [he, List.length_nil] at hr
  split_ifs at hr with h0 hrgb hj
  · cases hr; cases hr1
  · obtain ⟨_, e⟩ := fillImage_some _ _ _ _ _ _ hr
    subst e
    simp only [vtkImageData.rgb.injEq] at hr1
    rw [← hr1.2.2]
    simp only [decodedFrame, hrgb, if_true]
  · cases hr; cases hr1
  · obtain ⟨_, e⟩ := fillImage_some _ _ _ _ _ _ hr
    subst e
    simp only [vtkImageData.rgb.injEq] at hr1
    rw [← hr1.2.2]
    simp only [decodedFrame, hrgb, if_false]

theorem nextImageFromFrame_of_empty (env : Env) (cd : CameraData)
    (he : cd.mImageBuffer = []) : NextImageFromFrame env cd :=
  ⟨fun fresh other ho hm => toVtkImage_of_empty env fresh cd other he ho hm.symm,
   fun fresh xmax ymax scalars h => toVtkImage_scalars_of_empty env fresh cd he xmax ymax scalars h⟩

/-- For sizes from 1 to `2^31` the scalar memory has `w*h*3` bytes, the value
of `buf_size`. -/
theorem scalarCapacity_eq (w h : Nat) (hw1 : 1 ≤ w) (hw2 : w ≤ 2 ^ 31) (hh1 : 1 ≤ h)
    (hh2 : h ≤ 2 ^ 31) :
    scalarCapacity w h = w * h * 3 ∧ sizeMul (sizeMul w h) 3 = w * h * 3 := by
  have e1 : sizeSub w 1 = w - 1 := sizeSub_one w hw1 (by omega)
  have e2 : sizeSub h 1 = h - 1 := sizeSub_one h hh1 (by omega)
  have i1 : sizeToInt (w - 1) = ((w - 1 : Nat) : Int) := by
    unfold sizeToInt; omega
  have i2 : sizeToInt (h - 1) = ((h - 1 : Nat) : Int) := by
    unfold sizeToInt; omega
  have hm : w * h ≤ 2 ^ 31 * 2 ^ 31 := Nat.mul_le_mul hw2 hh2
  constructor
  · unfold scalarCapacity
    simp only []
    rw [e1, e2, i1, i2, if_neg (by omega)]
    have t1 : (((w - 1 : Nat) : Int) + 1).toNat = w := by omega
    have t2 : (((h - 1 : Nat) : Int) + 1).toNat = h := by omega
    rw [t1, t2]
  · unfold sizeMul
    have : w * h % 2 ^ 64 = w * h := Nat.mod_eq_of_lt (by omega)
    rw [this]
    exact Nat.mod_eq_of_lt (by omega)

/-! ## Lemmas on the multi-image ingest -/

theorem findImage_absent (message : images_t) (t : Int) :
    ∀ n i, i + n ≤ message.image_types.length →
      (∀ k : Nat, i ≤ k → k < i + n → message.image_types[k]? ≠ some t) →
      findImage message t i n = some none := by
  intro n
  induction n with
  | zero => intro i _ _; rfl
  | succ n ih =>
    intro i hlen habs
    have hi : i < message.image_types.length := by omega
    have h0 := habs i (le_refl _) (by omega)
    rw [List.getElem?_eq_getElem hi] at h0
    have hne : ¬ message.image_types[i] = t := fun e => h0 (by rw [e])
    rw [findImage, List.getElem?_eq_getElem hi]
    simp only [hne, if_false]
    exact ih (i + 1) (by omega) (fun k h1 h2 => habs k (by omega) (by omega))

theorem findImage_present (message : images_t) (t : Int) (im : image_t) (j : Nat)
    (hj : message.image_types[j]? = some t) (him : message.images[j]? = some im) :
    ∀ n i, i ≤ j → j < i + n →
      (∀ k : Nat, i ≤ k → k < j → message.image_types[k]? ≠ some t) →
      findImage message t i n = some (some im) := by
  intro n
  induction n with
  | zero => intro i h1 h2; omega
  | succ n ih =>
    intro i h1 h2 hfirst
    by_cases hij : i = j
    · subst hij
      rw [findImage, hj]
      simp [him]
    · have hjlt : j < message.image_types.length := by
        by_contra hc
        rw [List.getElem?_eq_none (by omega)] at hj
        cases hj
      have hi : i < message.image_types.length := by omega
      have h0 := hfirst i (le_refl _) (by omega)
      rw [List.getElem?_eq_getElem hi] at h0
      have hne : ¬ message.image_types[i] = t := fun e => h0 (by rw [e])
      rw [findImage, List.getElem?_eq_getElem hi]
      simp only [hne, if_false]
      exact ih (i + 1) (by omega) (by omega) (fun k h3 h4 => hfirst k (by omega) h4)

theorem findImage_of_mem (message : images_t) (hwf : message.WF) (t : Int)
    (ht : t ∈ message.image_types) :
    ∃ im, FirstWithTag message t im ∧
      findImage message t 0 message.n_images.toNat = some (some im) := by
  obtain ⟨hn, hl⟩ := hwf
  have hex : ∃ j : Nat, message.image_types[j]? = some t := List.mem_iff_getElem?.mp ht
  classical
  let j := Nat.find hex
  have hj : message.image_types[j]? = some t := Nat.find_spec hex
  have hmin : ∀ k : Nat, k < j → message.image_types[k]? ≠ some t :=
    fun k hk => Nat.find_min hex hk
  have hjlt : j < message.image_types.length := by
    by_contra hc
    rw [List.getElem?_eq_none (by omega)] at hj
    cases hj
  have hjim : j < message.images.length := by omega
  refine ⟨message.images[j], ⟨j, hj, List.getElem?_eq_getElem hjim, hmin⟩, ?_⟩
  apply findImage_present message t _ j hj (List.getElem?_eq_getElem hjim)
  · omega
  · rw [hn]; simp; exact hjlt
  · intro k _ hk; exact hmin k hk

theorem findImage_of_not_mem (message : images_t) (hwf : message.WF) (t : Int)
    (ht : t ∉ message.image_types) :
    findImage message t 0 message.n_images.toNat = some none := by
  obtain ⟨hn, _⟩ := hwf
  apply findImage_absent
  · rw [hn]; simp
  · intro k _ _ hk
    exact ht (List.mem_iff_getElem?.mpr ⟨k, hk⟩)

theorem FirstWithTag_unique (message : images_t) (t : Int) (a b : image_t)
    (ha : FirstWithTag message t a) (hb : FirstWithTag message t b) : a = b := by
  obtain ⟨i, hi1, hi2, hi3⟩ := ha
  obtain ⟨j, hj1, hj2, hj3⟩ := hb
  have hij : i = j := by
    rcases Nat.lt_trichotomy i j with h | h | h
    · exact absurd hi1 (hj3 i h)
    · exact h
    · exact absurd hj1 (hi3 j h)
  subst hij
  rw [hi2] at hj2
  exact Option.some.inj hj2

theorem onImagesLoop_append (env : Env) (message : images_t) :
    ∀ (pre rest : List (Int × String)) (cams : List (String × CameraData)),
      (∀ b ∈ pre, ∃ im, findImage message b.1 0 message.n_images.toNat = some (some im)) →
      onImagesLoop env message (pre ++ rest) cams =
        (onImagesLoop env message pre cams).bind (onImagesLoop env message rest) := by
  intro pre
  induction pre with
  | nil => intro rest cams _; simp [onImagesLoop]
  | cons b pre ih =>
    intro rest cams hfound
    obtain ⟨t, name⟩ := b
    obtain ⟨im, him⟩ := hfound (t, name) (List.mem_cons_self _ _)
    simp only [List.cons_append, onImagesLoop, him]
    cases hq : qvalue name cams with
    | none => simp
    | some cd =>
      simp only []
      exact ih rest _ (fun b hb => hfound b (List.mem_cons_of_mem _ hb))

theorem onImagesLoop_spec (env : Env) (message : images_t) :
    ∀ (bs : List (Int × String)) (cams : List (String × CameraData)),
      (∀ b ∈ bs, ∃ im, findImage message b.1 0 message.n_images.toNat = some (some im)) →
      (∀ b ∈ bs, (qvalue b.2 cams).isSome) →
      ∃ cams', onImagesLoop env message bs cams = some cams' ∧
        (∀ name, name ∉ bs.map Prod.snd → qvalue name cams' = qvalue name cams) ∧
        (∀ name, (qvalue name cams).isSome → (qvalue name cams').isSome) ∧
        (∀ pre t name suf, bs = pre ++ (t, name) :: suf → name ∉ suf.map Prod.snd →
          ∃ (cd : CameraData) (im : image_t), findImage message t 0 message.n_images.toNat = some (some im) ∧
            qvalue name cams' = some (refreshTransforms env
              { cd with mImageMessage := im, mImageBuffer := [] })) := by
  intro bs
  induction bs with
  | nil =>
    intro cams _ _
    refine ⟨cams, rfl, fun _ _ => rfl, fun _ h => h, ?_⟩
    intro pre t name suf h
    simp at h
  | cons b bs ih =>
    intro cams hfound hrec
    obtain ⟨t, name⟩ := b
    obtain ⟨im, him⟩ := hfound (t, name) (List.mem_cons_self _ _)
    have hsome := hrec (t, name) (List.mem_cons_self _ _)
    obtain ⟨cd, hcd⟩ := Option.isSome_iff_exists.mp hsome
    have hkeep : ∀ (v : CameraData) (n2 : String), (qvalue n2 cams).isSome →
        (qvalue n2 (qstore name v cams)).isSome := by
      intro v n2 h2
      by_cases hn : n2 = name
      · subst hn; rw [qvalue_qstore_same _ _ _ h2]; rfl
      · rw [qvalue_qstore_other _ _ _ _ hn]; exact h2
    obtain ⟨cams', hrun, hother, hpres, hlast⟩ :=
      ih (qstore name (refreshTransforms env
            { cd with mImageMessage := im, mImageBuffer := [] }) cams)
        (fun b hb => hfound b (List.mem_cons_of_mem _ hb))
        (fun b hb => hkeep _ _ (hrec b (List.mem_cons_of_mem _ hb)))
    refine ⟨cams', ?_, ?_, ?_, ?_⟩
    · simp only [onImagesLoop, him, hcd]
      exact hrun
    · intro n2 hn2
      simp only [List.map_cons, List.mem_cons, not_or] at hn2
      rw [hother n2 hn2.2, qvalue_qstore_other _ _ _ _ hn2.1]
    · intro n2 h2
      exact hpres n2 (hkeep _ _ h2)
    · intro pre t2 n2 suf hdec hn2
      cases pre with
      | nil =>
        simp only [List.nil_append, List.cons.injEq, Prod.mk.injEq] at hdec
        obtain ⟨⟨ht, hn⟩, hs⟩ := hdec
        subst ht; subst hn; subst hs
        refine ⟨cd, im, him, ?_⟩
        rw [hother name hn2]
        exact qvalue_qstore_same _ _ _ hsome
      | cons p pre =>
        simp only [List.cons_append, List.cons.injEq] at hdec
        exact hlast pre t2 n2 suf hdec.2 hn2

theorem dropWhile_head {α : Type} (p : α → Bool) :
    ∀ l : List α, l.dropWhile p = [] ∨ ∃ b rest, l.dropWhile p = b :: rest ∧ p b = false := by
  intro l
  induction l with
  | nil => left; rfl
  | cons a l ih =>
    by_cases h : p a = true
    · simpa [List.dropWhile, h] using ih
    · right
      exact ⟨a, l, by simp [List.dropWhile, h], by simpa using h⟩

theorem exists_last_binding (name : String) :
    ∀ l : List (Int × String), name ∈ l.map Prod.snd →
      ∃ pre t suf, l = pre ++ (t, name) :: suf ∧ name ∉ suf.map Prod.snd := by
  intro l
  induction l with
  | nil => intro h; simp at h
  | cons a l ih =>
    intro h
    by_cases hl : name ∈ l.map Prod.snd
    · obtain ⟨pre, t, suf, he, hs⟩ := ih hl
      exact ⟨a :: pre, t, suf, by rw [he]; rfl, hs⟩
    · have ha : a.2 = name := by
        simp only [List.map_cons, List.mem_cons] at h
        rcases h with h | h
        · exact h.symm
        · exact absurd h hl
      refine ⟨[], a.1, l, ?_, hl⟩
      rw [← ha]
      rfl

/-- What `onImagesMessage` does on a well-formed message when the records of
the visited bindings exist: it returns, the records named by no visited binding
are untouched, and the record named last by a visited binding holds the first
sub-image with that tag. -/
theorem onImagesMessage_spec (env : Env) (q : Queue) (data : List Nat) (channel : String)
    (hwf : (env.images_decode data).WF)
    (hrec : ∀ b ∈ visitedBindings (env.images_decode data)
        (channelBindings channel q.mChannelMap), (getCameraData q b.2).isSome) :
    ∃ q', onImagesMessage env q data channel = some q' ∧
      (∀ name, name ∉ (visitedBindings (env.images_decode data)
          (channelBindings channel q.mChannelMap)).map Prod.snd →
        getCameraData q' name = getCameraData q name) ∧
      (∀ pre t name suf, visitedBindings (env.images_decode data)
          (channelBindings channel q.mChannelMap) = pre ++ (t, name) :: suf →
        name ∉ suf.map Prod.snd →
        ∃ (cd : CameraData) (im : image_t), FirstWithTag (env.images_decode data) t im ∧
          getCameraData q' name = some (refreshTransforms env
            { cd with mImageMessage := im, mImageBuffer := [] })) := by
  have hfound : ∀ b ∈ visitedBindings (env.images_decode data)
      (channelBindings channel q.mChannelMap),
      ∃ im, findImage (env.images_decode data) b.1 0 (env.images_decode data).n_images.toNat
        = some (some im) := by
    intro b hb
    have hp := List.mem_takeWhile_imp hb
    obtain ⟨im, _, h⟩ := findImage_of_mem _ hwf b.1 (of_decide_eq_true hp)
    exact ⟨im, h⟩
  obtain ⟨cams', hrun, hother, _, hlast⟩ :=
    onImagesLoop_spec env (env.images_decode data) _ q.mCameraData hfound hrec
  have hsplit : channelBindings channel q.mChannelMap =
      visitedBindings (env.images_decode data) (channelBindings channel q.mChannelMap) ++
        (channelBindings channel q.mChannelMap).dropWhile
          (fun b => decide (b.1 ∈ (env.images_decode data).image_types)) :=
    (List.takeWhile_append_dropWhile _ _).symm
  have hrest : onImagesLoop env (env.images_decode data)
      ((channelBindings channel q.mChannelMap).dropWhile
        (fun b => decide (b.1 ∈ (env.images_decode data).image_types))) cams' = some cams' := by
    rcases dropWhile_head (fun b : Int × String =>
        decide (b.1 ∈ (env.images_decode data).image_types))
        (channelBindings channel q.mChannelMap) with h | ⟨b, rest, h, hb⟩
    · rw [h]; rfl
    · rw [h]
      obtain ⟨t, name⟩ := b
      have : t ∉ (env.images_decode data).image_types := by simpa using hb
      simp only [onImagesLoop, findImage_of_not_mem _ hwf t this]
  have hloop : onImagesLoop env (env.images_decode data)
      (channelBindings channel q.mChannelMap) q.mCameraData = some cams' := by
    rw [hsplit, onImagesLoop_append env _ _ _ _ hfound, hrun]
    exact hrest
  refine ⟨{ q with mCameraData := cams', mChannelMap := channelMapTouch channel q.mChannelMap },
    ?_, ?_, ?_⟩
  · simp only [onImagesMessage, hloop]
  · intro name hn
    exact hother name hn
  · intro pre t name suf hdec hn
    obtain ⟨cd, im, him, hq⟩ := hlast pre t name suf hdec hn
    refine ⟨cd, im, ?_, hq⟩
    have hmem : (t, name) ∈ visitedBindings (env.images_decode data)
        (channelBindings channel q.mChannelMap) := by
      rw [hdec]; simp
    have hp := List.mem_takeWhile_imp hmem
    obtain ⟨im2, hfirst, h2⟩ := findImage_of_mem _ hwf t (of_decide_eq_true hp)
    rw [him] at h2
    have : im = im2 := Option.some.inj (Option.some.inj h2)
    rw [this]
    exact hfirst

/-- What `onImageMessage` does when the record it looks up exists: it returns
and stores the updated record under the looked-up name. -/
theorem onImageMessage_spec (env : Env) (q : Queue) (data : List Nat) (channel : String)
    (cd : CameraData)
    (hcd : getCameraData q ((qvalue (-1) (channelBindings channel q.mChannelMap)).getD "")
      = some cd) :
    ∃ q', onImageMessage env q data channel = some q' ∧
      q'.mCameraData = qstore ((qvalue (-1) (channelBindings channel q.mChannelMap)).getD "")
        (refreshTransforms env
          { cd with mImageMessage := env.image_decode data cd.mImageMessage,
                    mImageBuffer := [] }) q.mCameraData := by
  unfold onImageMessage
  cases hb : qvalue (-1) (channelBindings channel q.mChannelMap) with
  | none =>
    rw [hb] at hcd
    simp only [Option.getD_none] at hcd
    simp only [hb, hcd, Option.getD_none]
    exact ⟨_, rfl, rfl⟩
  | some name =>
    rw [hb] at hcd
    simp only [Option.getD_some] at hcd
    simp only [hb, hcd, Option.getD_some]
    exact ⟨_, rfl, rfl⟩

/-! ## C1: an ingest empties the decoded buffer -/

/-- C1. After `onImageMessage` the record bound to the channel holds the
decoded message as its raw frame, and after `onImagesMessage` the record of
every binding it updates holds the first sub-image tagged with the image type
of the last visited binding of that record; in both cases the decoded buffer
is empty, whatever it held before.  The image the next `toVtkImage` returns
for such a record is the one any record with the same raw frame and an empty
buffer yields, and its pixel data are the decoding of the new raw frame,
followed, when that decoding is shorter than `w*h*3` bytes, by the bytes the
new scalar memory held.  Both handlers return when the records they look up
exist (and the multi-image message is well-formed). -/
theorem C1_ingest_empties_decoded_buffer (env : Env) (q : Queue) (data : List Nat)
    (channel : String) :
    (∀ cd, getCameraData q ((qvalue (-1) (channelBindings channel q.mChannelMap)).getD "")
          = some cd →
      ∃ q' cd', onImageMessage env q data channel = some q' ∧
        getCameraData q' ((qvalue (-1) (channelBindings channel q.mChannelMap)).getD "")
          = some cd' ∧
        cd'.mImageMessage = env.image_decode data cd.mImageMessage ∧
        cd'.mImageBuffer = [] ∧
        NextImageFromFrame env cd') ∧
    ((env.images_decode data).WF →
      (∀ b ∈ visitedBindings (env.images_decode data) (channelBindings channel q.mChannelMap),
        (getCameraData q b.2).isSome) →
      ∃ q', onImagesMessage env q data channel = some q' ∧
        ∀ b ∈ visitedBindings (env.images_decode data) (channelBindings channel q.mChannelMap),
          ∃ (pre suf : List (Int × String)) (t : Int) (im : image_t) (cd' : CameraData),
            visitedBindings (env.images_decode data) (channelBindings channel q.mChannelMap)
              = pre ++ (t, b.2) :: suf ∧
            b.2 ∉ suf.map Prod.snd ∧
            FirstWithTag (env.images_decode data) t im ∧
            getCameraData q' b.2 = some cd' ∧
            cd'.mImageMessage = im ∧
            cd'.mImageBuffer = [] ∧
            NextImageFromFrame env cd') := by
  constructor
  · intro cd hcd
    have hsome : (qvalue ((qvalue (-1) (channelBindings channel q.mChannelMap)).getD "")
        q.mCameraData).isSome := by
      unfold getCameraData at hcd
      rw [hcd]; rfl
    obtain ⟨q', hrun, hcams⟩ := onImageMessage_spec env q data channel cd hcd
    refine ⟨q', refreshTransforms env
      { cd with mImageMessage := env.image_decode data cd.mImageMessage, mImageBuffer := [] },
      hrun, ?_, ?_, ?_, ?_⟩
    · unfold getCameraData
      rw [hcams]
      exact qvalue_qstore_same _ _ _ hsome
    · rw [refreshTransforms_message]
    · rw [refreshTransforms_buffer]
    · exact nextImageFromFrame_of_empty env _ (by rw [refreshTransforms_buffer])
  · intro hwf hrec
    obtain ⟨q', hrun, _, hlast⟩ := onImagesMessage_spec env q data channel hwf hrec
    refine ⟨q', hrun, ?_⟩
    intro b hb
    obtain ⟨pre, t, suf, hdec, hsuf⟩ := exists_last_binding b.2 _ (List.mem_map_of_mem _ hb)
    obtain ⟨cd, im, him, hq⟩ := hlast pre t b.2 suf hdec hsuf
    refine ⟨pre, suf, t, im, _, hdec, hsuf, him, hq, ?_, ?_, ?_⟩
    · rw [refreshTransforms_message]
    · rw [refreshTransforms_buffer]
    · exact nextImageFromFrame_of_empty env _ (by rw [refreshTransforms_buffer])

/-- Witness of C1, and the failing input.  On the example queue, whose decoded
buffers are populated, a single-image message on `CAMERA_LEFT` and a
multi-image message with tags 0 and 1 on `CAMERA` leave the new frames and
empty buffers, and the next image of `CAMERA_LEFT` is the decoding of the new
frame.  When the new frame is a 2x2 raw RGB frame with three data bytes and
the scalar memory of the next image still holds the twelve bytes of the image
made from the prior frame, the next image carries the three new bytes followed
by nine bytes decoded from the prior frame. -/
theorem C1_ingest_empties_decoded_buffer_witness :
    (∃ q' cd', onImageMessage exEnv exQueue [1, 1, 7, 8, 9] "CAMERA_LEFT" = some q' ∧
        getCameraData q' "CAMERA_LEFT" = some cd' ∧
        cd'.mImageMessage = exEnv.image_decode [1, 1, 7, 8, 9]
          (exFrame 1 1 PIXEL_FORMAT_MJPEG [50, 51, 52]) ∧
        cd'.mImageBuffer = [] ∧
        (toVtkImage exEnv exStaleMemory cd').map (fun r => r.1)
          = some (vtkImageData.rgb 0 0 [7, 8, 9])) ∧
    (∃ q', onImagesMessage exEnv exQueue [0, 1] "CAMERA" = some q' ∧
        ∀ b ∈ [((0 : Int), "CAMERA_LEFT"), ((1 : Int), "CAMERA_RIGHT")],
          ∃ (pre suf : List (Int × String)) (t : Int) (im : image_t) (cd' : CameraData),
            [((0 : Int), "CAMERA_LEFT"), ((1 : Int), "CAMERA_RIGHT")] = pre ++ (t, b.2) :: suf ∧
            b.2 ∉ suf.map Prod.snd ∧
            FirstWithTag (exEnv.images_decode [0, 1]) t im ∧
            getCameraData q' b.2 = some cd' ∧ cd'.mImageMessage = im ∧
            cd'.mImageBuffer = []) ∧
    (onImagesMessage exEnv exQueue [0, 1] "CAMERA").bind (fun q' =>
        (getCameraData q' "CAMERA_RIGHT").map (fun cd' => (cd'.mImageMessage, cd'.mImageBuffer)))
      = some (exFrame 1 1 PIXEL_FORMAT_MJPEG [1, 2, 3], []) ∧
    (getCameraData exQueueDecoded "CAMERA_LEFT").map (fun cd => cd.mImageBuffer)
      = some exBytes ∧
    (onImageMessage exEnvRgb exQueueDecoded [1, 2, 3] "CAMERA_LEFT").bind (fun q' =>
        (getCameraData q' "CAMERA_LEFT").bind (fun cd' =>
          (toVtkImage exEnvRgb exStaleMemory cd').map (fun r => r.1)))
      = some (vtkImageData.rgb 1 1 [1, 2, 3, 20, 21, 22, 30, 31, 32, 40, 41, 42]) := by
  have h := C1_ingest_empties_decoded_buffer exEnv exQueue [1, 1, 7, 8, 9] "CAMERA_LEFT"
  have h2 := C1_ingest_empties_decoded_buffer exEnv exQueue [0, 1] "CAMERA"
  refine ⟨?_, ?_, by decide, by decide, by decide⟩
  · obtain ⟨q', cd', h1, h3, h4, h5, h6⟩ := h.1 _ rfl
    refine ⟨q', cd', h1, h3, h4, h5, ?_⟩
    rw [h6.1 exStaleMemory (exRecord "" (exEnv.image_decode [1, 1, 7, 8, 9]
      (exFrame 1 1 PIXEL_FORMAT_MJPEG [50, 51, 52])) []) rfl h4.symm]
    decide
  · obtain ⟨q', h1, h3⟩ := h2.2 (by decide) (by decide)
    refine ⟨q', h1, ?_⟩
    intro b hb
    obtain ⟨pre, suf, t, im, cd', h4, h5, h6, h7, h8, h9, _⟩ := h3 b hb
    exact ⟨pre, suf, t, im, cd', h4, h5, h6, h7, h8, h9⟩

/-! ## C2: two consecutive calls of the decode cache -/

/-- The second of two `toVtkImage` calls, on a record whose decoded buffer
fits the scalar memory and is the buffer the cache block would produce. -/
theorem toVtkImage_again (env : Env) (fresh : Nat → Nat) (cd : CameraData)
    (h0 : sizeMul (sizeMul (toSizeT cd.mImageMessage.width)
      (toSizeT cd.mImageMessage.height)) 3 ≠ 0)
    (hle : cd.mImageBuffer.length ≤ scalarCapacity (toSizeT cd.mImageMessage.width)
      (toSizeT cd.mImageMessage.height))
    (hcase : cd.mImageBuffer ≠ [] ∨
      (cd.mImageMessage.pixelformat = PIXEL_FORMAT_RGB ∧
        cd.mImageMessage.data = cd.mImageBuffer)) :
    toVtkImage env fresh cd =
      some (vtkImageData.rgb (sizeToInt (sizeSub (toSizeT cd.mImageMessage.width) 1))
        (sizeToInt (sizeSub (toSizeT cd.mImageMessage.height) 1))
        (cd.mImageBuffer ++ (List.range (scalarCapacity (toSizeT cd.mImageMessage.width)
            (toSizeT cd.mImageMessage.height) - cd.mImageBuffer.length)).map
          (fun i => fresh (cd.mImageBuffer.length + i))), cd, 0) := by
  by_cases hb : cd.mImageBuffer = []
  · rcases hcase with hc | ⟨hrgb, hdata⟩
    · exact absurd hb hc
    · have hcd : { cd with mImageBuffer := cd.mImageMessage.data } = cd := by
        rw [hdata]
      unfold toVtkImage
      simp only []
      rw [if_neg h0, if_pos (by rw [hb]; rfl), if_pos hrgb, hcd]
      exact fillImage_of_le fresh _ _ cd 0 hle
  · rw [toVtkImage_populated env fresh cd h0 hb]
    exact fillImage_of_le fresh _ _ cd 0 hle

/-- The scalars of two images made from the same buffer agree when the two
scalar memories agreed beyond the buffer, and when the buffer fills them. -/
theorem scalars_agree (f1 f2 : Nat → Nat) (capacity : Nat) (buffer : List Nat)
    (h : (∀ i, buffer.length ≤ i → f1 i = f2 i) ∨ capacity ≤ buffer.length) :
    buffer ++ (List.range (capacity - buffer.length)).map (fun i => f2 (buffer.length + i)) =
    buffer ++ (List.range (capacity - buffer.length)).map (fun i => f1 (buffer.length + i)) := by
  rcases h with h | h
  · congr 1
    apply List.map_congr_left
    intro i _
    exact (h _ (by omega)).symm
  · have : capacity - buffer.length = 0 := by omega
    rw [this]
    rfl

/-- C2. When a `toVtkImage` call returns, a second call on the record it left
returns too, leaves the same record, and the JPEG codec runs at most once over
the two calls, not at all in the second call when the first one left a
populated decoded buffer.  The two images carry the same pixel data when the
decoded buffer fills the scalar memory or the two scalar memories held the
same bytes beyond it; this is so for an MJPEG frame with sizes from 1 to
`2^31`, for which the first call returns.  (For a raw RGB frame whose data are
shorter than `w*h*3` the pixel data beyond the raw data are those of the
uninitialised scalar memory.) -/
theorem C2_toVtkImage_twice (env : Env) (fresh1 fresh2 : Nat → Nat) (cd : CameraData) :
    (∀ r1, toVtkImage env fresh1 cd = some r1 →
      ∃ r2, toVtkImage env fresh2 r1.2.1 = some r2 ∧
        r2.2.1 = r1.2.1 ∧
        r1.2.2 + r2.2.2 ≤ 1 ∧
        (r1.2.1.mImageBuffer ≠ [] → r2.2.2 = 0) ∧
        (r1.1 = vtkImageData.empty → r2.1 = vtkImageData.empty) ∧
        ((∀ i, r1.2.1.mImageBuffer.length ≤ i → fresh1 i = fresh2 i) → r2.1 = r1.1) ∧
        (scalarCapacity (toSizeT cd.mImageMessage.width) (toSizeT cd.mImageMessage.height)
            ≤ r1.2.1.mImageBuffer.length → r2.1 = r1.1)) ∧
    (cd.mImageMessage.pixelformat = PIXEL_FORMAT_MJPEG → cd.mImageBuffer = [] →
      1 ≤ toSizeT cd.mImageMessage.width → toSizeT cd.mImageMessage.width ≤ 2 ^ 31 →
      1 ≤ toSizeT cd.mImageMessage.height → toSizeT cd.mImageMessage.height ≤ 2 ^ 31 →
      ∃ r1 r2, toVtkImage env fresh1 cd = some r1 ∧ toVtkImage env fresh2 r1.2.1 = some r2 ∧
        r2.1 = r1.1 ∧ r1.2.2 = 1 ∧ r2.2.2 = 0 ∧
        r1.1 = vtkImageData.rgb ((toSizeT cd.mImageMessage.width : Int) - 1)
          ((toSizeT cd.mImageMessage.height : Int) - 1) (decodedFrame env cd.mImageMessage)) := by
  have hne : ¬ PIXEL_FORMAT_MJPEG = PIXEL_FORMAT_RGB := by decide
  have main : ∀ r1, toVtkImage env fresh1 cd = some r1 →
      ∃ r2, toVtkImage env fresh2 r1.2.1 = some r2 ∧
        r2.2.1 = r1.2.1 ∧
        r1.2.2 + r2.2.2 ≤ 1 ∧
        (r1.2.1.mImageBuffer ≠ [] → r2.2.2 = 0) ∧
        (r1.1 = vtkImageData.empty → r2.1 = vtkImageData.empty) ∧
        ((∀ i, r1.2.1.mImageBuffer.length ≤ i → fresh1 i = fresh2 i) → r2.1 = r1.1) ∧
        (scalarCapacity (toSizeT cd.mImageMessage.width) (toSizeT cd.mImageMessage.height)
            ≤ r1.2.1.mImageBuffer.length → r2.1 = r1.1) := by
    intro r1 h1
    -- the early returns: the second call takes the same path
    have early : (∀ f, toVtkImage env f cd = some (vtkImageData.empty, cd, 0)) →
        ∃ r2, toVtkImage env fresh2 r1.2.1 = some r2 ∧
          r2.2.1 = r1.2.1 ∧ r1.2.2 + r2.2.2 ≤ 1 ∧
          (r1.2.1.mImageBuffer ≠ [] → r2.2.2 = 0) ∧
          (r1.1 = vtkImageData.empty → r2.1 = vtkImageData.empty) ∧
          ((∀ i, r1.2.1.mImageBuffer.length ≤ i → fresh1 i = fresh2 i) → r2.1 = r1.1) ∧
          (scalarCapacity (toSizeT cd.mImageMessage.width) (toSizeT cd.mImageMessage.height)
              ≤ r1.2.1.mImageBuffer.length → r2.1 = r1.1) := by
      intro he
      rw [he fresh1] at h1
      cases h1
      exact ⟨_, he fresh2, rfl, by simp, fun _ => rfl, fun _ => rfl, fun _ => rfl, fun _ => rfl⟩
    -- the image is built: the second call builds it from the same buffer
    have built : ∀ (cd1 : CameraData) (calls : Nat), calls ≤ 1 →
        cd1.mImageMessage = cd.mImageMessage →
        (cd1.mImageBuffer ≠ [] ∨ (cd1.mImageMessage.pixelformat = PIXEL_FORMAT_RGB ∧
          cd1.mImageMessage.data = cd1.mImageBuffer)) →
        sizeMul (sizeMul (toSizeT cd.mImageMessage.width)
          (toSizeT cd.mImageMessage.height)) 3 ≠ 0 →
        fillImage fresh1 (toSizeT cd.mImageMessage.width) (toSizeT cd.mImageMessage.height)
          cd1 calls = some r1 →
        ∃ r2, toVtkImage env fresh2 r1.2.1 = some r2 ∧
          r2.2.1 = r1.2.1 ∧ r1.2.2 + r2.2.2 ≤ 1 ∧
          (r1.2.1.mImageBuffer ≠ [] → r2.2.2 = 0) ∧
          (r1.1 = vtkImageData.empty → r2.1 = vtkImageData.empty) ∧
          ((∀ i, r1.2.1.mImageBuffer.length ≤ i → fresh1 i = fresh2 i) → r2.1 = r1.1) ∧
          (scalarCapacity (toSizeT cd.mImageMessage.width) (toSizeT cd.mImageMessage.height)
              ≤ r1.2.1.mImageBuffer.length → r2.1 = r1.1) := by
      intro cd1 calls hcalls hmsg hcase h0 hfill
      obtain ⟨hle, e⟩ := fillImage_some _ _ _ _ _ _ hfill
      subst e
      have h2 := toVtkImage_again env fresh2 cd1 (by rw [hmsg]; exact h0)
        (by rw [hmsg]; exact hle) hcase
      rw [hmsg] at h2
      refine ⟨_, h2, rfl, by simpa using hcalls, fun _ => rfl, fun h => (by cases h), ?_, ?_⟩
      · intro hf
        show vtkImageData.rgb _ _ _ = vtkImageData.rgb _ _ _
        rw [scalars_agree fresh1 fresh2 _ _ (Or.inl hf)]
      · intro hc
        show vtkImageData.rgb _ _ _ = vtkImageData.rgb _ _ _
        rw [scalars_agree fresh1 fresh2 _ _ (Or.inr hc)]
    by_cases h0 : sizeMul (sizeMul (toSizeT cd.mImageMessage.width)
        (toSizeT cd.mImageMessage.height)) 3 = 0
    · exact early (fun f => by simp [toVtkImage, h0])
    · by_cases hb : cd.mImageBuffer = []
      · have hl : cd.mImageBuffer.length = 0 := by rw [hb]; rfl
        by_cases hrgb : cd.mImageMessage.pixelformat = PIXEL_FORMAT_RGB
        · have e : toVtkImage env fresh1 cd = fillImage fresh1 (toSizeT cd.mImageMessage.width)
              (toSizeT cd.mImageMessage.height)
              { cd with mImageBuffer := cd.mImageMessage.data } 0 := by
            unfold toVtkImage
            simp only []
            rw [if_neg h0, if_pos hl, if_pos hrgb]
          rw [e] at h1
          exact built { cd with mImageBuffer := cd.mImageMessage.data } 0 (by omega) rfl
            (Or.inr ⟨hrgb, rfl⟩) h0 h1
        · by_cases hj : cd.mImageMessage.pixelformat = PIXEL_FORMAT_MJPEG
          · have e : toVtkImage env fresh1 cd = fillImage fresh1 (toSizeT cd.mImageMessage.width)
                (toSizeT cd.mImageMessage.height)
                { cd with mImageBuffer := (jpegInto env cd.mImageMessage
                    (toSizeT cd.mImageMessage.width) (toSizeT cd.mImageMessage.height)
                    (sizeMul (sizeMul (toSizeT cd.mImageMessage.width)
                      (toSizeT cd.mImageMessage.height)) 3)) } 1 := by
              unfold toVtkImage
              simp only []
              rw [if_neg h0, if_pos hl, if_neg hrgb, if_neg (not_not.mpr hj)]
            rw [e] at h1
            refine built { cd with mImageBuffer := (jpegInto env cd.mImageMessage
                (toSizeT cd.mImageMessage.width) (toSizeT cd.mImageMessage.height)
                (sizeMul (sizeMul (toSizeT cd.mImageMessage.width)
                  (toSizeT cd.mImageMessage.height)) 3)) } 1 (le_refl _) rfl (Or.inl ?_) h0 h1
            intro hnil
            have := congrArg List.length hnil
            simp only [jpegInto_length, List.length_nil] at this
            exact h0 this
          · exact early (fun f => by
              unfold toVtkImage
              simp only []
              rw [if_neg h0, if_pos hl, if_neg hrgb, if_pos hj])
      · rw [toVtkImage_populated env fresh1 cd h0 hb] at h1
        exact built cd 0 (by omega) rfl (Or.inl hb) h0 h1
  refine ⟨main, ?_⟩
  intro hj hb hw1 hw2 hh1 hh2
  obtain ⟨hcap, hbuf⟩ := scalarCapacity_eq _ _ hw1 hw2 hh1 hh2
  have h0 : sizeMul (sizeMul (toSizeT cd.mImageMessage.width)
      (toSizeT cd.mImageMessage.height)) 3 ≠ 0 := by
    rw [hbuf]
    have := Nat.mul_pos hw1 hh1
    omega
  have hl : cd.mImageBuffer.length = 0 := by rw [hb]; rfl
  have hrgb : ¬ cd.mImageMessage.pixelformat = PIXEL_FORMAT_RGB := by rw [hj]; exact hne
  have hlen : (jpegInto env cd.mImageMessage
      (toSizeT cd.mImageMessage.width) (toSizeT cd.mImageMessage.height)
      (sizeMul (sizeMul (toSizeT cd.mImageMessage.width)
        (toSizeT cd.mImageMessage.height)) 3)).length =
      scalarCapacity (toSizeT cd.mImageMessage.width) (toSizeT cd.mImageMessage.height) := by
    rw [jpegInto_length, hbuf, hcap]
  have e : toVtkImage env fresh1 cd = fillImage fresh1 (toSizeT cd.mImageMessage.width)
      (toSizeT cd.mImageMessage.height)
      { cd with mImageBuffer := (jpegInto env cd.mImageMessage
          (toSizeT cd.mImageMessage.width) (toSizeT cd.mImageMessage.height)
          (sizeMul (sizeMul (toSizeT cd.mImageMessage.width)
            (toSizeT cd.mImageMessage.height)) 3)) } 1 := by
    unfold toVtkImage
    simp only []
    rw [if_neg h0, if_pos hl, if_neg hrgb, if_neg (not_not.mpr hj)]
  rw [fillImage_of_le _ _ _ _ _ (le_of_eq hlen)] at e
  obtain ⟨r2, a1, a2, a3, a4, a5, a6, a7⟩ := main _ e
  refine ⟨_, r2, e, a1, a7 (le_of_eq hlen.symm), rfl, ?_, ?_⟩
  · have := a4 (by
      intro hnil
      have := congrArg List.length hnil
      simp only [jpegInto_length, List.length_nil] at this
      exact h0 this)
    exact this
  · have e1 : sizeSub (toSizeT cd.mImageMessage.width) 1 = toSizeT cd.mImageMessage.width - 1 :=
      sizeSub_one _ hw1 (by omega)
    have e2 : sizeSub (toSizeT cd.mImageMessage.height) 1 = toSizeT cd.mImageMessage.height - 1 :=
      sizeSub_one _ hh1 (by omega)
    have i1 : sizeToInt (toSizeT cd.mImageMessage.width - 1)
        = (toSizeT cd.mImageMessage.width : Int) - 1 := by
      unfold sizeToInt; omega
    have i2 : sizeToInt (toSizeT cd.mImageMessage.height - 1)
        = (toSizeT cd.mImageMessage.height : Int) - 1 := by
      unfold sizeToInt; omega
    show vtkImageData.rgb _ _ _ = _
    rw [e1, e2, i1, i2, hlen, Nat.sub_self]
    simp only [List.range_zero, List.map_nil, List.append_nil, decodedFrame, if_neg hrgb]

/-- Witness of C2, and the failing input.  The 2x2 MJPEG record `exLeft`:
the first call runs the codec once, the second not at all, and both images
carry the twelve decoded bytes whatever the scalar memories held.  The 2x2
raw RGB frame with three data bytes: both calls return and leave the same
record, but the two images carry the three bytes followed by the content of
the two uninitialised scalar memories, and differ when those differ.  With
thirteen data bytes the copy runs past the end of the scalar memory. -/
theorem C2_toVtkImage_twice_witness :
    (∃ r1 r2, toVtkImage exEnv (fun _ => 0) exLeft = some r1 ∧
      toVtkImage exEnv (fun _ => 255) r1.2.1 = some r2 ∧ r2.1 = r1.1 ∧ r1.2.2 = 1 ∧ r2.2.2 = 0 ∧
      r1.1 = vtkImageData.rgb 1 1 exBytes) ∧
    (∃ r2, toVtkImage exEnv (fun _ => 255) { exShortRgb with mImageBuffer := [1, 2, 3] }
        = some r2 ∧
      r2.2.1.mImageBuffer = [1, 2, 3] ∧ r2.2.2 = 0) ∧
    (toVtkImage exEnv (fun _ => 0) exShortRgb).map (fun r => r.1)
      = some (vtkImageData.rgb 1 1 [1, 2, 3, 0, 0, 0, 0, 0, 0, 0, 0, 0]) ∧
    (toVtkImage exEnv (fun _ => 0) exShortRgb).bind (fun r1 =>
        (toVtkImage exEnv (fun _ => 255) r1.2.1).map (fun r2 => r2.1))
      = some (vtkImageData.rgb 1 1 [1, 2, 3, 255, 255, 255, 255, 255, 255, 255, 255, 255]) ∧
    (toVtkImage exEnv (fun _ => 0) exLongRgb).isNone = true := by
  refine ⟨?_, ?_, by decide, by decide, by decide⟩
  · obtain ⟨r1, r2, a1, a2, a3, a4, a5, a6⟩ :=
      (C2_toVtkImage_twice exEnv (fun _ => 0) (fun _ => 255) exLeft).2 rfl rfl
        (by decide) (by decide) (by decide) (by decide)
    refine ⟨r1, r2, a1, a2, a3, a4, a5, ?_⟩
    rw [a6]
    decide
  · obtain ⟨r2, b1, b2, _, b4, _⟩ :=
      (C2_toVtkImage_twice exEnv (fun _ => 0) (fun _ => 255) exShortRgb).1
        (vtkImageData.rgb 1 1 [1, 2, 3, 0, 0, 0, 0, 0, 0, 0, 0, 0],
          { exShortRgb with mImageBuffer := [1, 2, 3] }, 0) rfl
    exact ⟨r2, b1, by rw [b2], b4 (by decide)⟩

/-! ## C3: the multi-image ingest -/

/-- In a binding map with ascending image types, the bindings visited before
the handler returns are those for which every bound image type up to theirs
is among the tags of the message. -/
theorem mem_visitedBindings_iff (message : images_t) :
    ∀ (bs : List (Int × String)), bs.Pairwise (fun a b => a.1 < b.1) →
      ∀ b, b ∈ visitedBindings message bs ↔
        (b ∈ bs ∧ ∀ c ∈ bs, c.1 ≤ b.1 → c.1 ∈ message.image_types) := by
  intro bs
  induction bs with
  | nil => intro _ b; simp [visitedBindings]
  | cons a l ih =>
    intro hs b
    rw [List.pairwise_cons] at hs
    obtain ⟨ha, hl⟩ := hs
    have ih' := ih hl b
    unfold visitedBindings at ih' ⊢
    by_cases hp : a.1 ∈ message.image_types
    · rw [List.takeWhile_cons_of_pos (by simpa using hp)]
      constructor
      · intro hb
        rcases List.mem_cons.mp hb with hb | hb
        · subst hb
          refine ⟨List.mem_cons_self _ _, ?_⟩
          intro c hc hle
          rcases List.mem_cons.mp hc with hc | hc
          · subst hc; exact hp
          · have := ha c hc
            omega
        · obtain ⟨h1, h2⟩ := ih'.mp hb
          refine ⟨List.mem_cons_of_mem _ h1, ?_⟩
          intro c hc hle
          rcases List.mem_cons.mp hc with hc | hc
          · subst hc; exact hp
          · exact h2 c hc hle
      · rintro ⟨hb, hv⟩
        rcases List.mem_cons.mp hb with hb | hb
        · subst hb; exact List.mem_cons_self _ _
        · exact List.mem_cons_of_mem _
            (ih'.mpr ⟨hb, fun c hc hle => hv c (List.mem_cons_of_mem _ hc) hle⟩)
    · rw [List.takeWhile_cons_of_neg (by simpa using hp)]
      constructor
      · intro hb; simp at hb
      · rintro ⟨hb, hv⟩
        exfalso
        apply hp
        apply hv a (List.mem_cons_self _ _)
        rcases List.mem_cons.mp hb with hb | hb
        · subst hb; exact le_refl _
        · exact le_of_lt (ha b hb)

/-- C3 (as amended). On a well-formed message, with the image types of the
channel's bindings ascending and a record for every bound camera,
`onImagesMessage` returns, having visited exactly the bindings whose image
type, and every smaller bound image type, is among the message's tags.  A
camera named by a visited binding holds the first sub-image carrying the tag
of the largest visited image type bound to it (and an empty decoded buffer);
a camera named by no visited binding is left as it was. -/
theorem C3_multi_image_ingest (env : Env) (q : Queue) (data : List Nat) (channel : String)
    (hwf : (env.images_decode data).WF)
    (hsorted : (channelBindings channel q.mChannelMap).Pairwise (fun a b => a.1 < b.1))
    (hrec : ∀ b ∈ channelBindings channel q.mChannelMap, (getCameraData q b.2).isSome) :
    ∃ q', onImagesMessage env q data channel = some q' ∧
      (∀ b ∈ channelBindings channel q.mChannelMap,
        (∀ c ∈ channelBindings channel q.mChannelMap, c.1 ≤ b.1 →
          c.1 ∈ (env.images_decode data).image_types) →
        (∀ c ∈ channelBindings channel q.mChannelMap, c.2 = b.2 → b.1 < c.1 →
          ∃ d ∈ channelBindings channel q.mChannelMap,
            d.1 ≤ c.1 ∧ d.1 ∉ (env.images_decode data).image_types) →
        ∃ cd' im, getCameraData q' b.2 = some cd' ∧
          FirstWithTag (env.images_decode data) b.1 im ∧
          cd'.mImageMessage = im ∧ cd'.mImageBuffer = []) ∧
      (∀ name : String,
        (∀ c ∈ channelBindings channel q.mChannelMap, c.2 = name →
          ∃ d ∈ channelBindings channel q.mChannelMap,
            d.1 ≤ c.1 ∧ d.1 ∉ (env.images_decode data).image_types) →
        getCameraData q' name = getCameraData q name) := by
  have hvis := mem_visitedBindings_iff (env.images_decode data) _ hsorted
  obtain ⟨q', hrun, hother, hlast⟩ := onImagesMessage_spec env q data channel hwf
    (fun b hb => hrec b ((hvis b).mp hb).1)
  refine ⟨q', hrun, ?_, ?_⟩
  · intro b hb hv hlater
    have hbv : b ∈ visitedBindings (env.images_decode data)
        (channelBindings channel q.mChannelMap) := (hvis b).mpr ⟨hb, hv⟩
    obtain ⟨pre, t, suf, hdec, hsuf⟩ := exists_last_binding b.2 _ (List.mem_map_of_mem _ hbv)
    obtain ⟨cd, im, him, hq⟩ := hlast pre t b.2 suf hdec hsuf
    have htv : (t, b.2) ∈ visitedBindings (env.images_decode data)
        (channelBindings channel q.mChannelMap) := by rw [hdec]; simp
    obtain ⟨htb, htvis⟩ := (hvis _).mp htv
    -- the last visited binding of the camera is `b` itself
    have ht : t = b.1 := by
      rcases lt_trichotomy t b.1 with h | h | h
      · -- `b` would come after `(t, b.2)` in the visited list, hence in `suf`
        exfalso
        have hbmem : b ∈ pre ++ (t, b.2) :: suf := by rw [← hdec]; exact hbv
        have hvs : (visitedBindings (env.images_decode data)
            (channelBindings channel q.mChannelMap)).Pairwise (fun a b => a.1 < b.1) :=
          List.Pairwise.sublist (List.takeWhile_sublist _) hsorted
        rw [hdec, List.pairwise_append] at hvs
        obtain ⟨_, hps, hcross⟩ := hvs
        rcases List.mem_append.mp hbmem with hb1 | hb1
        · have := hcross b hb1 (t, b.2) (List.mem_cons_self _ _)
          simp only at this
          omega
        · rcases List.mem_cons.mp hb1 with hb2 | hb2
          · have : b.1 = t := by rw [hb2]
            omega
          · exact hsuf (List.mem_map_of_mem _ hb2)
      · exact h
      · exfalso
        obtain ⟨d, hd, hdle, hdabs⟩ := hlater (t, b.2) htb rfl h
        exact hdabs (htvis d hd hdle)
    subst ht
    refine ⟨_, im, hq, him, ?_, ?_⟩
    · rw [refreshTransforms_message]
    · rw [refreshTransforms_buffer]
  · intro name hname
    apply hother
    intro hmem
    obtain ⟨c, hc, hcn⟩ := List.mem_map.mp hmem
    obtain ⟨hcb, hcv⟩ := (hvis c).mp hc
    obtain ⟨d, hd, hdle, hdabs⟩ := hname c hcb hcn
    exact hdabs (hcv d hd hdle)

/-- Witness of C3: both examples of the claim.  With tags 0 and 1 both
cameras take their sub-image; with the tag 0 alone `CAMERA_LEFT` is updated
and `CAMERA_RIGHT` is left as it was. -/
theorem C3_multi_image_ingest_witness :
    (∃ q', onImagesMessage exEnv exQueue [0, 1] "CAMERA" = some q' ∧
      (∃ cd', getCameraData q' "CAMERA_LEFT" = some cd' ∧ cd'.mImageMessage.data = [0, 1, 2]) ∧
      (∃ cd', getCameraData q' "CAMERA_RIGHT" = some cd' ∧
        cd'.mImageMessage.data = [1, 2, 3])) ∧
    (∃ q', onImagesMessage exEnv exQueue [0] "CAMERA" = some q' ∧
      (∃ cd', getCameraData q' "CAMERA_LEFT" = some cd' ∧ cd'.mImageMessage.data = [0, 1, 2]) ∧
      getCameraData q' "CAMERA_RIGHT" = getCameraData exQueue "CAMERA_RIGHT") := by
  constructor
  · obtain ⟨q', hrun, hupd, _⟩ :=
      C3_multi_image_ingest exEnv exQueue [0, 1] "CAMERA" (by decide) (by decide) (by decide)
    refine ⟨q', hrun, ?_, ?_⟩
    · obtain ⟨cd', im, h1, h2, h3, _⟩ := hupd (0, "CAMERA_LEFT") (by decide) (by decide)
        (by decide)
      refine ⟨cd', h1, ?_⟩
      have : FirstWithTag (exEnv.images_decode [0, 1]) 0
          (exFrame 1 1 PIXEL_FORMAT_MJPEG [0, 1, 2]) :=
        ⟨0, rfl, by decide, fun k hk => by omega⟩
      rw [h3, FirstWithTag_unique _ _ _ _ h2 this]
      rfl
    · obtain ⟨cd', im, h1, h2, h3, _⟩ := hupd (1, "CAMERA_RIGHT") (by decide) (by decide)
        (by decide)
      refine ⟨cd', h1, ?_⟩
      have : FirstWithTag (exEnv.images_decode [0, 1]) 1
          (exFrame 1 1 PIXEL_FORMAT_MJPEG [1, 2, 3]) :=
        ⟨1, rfl, by decide, fun k hk => by
          have : k = 0 := by omega
          subst this
          decide⟩
      rw [h3, FirstWithTag_unique _ _ _ _ h2 this]
      rfl
  · obtain ⟨q', hrun, hupd, hkeep⟩ :=
      C3_multi_image_ingest exEnv exQueue [0] "CAMERA" (by decide) (by decide) (by decide)
    refine ⟨q', hrun, ?_, ?_⟩
    · obtain ⟨cd', im, h1, h2, h3, _⟩ := hupd (0, "CAMERA_LEFT") (by decide) (by decide)
        (by decide)
      refine ⟨cd', h1, ?_⟩
      have : FirstWithTag (exEnv.images_decode [0]) 0
          (exFrame 1 1 PIXEL_FORMAT_MJPEG [0, 1, 2]) :=
        ⟨0, rfl, by decide, fun k hk => by omega⟩
      rw [h3, FirstWithTag_unique _ _ _ _ h2 this]
      rfl
    · exact hkeep "CAMERA_RIGHT" (by decide)

/-- Counterexample to C3 as stated: image types 0 and 1 of the channel are
both bound to `CAMERA_LEFT` and the message carries the tag 0 only.  The first
absent bound type is 1, so the claim leaves the camera bound to it,
`CAMERA_LEFT`, unmodified; the handler has replaced its raw frame while
visiting the binding of type 0. -/
theorem C3_counterexample :
    qvalue 1 (channelBindings "CAMERA" exQueueShared.mChannelMap) = some "CAMERA_LEFT" ∧
    (0 : Int) ∈ (exEnv.images_decode [0]).image_types ∧
    (1 : Int) ∉ (exEnv.images_decode [0]).image_types ∧
    (getCameraData exQueueShared "CAMERA_LEFT").map (fun cd => cd.mImageMessage.data)
      = some [50, 51, 52] ∧
    ((onImagesMessage exEnv exQueueShared [0] "CAMERA").bind
        (fun q' => getCameraData q' "CAMERA_LEFT")).map (fun cd => cd.mImageMessage.data)
      = some [0, 1, 2] := by
  decide

/-! ## Lemmas on the colorizer -/

theorem setComponent_some {α : Type} (data : List α) (comps i j : Nat) (v : α) (out : List α)
    (h : setComponent data comps i j v = some out) :
    i * comps + j < data.length ∧ out = data.set (i * comps + j) v := by
  unfold setComponent at h
  split at h
  · exact ⟨by assumption, (Option.some.inj h).symm⟩
  · cases h

/-- The outcomes of one colorizer iteration that returns: the array is left as
it was (projection failed, pixel outside the image, or vignette test of a chest
camera), or the three bytes at `bufIndex` are read in range and written to
tuple `i`. -/
theorem colorizePoint_some (cd : CameraData) (w h comps i : Nat) (p : Vec3)
    (rgb out : List Nat) (hrun : colorizePoint cd w h comps i p rgb = some out) :
    ∃ ct, cd.mCamTrans = some ct ∧
      ((ct.project_point (Isometry3d.apply cd.mLocalToCamera p) = none ∧ out = rgb) ∨
       ∃ pix px py, ct.project_point (Isometry3d.apply cd.mLocalToCamera p) = some pix ∧
        toInt pix.1 = some px ∧ toInt pix.2 = some py ∧
        ((¬ (0 ≤ px ∧ px.toNat < w ∧ 0 ≤ py ∧ py.toNat < h) ∧ out = rgb) ∨
         ((0 ≤ px ∧ px.toNat < w ∧ 0 ≤ py ∧ py.toNat < h) ∧
            (computeDist cd = true ∧ vignetteTest pix w h = true) ∧ out = rgb) ∨
         ((0 ≤ px ∧ px.toNat < w ∧ 0 ≤ py ∧ py.toNat < h) ∧
            ¬ (computeDist cd = true ∧ vignetteTest pix w h = true) ∧
            ∃ px3 r g b, intMul3 px = some px3 ∧
              cd.mImageBuffer[sizeAdd (bufIndex w px3 py) 0]? = some r ∧
              cd.mImageBuffer[sizeAdd (bufIndex w px3 py) 1]? = some g ∧
              cd.mImageBuffer[sizeAdd (bufIndex w px3 py) 2]? = some b ∧
              i * comps + 2 < rgb.length ∧
              out = ((rgb.set (i * comps + 0) r).set (i * comps + 1) g).set
                (i * comps + 2) b))) := by
  cases hct : cd.mCamTrans with
  | none => simp [colorizePoint, hct] at hrun
  | some ct =>
    refine ⟨ct, rfl, ?_⟩
    cases hpix : ct.project_point (Isometry3d.apply cd.mLocalToCamera p) with
    | none =>
      left
      simp [colorizePoint, hct, hpix] at hrun
      exact ⟨rfl, hrun.symm⟩
    | some pix =>
      right
      cases hpx : toInt pix.1 with
      | none => simp [colorizePoint, hct, hpix, hpx] at hrun
      | some px =>
        cases hpy : toInt pix.2 with
        | none => simp [colorizePoint, hct, hpix, hpx, hpy] at hrun
        | some py =>
          refine ⟨pix, px, py, rfl, hpx, hpy, ?_⟩
          by_cases hin : 0 ≤ px ∧ px.toNat < w ∧ 0 ≤ py ∧ py.toNat < h
          · right
            by_cases hv : computeDist cd = true ∧ vignetteTest pix w h = true
            · left
              simp only [colorizePoint, hct, hpix, hpx, hpy, hin, hv, and_self, if_true] at hrun
              exact ⟨hin, hv, (Option.some.inj hrun).symm⟩
            · right
              refine ⟨hin, hv, ?_⟩
              simp only [colorizePoint, hct, hpix, hpx, hpy, hin, hv, and_self, if_true,
                if_false] at hrun
              cases h3 : intMul3 px with
              | none => simp [h3] at hrun
              | some px3 =>
                simp only [h3] at hrun
                cases hr : cd.mImageBuffer[sizeAdd (bufIndex w px3 py) 0]? with
                | none => simp [hr] at hrun
                | some r =>
                  cases hg : cd.mImageBuffer[sizeAdd (bufIndex w px3 py) 1]? with
                  | none => simp [hr, hg] at hrun
                  | some g =>
                    cases hb : cd.mImageBuffer[sizeAdd (bufIndex w px3 py) 2]? with
                    | none => simp [hr, hg, hb] at hrun
                    | some b =>
                      simp only [hr, hg, hb] at hrun
                      cases h1 : setComponent rgb comps i 0 r with
                      | none => simp [h1] at hrun
                      | some rgb1 =>
                        cases h2 : setComponent rgb1 comps i 1 g with
                        | none => simp [h1, h2] at hrun
                        | some rgb2 =>
                          simp only [h1, Option.some_bind, h2] at hrun
                          obtain ⟨_, e1⟩ := setComponent_some _ _ _ _ _ _ h1
                          obtain ⟨_, e2⟩ := setComponent_some _ _ _ _ _ _ h2
                          obtain ⟨l3, e3⟩ := setComponent_some _ _ _ _ _ _ hrun
                          subst e1; subst e2; subst e3
                          refine ⟨px3, r, g, b, rfl, hr, hg, hb, ?_, rfl⟩
                          simpa using l3
          · left
            simp only [colorizePoint, hct, hpix, hpx, hpy, hin, if_false] at hrun
            exact ⟨hin, (Option.some.inj hrun).symm⟩

/-- Frame property of one colorizer iteration: the array keeps its length and
only the three values of tuple `i` can change. -/
theorem colorizePoint_frame (cd : CameraData) (w h i : Nat) (p : Vec3)
    (rgb out : List Nat) (hrun : colorizePoint cd w h 3 i p rgb = some out) :
    out.length = rgb.length ∧
      ∀ k : Nat, (k < i * 3 ∨ i * 3 + 3 ≤ k) → out[k]? = rgb[k]? := by
  obtain ⟨ct, _, hcase⟩ := colorizePoint_some cd w h 3 i p rgb out hrun
  rcases hcase with ⟨_, e⟩ | ⟨pix, px, py, _, _, _, ⟨_, e⟩ | ⟨_, _, e⟩ |
    ⟨_, _, px3, r, g, b, _, _, _, _, _, e⟩⟩
  · subst e; exact ⟨rfl, fun _ _ => rfl⟩
  · subst e; exact ⟨rfl, fun _ _ => rfl⟩
  · subst e; exact ⟨rfl, fun _ _ => rfl⟩
  · subst e
    refine ⟨by simp, ?_⟩
    intro k hk
    rw [List.getElem?_set_ne (by omega), List.getElem?_set_ne (by omega),
      List.getElem?_set_ne (by omega)]

/-- The colorizer loop, point by point: it keeps the length of the array and
the values outside the tuples it visits, and the final tuple of point `i + j`
is the one its own iteration leaves, run on an array whose tuple `i + j` is
still the initial one. -/
theorem colorizeLoop_spec (cd : CameraData) (w h : Nat) :
    ∀ (ps : List Vec3) (i : Nat) (rgb out : List Nat),
      colorizeLoop cd w h 3 i ps rgb = some out →
      out.length = rgb.length ∧
      (∀ k : Nat, k < i * 3 → out[k]? = rgb[k]?) ∧
      (∀ k : Nat, (i + ps.length) * 3 ≤ k → out[k]? = rgb[k]?) ∧
      (∀ (j : Nat) (p : Vec3), ps[j]? = some p →
        ∃ mid mid', colorizePoint cd w h 3 (i + j) p mid = some mid' ∧
          mid.length = rgb.length ∧
          (∀ c : Nat, c < 3 → mid[(i + j) * 3 + c]? = rgb[(i + j) * 3 + c]?) ∧
          (∀ c : Nat, c < 3 → out[(i + j) * 3 + c]? = mid'[(i + j) * 3 + c]?)) := by
  intro ps
  induction ps with
  | nil =>
    intro i rgb out hrun
    simp only [colorizeLoop] at hrun
    cases hrun
    refine ⟨rfl, fun _ _ => rfl, fun _ _ => rfl, ?_⟩
    intro j p hj
    simp at hj
  | cons p0 ps ih =>
    intro i rgb out hrun
    simp only [colorizeLoop] at hrun
    cases h1 : colorizePoint cd w h 3 i p0 rgb with
    | none => simp [h1] at hrun
    | some rgb1 =>
      simp only [h1] at hrun
      obtain ⟨hlen1, hframe⟩ := colorizePoint_frame cd w h i p0 rgb rgb1 h1
      obtain ⟨hlen, hlow, hhigh, hpts⟩ := ih (i + 1) rgb1 out hrun
      refine ⟨by omega, ?_, ?_, ?_⟩
      · intro k hk
        rw [hlow k (by omega), hframe k (Or.inl hk)]
      · intro k hk
        simp only [List.length_cons] at hk
        rw [hhigh k (by omega), hframe k (Or.inr (by omega))]
      · intro j p hj
        cases j with
        | zero =>
          simp only [List.getElem?_cons_zero, Option.some.injEq] at hj
          subst hj
          refine ⟨rgb, rgb1, h1, rfl, fun _ _ => rfl, ?_⟩
          intro c hc
          exact hlow _ (by omega)
        | succ j =>
          simp only [List.getElem?_cons_succ] at hj
          obtain ⟨mid, mid', hm, hml, hmt, hout⟩ := hpts j p hj
          have e : i + 1 + j = i + (j + 1) := by omega
          rw [e] at hm hmt hout
          refine ⟨mid, mid', hm, by omega, ?_, hout⟩
          intro c hc
          rw [hmt c hc, hframe _ (Or.inr (by omega))]

theorem qvalue_addArray (name : String) (a : DataArray) (arrays : List (String × DataArray)) :
    (qvalue name (addArray name a arrays)).isSome := by
  unfold addArray
  cases h : qvalue name arrays with
  | some v =>
    simp only []
    rw [qvalue_qstore_same name a arrays (by rw [h]; rfl)]
    rfl
  | none =>
    simp only []
    clear h
    induction arrays with
    | nil => simp [qvalue]
    | cons e rest ih =>
      obtain ⟨k, v⟩ := e
      by_cases hk : k = name
      · simp [qvalue, hk]
      · simpa [qvalue, hk] using ih

theorem ensureRgbArray_isSome (pd : vtkPolyData) :
    (qvalue "rgb" (ensureRgbArray pd).2.2).isSome := by
  unfold ensureRgbArray
  cases h : getArray pd "rgb" with
  | none => exact qvalue_addArray _ _ _
  | some a =>
    cases a with
    | uchar comps data =>
      simp only []
      unfold getArray at h
      rw [h]; rfl
    | float comps data => exact qvalue_addArray _ _ _

/-- What `colorizePoints` does when it passes its two early returns: the
decoded buffer is materialized, the loop runs on the array `ensureRgbArray`
provides, and the array it leaves is the `rgb` array of the result. -/
theorem colorizePoints_run (env : Env) (pd pd' : vtkPolyData) (cd cd' : CameraData)
    (hcal : cd.mHasCalibration = true)
    (hmat : cd.mImageBuffer ≠ [] ∨ cd.mImageMessage.pixelformat = PIXEL_FORMAT_MJPEG)
    (hrun : colorizePoints env pd cd = some (pd', cd')) :
    cd' = colorizeDecode env cd ∧ pd'.points = pd.points ∧
    ∃ out, colorizeLoop cd' (toSizeT cd.mImageMessage.width) (toSizeT cd.mImageMessage.height)
        (ensureRgbArray pd).1 0 pd.points (ensureRgbArray pd).2.1 = some out ∧
      getArray pd' "rgb" = some (DataArray.uchar (ensureRgbArray pd).1 out) := by
  have hguard : ¬ (cd.mImageBuffer.length = 0 ∧
      cd.mImageMessage.pixelformat ≠ PIXEL_FORMAT_MJPEG) := by
    rintro ⟨h1, h2⟩
    rcases hmat with h | h
    · exact h (List.length_eq_zero.mp h1)
    · exact h2 h
  unfold colorizePoints at hrun
  simp only [hcal, not_true_eq_false, if_false, hguard] at hrun
  cases hloop : colorizeLoop (colorizeDecode env cd) (toSizeT cd.mImageMessage.width)
      (toSizeT cd.mImageMessage.height) (ensureRgbArray pd).1 0 pd.points
      (ensureRgbArray pd).2.1 with
  | none => simp [hloop] at hrun
  | some out =>
    simp only [hloop, Option.some.injEq, Prod.mk.injEq] at hrun
    obtain ⟨h1, h2⟩ := hrun
    subst h1; subst h2
    refine ⟨rfl, rfl, out, hloop, ?_⟩
    unfold getArray
    exact qvalue_qstore_same _ _ _ (ensureRgbArray_isSome pd)

/-! ## C4: records without calibration -/

/-- C4. On a record with `mHasCalibration = false`, `colorizePoints` and
`computeTextureCoords` return the point collection (and the record) unchanged.
`getCameraFrustumBounds(cameraData)` has no such guard: it never returns an
empty list, and when the camera model handle is present it unprojects the four
corners and returns their twelve coordinates. -/
theorem C4_no_calibration (env : Env) (pd : vtkPolyData) (cd : CameraData)
    (h : cd.mHasCalibration = false) :
    colorizePoints env pd cd = some (pd, cd) ∧
    computeTextureCoords pd cd = some pd ∧
    getCameraFrustumBounds cd ≠ some [] ∧
    (∀ ct, cd.mCamTrans = some ct → ∃ rays, getCameraFrustumBounds cd = some rays ∧
      rays.length = 12 ∧
      rays.take 3 = [(ct.unproject_pixel 0 0).1, (ct.unproject_pixel 0 0).2.1,
        (ct.unproject_pixel 0 0).2.2]) := by
  refine ⟨?_, ?_, ?_, ?_⟩
  · simp [colorizePoints, h]
  · simp [computeTextureCoords, h]
  · unfold getCameraFrustumBounds
    cases cd.mCamTrans with
    | none => simp
    | some ct => simp
  · intro ct hct
    simp only [getCameraFrustumBounds, hct]
    exact ⟨_, rfl, by simp, by simp⟩

/-- Witness of C4, and the failing input: a record without calibration whose
camera model handle is valid.  The two point operations leave the collection
unchanged; the frustum query returns twelve coordinates instead of an empty
list. -/
theorem C4_no_calibration_witness :
    colorizePoints exEnv exPoints exUncalibrated = some (exPoints, exUncalibrated) ∧
    computeTextureCoords exPoints exUncalibrated = some exPoints ∧
    getCameraFrustumBounds exUncalibrated = some [0, 0, 1, 2, 0, 1, 2, 2, 1, 0, 2, 1] := by
  obtain ⟨h1, h2, _, _⟩ := C4_no_calibration exEnv exPoints exUncalibrated rfl
  exact ⟨h1, h2, by decide!⟩

/-! ## C5: the white default of the colorizer -/

theorem colorizeDecode_camTrans (env : Env) (cd : CameraData) :
    (colorizeDecode env cd).mCamTrans = cd.mCamTrans ∧
    (colorizeDecode env cd).mLocalToCamera = cd.mLocalToCamera ∧
    (colorizeDecode env cd).mName = cd.mName := by
  unfold colorizeDecode
  simp only []
  split <;> exact ⟨rfl, rfl, rfl⟩

theorem ensureRgbArray_of_none (pd : vtkPolyData) (h : getArray pd "rgb" = none) :
    (ensureRgbArray pd).1 = 3 ∧
      (ensureRgbArray pd).2.1 = List.replicate (3 * pd.points.length) 255 := by
  unfold ensureRgbArray
  rw [h]
  exact ⟨rfl, rfl⟩

/-- C5 (as amended). For a calibrated record whose decoded buffer is
populated or whose raw frame is MJPEG, and a point collection without an `rgb`
array: when `colorizePoints` returns, every point whose projection fails, or
whose truncated pixel lies outside `[0,w) x [0,h)`, has the RGB value
(255, 255, 255). -/
theorem C5_white_default (env : Env) (pd pd' : vtkPolyData) (cd : CameraData)
    (hcal : cd.mHasCalibration = true)
    (hno : getArray pd "rgb" = none)
    (hmat : cd.mImageBuffer ≠ [] ∨ cd.mImageMessage.pixelformat = PIXEL_FORMAT_MJPEG)
    (hrun : (colorizePoints env pd cd).map Prod.fst = some pd')
    (i : Nat) (p : Vec3) (hp : pd.points[i]? = some p)
    (hskip : projectedPixel cd p = none ∨
      ∃ pix px py, projectedPixel cd p = some pix ∧
        toInt pix.1 = some px ∧ toInt pix.2 = some py ∧
        ¬ (0 ≤ px ∧ px.toNat < toSizeT cd.mImageMessage.width ∧
           0 ≤ py ∧ py.toNat < toSizeT cd.mImageMessage.height)) :
    getTuple3 pd' "rgb" i = some (255, 255, 255) := by
  obtain ⟨⟨pd2, cd'⟩, hrun2, hpd⟩ := Option.map_eq_some'.mp hrun
  simp only at hpd
  subst hpd
  obtain ⟨hcd', _, out, hloop, harr⟩ := colorizePoints_run env pd pd2 cd cd' hcal hmat hrun2
  obtain ⟨hcomps, hdata⟩ := ensureRgbArray_of_none pd hno
  rw [hcomps, hdata] at hloop
  rw [hcomps] at harr
  obtain ⟨hlen, _, _, hpts⟩ := colorizeLoop_spec cd' _ _ _ _ _ _ hloop
  obtain ⟨mid, mid', hstep, _, hmid, hout⟩ := hpts i p hp
  simp only [Nat.zero_add] at hstep hmid hout
  have hi : i < pd.points.length := by
    by_contra hc
    rw [List.getElem?_eq_none (by omega)] at hp
    cases hp
  obtain ⟨hct, hl2c, _⟩ := colorizeDecode_camTrans env cd
  -- the iteration of point `i` leaves the array as it was
  have hsame : mid' = mid := by
    obtain ⟨ct, hct', hcase⟩ := colorizePoint_some cd' _ _ _ _ _ _ _ hstep
    rw [hcd', hct] at hct'
    rw [hcd', hl2c] at hcase
    have hproj : projectedPixel cd p = ct.project_point (Isometry3d.apply cd.mLocalToCamera p) := by
      simp only [projectedPixel, hct']
    rw [hproj] at hskip
    rcases hcase with ⟨_, e⟩ | ⟨pix, px, py, hpix, hpx, hpy, ⟨_, e⟩ | ⟨hin, _, e⟩ |
      ⟨hin, _, _⟩⟩
    · exact e
    · exact e
    · exact e
    · exfalso
      rcases hskip with hn | ⟨pix2, px2, py2, h1, h2, h3, hout2⟩
      · rw [hn] at hpix; cases hpix
      · rw [hpix] at h1
        cases h1
        rw [hpx] at h2; cases h2
        rw [hpy] at h3; cases h3
        exact hout2 hin
  subst hsame
  have hval : ∀ c : Nat, c < 3 → out[i * 3 + c]? = some 255 := by
    intro c hc
    rw [hout c hc, hmid c hc, List.getElem?_replicate_of_lt (by omega)]
  unfold getTuple3 tuple3At
  rw [harr]
  simp only [hval 0 (by omega), hval 1 (by omega), hval 2 (by omega)]

/-- Witness of C5: a 2x2 MJPEG frame and the example points, of which the
first fails to project and the second lands on pixel (5, 5). -/
theorem C5_white_default_witness :
    getTuple3 { exPoints with arrays := [("rgb", DataArray.uchar 3
        [255, 255, 255, 255, 255, 255, 40, 41, 42, 10, 11, 12, 10, 11, 12])] } "rgb" 0
      = some (255, 255, 255) ∧
    getTuple3 { exPoints with arrays := [("rgb", DataArray.uchar 3
        [255, 255, 255, 255, 255, 255, 40, 41, 42, 10, 11, 12, 10, 11, 12])] } "rgb" 1
      = some (255, 255, 255) :=
  ⟨C5_white_default exEnv exPoints _
      (exRecord "CAMERA_LEFT" (exFrame 2 2 PIXEL_FORMAT_MJPEG exBytes) [])
      rfl rfl (Or.inr rfl) (by decide!) 0 (0, 0, -1) rfl (Or.inl (by decide!)),
   C5_white_default exEnv exPoints _
      (exRecord "CAMERA_LEFT" (exFrame 2 2 PIXEL_FORMAT_MJPEG exBytes) [])
      rfl rfl (Or.inr rfl) (by decide!) 1 (5, 5, 1) rfl
      (Or.inr ⟨(5, 5), 5, 5, by decide!, by decide!, by decide!, by decide⟩)⟩

/-- Counterexample to C5 as stated: a calibrated record with an empty decoded
buffer and a raw frame in a format that is not decoded (gray).  The call
returns before the `rgb` array is created, so the first example point, whose
projection fails, has no RGB value at all. -/
theorem C5_counterexample :
    (exRecord "CAMERA_LEFT" (exFrame 2 2 PIXEL_FORMAT_GRAY [1, 2, 3, 4]) []).mHasCalibration
      = true ∧
    getArray exPoints "rgb" = none ∧
    exPoints.points[0]? = some ((0, 0, -1) : Vec3) ∧
    projectedPixel (exRecord "CAMERA_LEFT" (exFrame 2 2 PIXEL_FORMAT_GRAY [1, 2, 3, 4]) [])
      (0, 0, -1) = none ∧
    (colorizePoints exEnv exPoints
      (exRecord "CAMERA_LEFT" (exFrame 2 2 PIXEL_FORMAT_GRAY [1, 2, 3, 4]) [])).map Prod.fst
      = some exPoints ∧
    getTuple3 exPoints "rgb" 0 = none := by
  decide!


/-- The tuple of one point after `colorizePoints`, for an `rgb` array of 3
components: it is the tuple its own loop iteration leaves, started on an
array whose tuple `i` is the one `ensureRgbArray` provides. -/
theorem colorizePoints_point (env : Env) (pd pd' : vtkPolyData) (cd : CameraData)
    (hcal : cd.mHasCalibration = true)
    (hmat : cd.mImageBuffer ≠ [] ∨ cd.mImageMessage.pixelformat = PIXEL_FORMAT_MJPEG)
    (hcomps : (ensureRgbArray pd).1 = 3)
    (hrun : (colorizePoints env pd cd).map Prod.fst = some pd')
    (i : Nat) (p : Vec3) (hp : pd.points[i]? = some p) :
    ∃ out mid mid', getArray pd' "rgb" = some (DataArray.uchar 3 out) ∧
      colorizePoint (colorizeDecode env cd) (toSizeT cd.mImageMessage.width)
        (toSizeT cd.mImageMessage.height) 3 i p mid = some mid' ∧
      (∀ c : Nat, c < 3 → mid[i * 3 + c]? = (ensureRgbArray pd).2.1[i * 3 + c]?) ∧
      (∀ c : Nat, c < 3 → out[i * 3 + c]? = mid'[i * 3 + c]?) := by
  obtain ⟨⟨pd2, cd'⟩, hrun2, hpd⟩ := Option.map_eq_some'.mp hrun
  simp only at hpd
  subst hpd
  obtain ⟨hcd', _, out, hloop, harr⟩ := colorizePoints_run env pd pd2 cd cd' hcal hmat hrun2
  rw [hcomps] at hloop harr
  obtain ⟨_, _, _, hpts⟩ := colorizeLoop_spec cd' _ _ _ _ _ _ hloop
  obtain ⟨mid, mid', hstep, _, hmid, hout⟩ := hpts i p hp
  simp only [Nat.zero_add] at hstep hmid hout
  rw [hcd'] at hstep
  exact ⟨out, mid, mid', harr, hstep, hmid, hout⟩

/-- A tuple read after three writes to it. -/
theorem tuple3_of_set (l : List Nat) (i r g b : Nat) (h : i * 3 + 2 < l.length) :
    (((l.set (i * 3 + 0) r).set (i * 3 + 1) g).set (i * 3 + 2) b)[i * 3 + 0]? = some r ∧
    (((l.set (i * 3 + 0) r).set (i * 3 + 1) g).set (i * 3 + 2) b)[i * 3 + 1]? = some g ∧
    (((l.set (i * 3 + 0) r).set (i * 3 + 1) g).set (i * 3 + 2) b)[i * 3 + 2]? = some b := by
  refine ⟨?_, ?_, ?_⟩
  · rw [List.getElem?_set_ne (by omega), List.getElem?_set_ne (by omega),
      List.getElem?_set_self (by omega)]
  · rw [List.getElem?_set_ne (by omega), List.getElem?_set_self (by simp; omega)]
  · rw [List.getElem?_set_self (by simp; omega)]

/-- What `colorizePoints` leaves for a point whose projection succeeds with
a truncated pixel inside the image: the tuple `ensureRgbArray` provided when
the camera is a chest camera and the vignette test holds, and otherwise the
three bytes of the decoded buffer at `bufIndex`, which are read in range. -/
theorem colorizePoints_inside (env : Env) (pd pd' : vtkPolyData) (cd : CameraData)
    (hcal : cd.mHasCalibration = true)
    (hmat : cd.mImageBuffer ≠ [] ∨ cd.mImageMessage.pixelformat = PIXEL_FORMAT_MJPEG)
    (hcomps : (ensureRgbArray pd).1 = 3)
    (hrun : (colorizePoints env pd cd).map Prod.fst = some pd')
    (i : Nat) (p : Vec3) (hp : pd.points[i]? = some p)
    (pix : ℚ × ℚ) (px py : Int) (hpix : projectedPixel cd p = some pix)
    (hpx : toInt pix.1 = some px) (hpy : toInt pix.2 = some py)
    (hin : 0 ≤ px ∧ px.toNat < toSizeT cd.mImageMessage.width ∧
      0 ≤ py ∧ py.toNat < toSizeT cd.mImageMessage.height) :
    ((computeDist cd = true ∧
        vignetteTest pix (toSizeT cd.mImageMessage.width) (toSizeT cd.mImageMessage.height)
          = true) →
      getTuple3 pd' "rgb" i = tuple3At (ensureRgbArray pd).2.1 3 i) ∧
    (¬ (computeDist cd = true ∧
        vignetteTest pix (toSizeT cd.mImageMessage.width) (toSizeT cd.mImageMessage.height)
          = true) →
      ∃ px3 r g b, intMul3 px = some px3 ∧
        (colorizeDecode env cd).mImageBuffer[sizeAdd
          (bufIndex (toSizeT cd.mImageMessage.width) px3 py) 0]? = some r ∧
        (colorizeDecode env cd).mImageBuffer[sizeAdd
          (bufIndex (toSizeT cd.mImageMessage.width) px3 py) 1]? = some g ∧
        (colorizeDecode env cd).mImageBuffer[sizeAdd
          (bufIndex (toSizeT cd.mImageMessage.width) px3 py) 2]? = some b ∧
        getTuple3 pd' "rgb" i = some (r, g, b)) := by
  obtain ⟨out, mid, mid', harr, hstep, hmid, hout⟩ :=
    colorizePoints_point env pd pd' cd hcal hmat hcomps hrun i p hp
  obtain ⟨hct, hl2c, hname⟩ := colorizeDecode_camTrans env cd
  obtain ⟨ct, hct', hcase⟩ := colorizePoint_some _ _ _ _ _ _ _ _ hstep
  rw [hct] at hct'
  rw [hl2c] at hcase
  have hcd : computeDist (colorizeDecode env cd) = computeDist cd := by
    simp only [computeDist, hname]
  rw [hcd] at hcase
  have hproj : projectedPixel cd p = ct.project_point (Isometry3d.apply cd.mLocalToCamera p) := by
    simp only [projectedPixel, hct']
  rw [hproj] at hpix
  have hget : getTuple3 pd' "rgb" i = tuple3At mid' 3 i := by
    unfold getTuple3 tuple3At
    rw [harr]
    simp only [hout 0 (by omega), hout 1 (by omega), hout 2 (by omega)]
  have hkeep : mid' = mid → getTuple3 pd' "rgb" i = tuple3At (ensureRgbArray pd).2.1 3 i := by
    intro e
    rw [hget, e]
    unfold tuple3At
    simp only [hmid 0 (by omega), hmid 1 (by omega), hmid 2 (by omega)]
  rcases hcase with ⟨hn, _⟩ | ⟨pix2, px2, py2, hpix2, hpx2, hpy2, hrest⟩
  · rw [hn] at hpix; cases hpix
  · rw [hpix2] at hpix
    cases hpix
    rw [hpx] at hpx2; cases hpx2
    rw [hpy] at hpy2; cases hpy2
    rcases hrest with ⟨hout2, _⟩ | ⟨_, hv, e⟩ | ⟨_, hv, px3, r, g, b, h3, hr, hg, hb, hlen, e⟩
    · exact absurd hin hout2
    · exact ⟨fun _ => hkeep e, fun hnv => absurd hv hnv⟩
    · refine ⟨fun hv2 => absurd hv2 hv, fun _ => ⟨px3, r, g, b, h3, hr, hg, hb, ?_⟩⟩
      rw [hget, e]
      obtain ⟨t0, t1, t2⟩ := tuple3_of_set mid i r g b hlen
      unfold tuple3At
      simp only [t0, t1, t2]

/-! ## C6: the vignette test of the chest cameras -/

/-- The truncation `static_cast<int>(x)` differs from `x` by less than one. -/
theorem toInt_bounds (x : ℚ) (t : Int) (h : toInt x = some t) :
    (t : ℚ) - 1 < x ∧ x < (t : ℚ) + 1 := by
  unfold toInt at h
  simp only [] at h
  split at h
  · have ht : Int.tdiv x.num (x.den : Int) = t := Option.some.inj h
    have hden : (0 : Int) < (x.den : Int) := by exact_mod_cast x.den_pos
    have hdenq : (0 : ℚ) < (x.den : ℚ) := by exact_mod_cast x.den_pos
    have hup := Int.lt_tdiv_add_one_mul_self x.num hden
    have hlo := Int.lt_tdiv_add_one_mul_self (-x.num) hden
    rw [Int.neg_tdiv] at hlo
    rw [ht] at hup hlo
    have hx : x = (x.num : ℚ) / (x.den : ℚ) := (Rat.num_div_den x).symm
    have hupq : (x.num : ℚ) < ((t : ℚ) + 1) * (x.den : ℚ) := by exact_mod_cast hup
    have hloq : -(x.num : ℚ) < (-(t : ℚ) + 1) * (x.den : ℚ) := by exact_mod_cast hlo
    constructor
    · rw [hx, lt_div_iff₀ hdenq]
      linarith
    · rw [hx, div_lt_iff₀ hdenq]
      exact hupq
  · cases h

/-- The quotient by a `size_t` that converts to `double` without rounding. -/
theorem divSize_of_exact (x : ℚ) (n : Nat) (hn : 0 < n)
    (hr : roundValue 53 (-1022) (n : ℚ) = (n : ℚ)) :
    Dbl.divSize x n = Dbl.ofRat (x / (n : ℚ)) := by
  unfold Dbl.divSize
  rw [if_neg (by omega), hr]

/-- One square of the vignette test for a pixel coordinate in the central half
of the image: at most 1/16. -/
theorem vignetteTerm_central (x : ℚ) (n : Nat) (hn : 0 < n)
    (hr : roundValue 53 (-1022) (n : ℚ) = (n : ℚ))
    (h1 : (n : ℚ) / 4 ≤ x) (h2 : x ≤ 3 * (n : ℚ) / 4) :
    ∃ s, Dbl.mul (Dbl.rsub (1/2) (Dbl.toFloat (Dbl.divSize x n)))
        (Dbl.rsub (1/2) (Dbl.toFloat (Dbl.divSize x n))) = Dbl.fin s ∧ 0 ≤ s ∧ s ≤ 1 / 16 := by
  have hnq : (0 : ℚ) < (n : ℚ) := by exact_mod_cast hn
  have q1 : (1 / 4 : ℚ) ≤ x / (n : ℚ) := by rw [le_div_iff₀ hnq]; linarith
  have q2 : x / (n : ℚ) ≤ 3 / 4 := by rw [div_le_iff₀ hnq]; linarith
  obtain ⟨u0, e0, a0, b0⟩ := ofRat_bracket (x / (n : ℚ)) (1 / 4) (3 / 4) q1 q2
    (by decide!) (by decide!) (by norm_num) (by norm_num)
  obtain ⟨u, e1, a1, b1⟩ := toFloat_bracket u0 (1 / 4) (3 / 4) a0 b0
    (by decide!) (by decide!) (by norm_num) (by norm_num)
  obtain ⟨y, e2, a2, b2⟩ := ofRat_bracket (1 / 2 - u) (-(1 / 4)) (1 / 4) (by linarith)
    (by linarith) (by decide!) (by decide!) (by norm_num) (by norm_num)
  obtain ⟨s, e3, a3, b3⟩ := ofRat_bracket (y * y) 0 (1 / 16) (mul_self_nonneg y)
    (by nlinarith) (roundValue_zero _ _) (by decide!) (by norm_num) (by norm_num)
  refine ⟨s, ?_, a3, b3⟩
  rw [divSize_of_exact x n hn hr, e0, e1]
  show Dbl.mul (Dbl.ofRat (1 / 2 - u)) (Dbl.ofRat (1 / 2 - u)) = _
  rw [e2]
  exact e3

/-- One square of the vignette test for a pixel coordinate within 1/256 of the
image size from the first pixel: at least `(127/256)^2`. -/
theorem vignetteTerm_border (x : ℚ) (n : Nat) (hn : 0 < n)
    (hr : roundValue 53 (-1022) (n : ℚ) = (n : ℚ))
    (h1 : -((n : ℚ) / 256) ≤ x) (h2 : x ≤ (n : ℚ) / 256) :
    ∃ s, Dbl.mul (Dbl.rsub (1/2) (Dbl.toFloat (Dbl.divSize x n)))
        (Dbl.rsub (1/2) (Dbl.toFloat (Dbl.divSize x n))) = Dbl.fin s ∧
      16129 / 65536 ≤ s ∧ s ≤ 16641 / 65536 := by
  have hnq : (0 : ℚ) < (n : ℚ) := by exact_mod_cast hn
  have q1 : (-(1 / 256) : ℚ) ≤ x / (n : ℚ) := by rw [le_div_iff₀ hnq]; linarith
  have q2 : x / (n : ℚ) ≤ 1 / 256 := by rw [div_le_iff₀ hnq]; linarith
  obtain ⟨u0, e0, a0, b0⟩ := ofRat_bracket (x / (n : ℚ)) (-(1 / 256)) (1 / 256) q1 q2
    (by decide!) (by decide!) (by norm_num) (by norm_num)
  obtain ⟨u, e1, a1, b1⟩ := toFloat_bracket u0 (-(1 / 256)) (1 / 256) a0 b0
    (by decide!) (by decide!) (by norm_num) (by norm_num)
  obtain ⟨y, e2, a2, b2⟩ := ofRat_bracket (1 / 2 - u) (127 / 256) (129 / 256) (by linarith)
    (by linarith) (by decide!) (by decide!) (by norm_num) (by norm_num)
  obtain ⟨s, e3, a3, b3⟩ := ofRat_bracket (y * y) (16129 / 65536) (16641 / 65536)
    (by nlinarith) (by nlinarith) (by decide!) (by decide!) (by norm_num) (by norm_num)
  refine ⟨s, ?_, a3, b3⟩
  rw [divSize_of_exact x n hn hr, e0, e1]
  show Dbl.mul (Dbl.ofRat (1 / 2 - u)) (Dbl.ofRat (1 / 2 - u)) = _
  rw [e2]
  exact e3

/-- The vignette test fails (the point is coloured) for a projected pixel in
the central half of the image in both directions. -/
theorem vignetteTest_central (pix : ℚ × ℚ) (w h : Nat)
    (hw : 0 < sizeSub w 1) (hh : 0 < sizeSub h 1)
    (rw1 : roundValue 53 (-1022) (sizeSub w 1 : ℚ) = (sizeSub w 1 : ℚ))
    (rh1 : roundValue 53 (-1022) (sizeSub h 1 : ℚ) = (sizeSub h 1 : ℚ))
    (x1 : (sizeSub w 1 : ℚ) / 4 ≤ pix.1) (x2 : pix.1 ≤ 3 * (sizeSub w 1 : ℚ) / 4)
    (y1 : (sizeSub h 1 : ℚ) / 4 ≤ pix.2) (y2 : pix.2 ≤ 3 * (sizeSub h 1 : ℚ) / 4) :
    vignetteTest pix w h = false := by
  obtain ⟨s, es, s1, s2⟩ := vignetteTerm_central pix.1 _ hw rw1 x1 x2
  obtain ⟨t, et, t1, t2⟩ := vignetteTerm_central pix.2 _ hh rh1 y1 y2
  obtain ⟨z, ez, z1, z2⟩ := ofRat_bracket (s + t) 0 (1 / 8) (by linarith) (by linarith)
    (roundValue_zero _ _) (by decide!) (by norm_num) (by norm_num)
  have hc : (1 / 8 : ℚ) ≤ roundValue 53 (-1022) (1 / 5) := by decide!
  unfold vignetteTest
  simp only []
  rw [es, et]
  show Dbl.gt (Dbl.ofRat (s + t)) _ = false
  rw [ez]
  show decide (roundValue 53 (-1022) (1 / 5) < z) = false
  rw [decide_eq_false_iff_not]
  intro hlt
  linarith

/-- The vignette test holds (the point is skipped) for a projected pixel
within 1/256 of the image size from the pixel (0, 0). -/
theorem vignetteTest_border (pix : ℚ × ℚ) (w h : Nat)
    (hw : 0 < sizeSub w 1) (hh : 0 < sizeSub h 1)
    (rw1 : roundValue 53 (-1022) (sizeSub w 1 : ℚ) = (sizeSub w 1 : ℚ))
    (rh1 : roundValue 53 (-1022) (sizeSub h 1 : ℚ) = (sizeSub h 1 : ℚ))
    (x1 : -((sizeSub w 1 : ℚ) / 256) ≤ pix.1) (x2 : pix.1 ≤ (sizeSub w 1 : ℚ) / 256)
    (y1 : -((sizeSub h 1 : ℚ) / 256) ≤ pix.2) (y2 : pix.2 ≤ (sizeSub h 1 : ℚ) / 256) :
    vignetteTest pix w h = true := by
  obtain ⟨s, es, s1, s2⟩ := vignetteTerm_border pix.1 _ hw rw1 x1 x2
  obtain ⟨t, et, t1, t2⟩ := vignetteTerm_border pix.2 _ hh rh1 y1 y2
  obtain ⟨z, ez, z1, z2⟩ := ofRat_bracket (s + t) (16129 / 32768) (16641 / 32768)
    (by linarith) (by linarith) (by decide!) (by decide!) (by norm_num) (by norm_num)
  have hc : roundValue 53 (-1022) (1 / 5) ≤ (1 / 4 : ℚ) := by decide!
  unfold vignetteTest
  simp only []
  rw [es, et]
  show Dbl.gt (Dbl.ofRat (s + t)) _ = true
  rw [ez]
  show decide (roundValue 53 (-1022) (1 / 5) < z) = true
  rw [decide_eq_true_eq]
  linarith

theorem vignetteTest_center (pix : ℚ × ℚ) (h1 : toInt pix.1 = some 320)
    (h2 : toInt pix.2 = some 240) : vignetteTest pix 640 480 = false := by
  obtain ⟨a1, a2⟩ := toInt_bounds _ _ h1
  obtain ⟨b1, b2⟩ := toInt_bounds _ _ h2
  have e1 : sizeSub 640 1 = 639 := by decide
  have e2 : sizeSub 480 1 = 479 := by decide
  push_cast at a1 a2 b1 b2
  apply vignetteTest_central
  · rw [e1]; norm_num
  · rw [e2]; norm_num
  · rw [e1]; exact roundValue_natCast 53 (by norm_num) _ (by norm_num) 639 (by norm_num)
  · rw [e2]; exact roundValue_natCast 53 (by norm_num) _ (by norm_num) 479 (by norm_num)
  · rw [e1]; push_cast; linarith
  · rw [e1]; push_cast; linarith
  · rw [e2]; push_cast; linarith
  · rw [e2]; push_cast; linarith

theorem vignetteTest_corner (pix : ℚ × ℚ) (h1 : toInt pix.1 = some 0)
    (h2 : toInt pix.2 = some 0) : vignetteTest pix 640 480 = true := by
  obtain ⟨a1, a2⟩ := toInt_bounds _ _ h1
  obtain ⟨b1, b2⟩ := toInt_bounds _ _ h2
  have e1 : sizeSub 640 1 = 639 := by decide
  have e2 : sizeSub 480 1 = 479 := by decide
  push_cast at a1 a2 b1 b2
  apply vignetteTest_border
  · rw [e1]; norm_num
  · rw [e2]; norm_num
  · rw [e1]; exact roundValue_natCast 53 (by norm_num) _ (by norm_num) 639 (by norm_num)
  · rw [e2]; exact roundValue_natCast 53 (by norm_num) _ (by norm_num) 479 (by norm_num)
  · rw [e1]; push_cast; linarith
  · rw [e1]; push_cast; linarith
  · rw [e2]; push_cast; linarith
  · rw [e2]; push_cast; linarith

theorem ensureRgbArray_comps (pd : vtkPolyData)
    (hprior : ∀ comps data, getArray pd "rgb" = some (DataArray.uchar comps data) → comps = 3) :
    (ensureRgbArray pd).1 = 3 := by
  unfold ensureRgbArray
  cases h : getArray pd "rgb" with
  | none => rfl
  | some a =>
    cases a with
    | uchar comps data => exact hprior comps data h
    | float comps data => rfl

/-- C6 (as amended). In `colorizePoints` for a chest camera, take a point
whose projection succeeds with pixel `pix` and whose truncated pixel
`(px, py)` is inside the image.  If the vignette test holds the point keeps
the colour it had when the loop started; if not, it receives the three decoded
bytes at `bufIndex`.  The test is the one the code evaluates in floating
point from the projected pixel before truncation: `u = pix[0]/(w-1)` and
`v = pix[1]/(h-1)` are doubles narrowed to `float`, and the double
`(0.5-u)*(0.5-u) + (0.5-v)*(0.5-v)` is compared with the double nearest to
0.2.  For sizes from 2 to `2^53` the test fails when the projected pixel is in
the central half of the image in both directions and holds when it is not
negative and within 1/256 of the image size from (0, 0).  For `w = 640`, `h = 480` a point with
truncated pixel (320, 240) is coloured and one with truncated pixel (0, 0) is
skipped. -/
theorem C6_vignette (env : Env) (pd pd' : vtkPolyData) (cd : CameraData)
    (hcal : cd.mHasCalibration = true)
    (hchest : cd.mName = "CAMERACHEST_LEFT" ∨ cd.mName = "CAMERACHEST_RIGHT")
    (hmat : cd.mImageBuffer ≠ [] ∨ cd.mImageMessage.pixelformat = PIXEL_FORMAT_MJPEG)
    (hprior : ∀ comps data, getArray pd "rgb" = some (DataArray.uchar comps data) → comps = 3)
    (hrun : (colorizePoints env pd cd).map Prod.fst = some pd')
    (i : Nat) (p : Vec3) (hp : pd.points[i]? = some p)
    (pix : ℚ × ℚ) (px py : Int) (hpix : projectedPixel cd p = some pix)
    (hpx : toInt pix.1 = some px) (hpy : toInt pix.2 = some py)
    (hin : 0 ≤ px ∧ px.toNat < toSizeT cd.mImageMessage.width ∧
      0 ≤ py ∧ py.toNat < toSizeT cd.mImageMessage.height) :
    (vignetteTest pix (toSizeT cd.mImageMessage.width) (toSizeT cd.mImageMessage.height) = true →
      getTuple3 pd' "rgb" i = tuple3At (ensureRgbArray pd).2.1 3 i) ∧
    (vignetteTest pix (toSizeT cd.mImageMessage.width) (toSizeT cd.mImageMessage.height) = false →
      ∃ px3 r g b, intMul3 px = some px3 ∧
        (colorizeDecode env cd).mImageBuffer[sizeAdd
          (bufIndex (toSizeT cd.mImageMessage.width) px3 py) 0]? = some r ∧
        (colorizeDecode env cd).mImageBuffer[sizeAdd
          (bufIndex (toSizeT cd.mImageMessage.width) px3 py) 1]? = some g ∧
        (colorizeDecode env cd).mImageBuffer[sizeAdd
          (bufIndex (toSizeT cd.mImageMessage.width) px3 py) 2]? = some b ∧
        getTuple3 pd' "rgb" i = some (r, g, b)) ∧
    (2 ≤ toSizeT cd.mImageMessage.width → toSizeT cd.mImageMessage.width ≤ 2 ^ 53 →
      2 ≤ toSizeT cd.mImageMessage.height → toSizeT cd.mImageMessage.height ≤ 2 ^ 53 →
      (((toSizeT cd.mImageMessage.width : ℚ) - 1) / 4 ≤ pix.1 →
        pix.1 ≤ 3 * ((toSizeT cd.mImageMessage.width : ℚ) - 1) / 4 →
        ((toSizeT cd.mImageMessage.height : ℚ) - 1) / 4 ≤ pix.2 →
        pix.2 ≤ 3 * ((toSizeT cd.mImageMessage.height : ℚ) - 1) / 4 →
        vignetteTest pix (toSizeT cd.mImageMessage.width) (toSizeT cd.mImageMessage.height)
          = false) ∧
      (0 ≤ pix.1 → pix.1 ≤ ((toSizeT cd.mImageMessage.width : ℚ) - 1) / 256 →
        0 ≤ pix.2 → pix.2 ≤ ((toSizeT cd.mImageMessage.height : ℚ) - 1) / 256 →
        vignetteTest pix (toSizeT cd.mImageMessage.width) (toSizeT cd.mImageMessage.height)
          = true)) ∧
    (toSizeT cd.mImageMessage.width = 640 → toSizeT cd.mImageMessage.height = 480 →
      px = 320 → py = 240 →
      vignetteTest pix (toSizeT cd.mImageMessage.width) (toSizeT cd.mImageMessage.height)
        = false) ∧
    (toSizeT cd.mImageMessage.width = 640 → toSizeT cd.mImageMessage.height = 480 →
      px = 0 → py = 0 →
      vignetteTest pix (toSizeT cd.mImageMessage.width) (toSizeT cd.mImageMessage.height)
        = true) := by
  have hcd : computeDist cd = true := by
    unfold computeDist
    rcases hchest with h | h <;> simp [h]
  obtain ⟨hskip, hwrite⟩ := colorizePoints_inside env pd pd' cd hcal hmat
    (ensureRgbArray_comps pd hprior) hrun i p hp pix px py hpix hpx hpy hin
  refine ⟨fun hv => hskip ⟨hcd, hv⟩, fun hv => hwrite (by rw [hv]; simp), ?_, ?_, ?_⟩
  · intro hw hw2 hh hh2
    have e1 : sizeSub (toSizeT cd.mImageMessage.width) 1 = toSizeT cd.mImageMessage.width - 1 :=
      sizeSub_one _ (by omega) (toSizeT_lt _)
    have e2 : sizeSub (toSizeT cd.mImageMessage.height) 1 = toSizeT cd.mImageMessage.height - 1 :=
      sizeSub_one _ (by omega) (toSizeT_lt _)
    have c1 : ((toSizeT cd.mImageMessage.width - 1 : Nat) : ℚ)
        = (toSizeT cd.mImageMessage.width : ℚ) - 1 := by
      rw [Nat.cast_sub (by omega)]; simp
    have c2 : ((toSizeT cd.mImageMessage.height - 1 : Nat) : ℚ)
        = (toSizeT cd.mImageMessage.height : ℚ) - 1 := by
      rw [Nat.cast_sub (by omega)]; simp
    have r1 := roundValue_natCast 53 (by norm_num) (-1022) (by norm_num)
      (toSizeT cd.mImageMessage.width - 1) (by omega)
    have r2 := roundValue_natCast 53 (by norm_num) (-1022) (by norm_num)
      (toSizeT cd.mImageMessage.height - 1) (by omega)
    have hwq : (2 : ℚ) ≤ (toSizeT cd.mImageMessage.width : ℚ) := by exact_mod_cast hw
    have hhq : (2 : ℚ) ≤ (toSizeT cd.mImageMessage.height : ℚ) := by exact_mod_cast hh
    constructor
    · intro x1 x2 y1 y2
      apply vignetteTest_central
      · rw [e1]; omega
      · rw [e2]; omega
      · rw [e1]; exact r1
      · rw [e2]; exact r2
      · rw [e1, c1]; exact x1
      · rw [e1, c1]; exact x2
      · rw [e2, c2]; exact y1
      · rw [e2, c2]; exact y2
    · intro x1 x2 y1 y2
      apply vignetteTest_border
      · rw [e1]; omega
      · rw [e2]; omega
      · rw [e1]; exact r1
      · rw [e2]; exact r2
      · rw [e1, c1]; linarith
      · rw [e1, c1]; exact x2
      · rw [e2, c2]; linarith
      · rw [e2, c2]; exact y2
  · intro hw hh h1 h2
    rw [hw, hh]
    subst h1; subst h2
    exact vignetteTest_center pix hpx hpy
  · intro hw hh h1 h2
    rw [hw, hh]
    subst h1; subst h2
    exact vignetteTest_corner pix hpx hpy

/-- Witness of C6 on the 2x2 chest camera: the third example point projects
to pixel (1, 1), where the vignette test holds, and keeps its colour. -/
theorem C6_vignette_witness :
    getTuple3 exChestColored "rgb" 2 = tuple3At (ensureRgbArray exPoints).2.1 3 2 :=
  (C6_vignette exEnv exPoints exChestColored exChest rfl (Or.inl rfl) (Or.inr rfl)
    (fun _ _ h => Option.noConfusion (h : none = some _)) (by decide!) 2 (1, 1, 1) rfl (1, 1) 1 1 (by decide!) (by decide!) (by decide!)
    (by decide)).1 (by decide!)

/-- Counterexample to C6 as stated: on the 2x2 chest camera the fifth example
point projects to (3/4, 1/2), which truncates to the pixel (0, 0) inside the
image.  With `u` and `v` computed from the truncated pixel the test value is
0.5 > 0.2, in exact arithmetic and in the arithmetic of the code, so the claim
has the point skipped; the code computes the test from (3/4, 1/2), gets
0.0625, and writes the bytes of pixel (0, 0) over the white default. -/
theorem C6_counterexample :
    computeDist exChest = true ∧
    exPoints.points[4]? = some ((3/4, 1/2, 1) : Vec3) ∧
    projectedPixel exChest (3/4, 1/2, 1) = some (3/4, 1/2) ∧
    toInt (3/4) = some 0 ∧ toInt (1/2) = some 0 ∧
    (1 / 2 - ((0 : Int) : ℚ) / ((2 : ℚ) - 1)) ^ 2 +
      (1 / 2 - ((0 : Int) : ℚ) / ((2 : ℚ) - 1)) ^ 2 > 1 / 5 ∧
    vignetteTest (((0 : Int) : ℚ), ((0 : Int) : ℚ)) 2 2 = true ∧
    vignetteTest (3 / 4, 1 / 2) 2 2 = false ∧
    (colorizePoints exEnv exPoints exChest).map Prod.fst = some exChestColored ∧
    tuple3At (ensureRgbArray exPoints).2.1 3 4 = some (255, 255, 255) ∧
    getTuple3 exChestColored "rgb" 4 = some (10, 11, 12) := by
  refine ⟨by decide, by decide!, by decide!, by decide!, by decide!, by norm_num, by decide!,
    by decide!, by decide!, by decide!, by decide!⟩


/-! ## Lemmas on the texture mapper -/

/-- The outcomes of one texture-mapper iteration that returns: the array is
left as it was (projection failed) or the two narrowed quotients are written to tuple
`i`. -/
theorem textureCoordPoint_some (cd : CameraData) (w h comps i : Nat) (p : Vec3)
    (tc out : List Dbl) (hrun : textureCoordPoint cd w h comps i p tc = some out) :
    ∃ ct, cd.mCamTrans = some ct ∧
      ((ct.project_point p = none ∧ out = tc) ∨
       ∃ pix, ct.project_point p = some pix ∧ i * comps + 1 < tc.length ∧
        out = (tc.set (i * comps + 0) (Dbl.toFloat (Dbl.divSize pix.1 (sizeSub w 1)))).set (i * comps + 1)
          (Dbl.toFloat (Dbl.divSize pix.2 (sizeSub h 1)))) := by
  cases hct : cd.mCamTrans with
  | none => simp [textureCoordPoint, hct] at hrun
  | some ct =>
    refine ⟨ct, rfl, ?_⟩
    cases hpix : ct.project_point p with
    | none =>
      left
      simp only [textureCoordPoint, hct, hpix] at hrun
      exact ⟨rfl, (Option.some.inj hrun).symm⟩
    | some pix =>
      right
      simp only [textureCoordPoint, hct, hpix] at hrun
      cases h1 : setComponent tc comps i 0 (Dbl.toFloat (Dbl.divSize pix.1 (sizeSub w 1))) with
      | none => simp [h1] at hrun
      | some t1 =>
        simp only [h1, Option.some_bind] at hrun
        obtain ⟨_, e1⟩ := setComponent_some _ _ _ _ _ _ h1
        obtain ⟨l2, e2⟩ := setComponent_some _ _ _ _ _ _ hrun
        subst e1; subst e2
        exact ⟨pix, rfl, by simpa using l2, rfl⟩

theorem textureCoordPoint_frame (cd : CameraData) (w h i : Nat) (p : Vec3)
    (tc out : List Dbl) (hrun : textureCoordPoint cd w h 2 i p tc = some out) :
    out.length = tc.length ∧
      ∀ k : Nat, (k < i * 2 ∨ i * 2 + 2 ≤ k) → out[k]? = tc[k]? := by
  obtain ⟨ct, _, hcase⟩ := textureCoordPoint_some cd w h 2 i p tc out hrun
  rcases hcase with ⟨_, e⟩ | ⟨pix, _, _, e⟩
  · subst e; exact ⟨rfl, fun _ _ => rfl⟩
  · subst e
    refine ⟨by simp, ?_⟩
    intro k hk
    rw [List.getElem?_set_ne (by omega), List.getElem?_set_ne (by omega)]

/-- The texture-mapper loop, point by point (see `colorizeLoop_spec`). -/
theorem textureCoordLoop_spec (cd : CameraData) (w h : Nat) :
    ∀ (ps : List Vec3) (i : Nat) (tc out : List Dbl),
      textureCoordLoop cd w h 2 i ps tc = some out →
      out.length = tc.length ∧
      (∀ k : Nat, k < i * 2 → out[k]? = tc[k]?) ∧
      (∀ (j : Nat) (p : Vec3), ps[j]? = some p →
        ∃ mid mid', textureCoordPoint cd w h 2 (i + j) p mid = some mid' ∧
          (∀ c : Nat, c < 2 → mid[(i + j) * 2 + c]? = tc[(i + j) * 2 + c]?) ∧
          (∀ c : Nat, c < 2 → out[(i + j) * 2 + c]? = mid'[(i + j) * 2 + c]?)) := by
  intro ps
  induction ps with
  | nil =>
    intro i tc out hrun
    simp only [textureCoordLoop] at hrun
    cases hrun
    refine ⟨rfl, fun _ _ => rfl, ?_⟩
    intro j p hj
    simp at hj
  | cons p0 ps ih =>
    intro i tc out hrun
    simp only [textureCoordLoop] at hrun
    cases h1 : textureCoordPoint cd w h 2 i p0 tc with
    | none => simp [h1] at hrun
    | some tc1 =>
      simp only [h1] at hrun
      obtain ⟨hlen1, hframe⟩ := textureCoordPoint_frame cd w h i p0 tc tc1 h1
      obtain ⟨hlen, hlow, hpts⟩ := ih (i + 1) tc1 out hrun
      refine ⟨by omega, ?_, ?_⟩
      · intro k hk
        rw [hlow k (by omega), hframe k (Or.inl hk)]
      · intro j p hj
        cases j with
        | zero =>
          simp only [List.getElem?_cons_zero, Option.some.injEq] at hj
          subst hj
          refine ⟨tc, tc1, h1, fun _ _ => rfl, ?_⟩
          intro c hc
          exact hlow _ (by omega)
        | succ j =>
          simp only [List.getElem?_cons_succ] at hj
          obtain ⟨mid, mid', hm, hmt, hout⟩ := hpts j p hj
          have e : i + 1 + j = i + (j + 1) := by omega
          rw [e] at hm hmt hout
          refine ⟨mid, mid', hm, ?_, hout⟩
          intro c hc
          rw [hmt c hc, hframe _ (Or.inr (by omega))]

theorem ensureTcoordsArray_isSome (pd : vtkPolyData) (name : String) :
    (qvalue name (ensureTcoordsArray pd name).2.2).isSome := by
  unfold ensureTcoordsArray
  cases h : getArray pd name with
  | none => exact qvalue_addArray _ _ _
  | some a =>
    cases a with
    | uchar comps data => exact qvalue_addArray _ _ _
    | float comps data =>
      simp only []
      unfold getArray at h
      rw [h]; rfl

/-- The tuple of one point after `computeTextureCoords`, for an array of 2
components: the tuple `ensureTcoordsArray` provided when the projection of the
point fails, and the two narrowed quotients otherwise. -/
theorem computeTextureCoords_point (pd pd' : vtkPolyData) (cd : CameraData)
    (hcal : cd.mHasCalibration = true)
    (hcomps : (ensureTcoordsArray pd ("tcoords_" ++ cd.mName)).1 = 2)
    (hrun : computeTextureCoords pd cd = some pd')
    (i : Nat) (p : Vec3) (hp : pd.points[i]? = some p) :
    (texturePixel cd p = none →
      getTuple2 pd' ("tcoords_" ++ cd.mName) i =
        tuple2At (ensureTcoordsArray pd ("tcoords_" ++ cd.mName)).2.1 2 i) ∧
    (∀ pix, texturePixel cd p = some pix →
      getTuple2 pd' ("tcoords_" ++ cd.mName) i =
        some (Dbl.toFloat (Dbl.divSize pix.1 (sizeSub (toSizeT cd.mImageMessage.width) 1)),
              Dbl.toFloat (Dbl.divSize pix.2 (sizeSub (toSizeT cd.mImageMessage.height) 1)))) := by
  unfold computeTextureCoords at hrun
  simp only [hcal, not_true_eq_false, if_false] at hrun
  cases hloop : textureCoordLoop cd (toSizeT cd.mImageMessage.width)
      (toSizeT cd.mImageMessage.height) (ensureTcoordsArray pd ("tcoords_" ++ cd.mName)).1 0
      pd.points (ensureTcoordsArray pd ("tcoords_" ++ cd.mName)).2.1 with
  | none => simp [hloop] at hrun
  | some out =>
    simp only [hloop, Option.some.injEq] at hrun
    subst hrun
    have harr : getArray { pd with arrays := (qstore ("tcoords_" ++ cd.mName)
        (DataArray.float (ensureTcoordsArray pd ("tcoords_" ++ cd.mName)).1 out)
        (ensureTcoordsArray pd ("tcoords_" ++ cd.mName)).2.2) } ("tcoords_" ++ cd.mName) =
        some (DataArray.float (ensureTcoordsArray pd ("tcoords_" ++ cd.mName)).1 out) := by
      unfold getArray
      exact qvalue_qstore_same _ _ _ (ensureTcoordsArray_isSome pd _)
    rw [hcomps] at hloop harr
    obtain ⟨_, _, hpts⟩ := textureCoordLoop_spec cd _ _ _ _ _ _ hloop
    obtain ⟨mid, mid', hstep, hmid, hout⟩ := hpts i p hp
    simp only [Nat.zero_add] at hstep hmid hout
    obtain ⟨ct, hct, hcase⟩ := textureCoordPoint_some _ _ _ _ _ _ _ _ hstep
    have hproj : texturePixel cd p = ct.project_point p := by
      simp only [texturePixel, hct]
    have hget : getTuple2 { pd with arrays := (qstore ("tcoords_" ++ cd.mName)
        (DataArray.float (ensureTcoordsArray pd ("tcoords_" ++ cd.mName)).1 out)
        (ensureTcoordsArray pd ("tcoords_" ++ cd.mName)).2.2) } ("tcoords_" ++ cd.mName) i =
        tuple2At mid' 2 i := by
      unfold getTuple2 tuple2At
      rw [hcomps, harr]
      simp only [hout 0 (by omega), hout 1 (by omega)]
    rw [hget, hproj]
    rcases hcase with ⟨hn, e⟩ | ⟨pix, hpix, hlen, e⟩
    · refine ⟨fun _ => ?_, fun pix2 h2 => ?_⟩
      · rw [e]
        unfold tuple2At
        simp only [hmid 0 (by omega), hmid 1 (by omega)]
      · rw [hn] at h2; cases h2
    · refine ⟨fun h2 => ?_, fun pix2 h2 => ?_⟩
      · rw [hpix] at h2; cases h2
      · rw [hpix] at h2
        cases h2
        rw [e]
        unfold tuple2At
        rw [List.getElem?_set_ne (by omega), List.getElem?_set_self (by omega),
          List.getElem?_set_self (by simp; omega)]

/-! ## C7: the sentinel of the texture mapper -/

/-- C7 (as amended). For a calibrated record, when `computeTextureCoords`
returns, a point whose projection fails has the texture coordinate (-1, -1) if
the collection carried no float array `tcoords_<cameraName>` before the call
(the array is then created with every tuple (-1, -1)); if the collection
already carried the array, with 2 components, the point keeps the
coordinate it had before the call. -/
theorem C7_texture_sentinel (pd pd' : vtkPolyData) (cd : CameraData)
    (hcal : cd.mHasCalibration = true)
    (hrun : computeTextureCoords pd cd = some pd')
    (i : Nat) (p : Vec3) (hp : pd.points[i]? = some p)
    (hfail : texturePixel cd p = none) :
    ((∀ comps data, getArray pd ("tcoords_" ++ cd.mName) ≠ some (DataArray.float comps data)) →
      getTuple2 pd' ("tcoords_" ++ cd.mName) i = some (Dbl.fin (-1), Dbl.fin (-1))) ∧
    (∀ data, getArray pd ("tcoords_" ++ cd.mName) = some (DataArray.float 2 data) →
      getTuple2 pd' ("tcoords_" ++ cd.mName) i = getTuple2 pd ("tcoords_" ++ cd.mName) i) := by
  have hi : i < pd.points.length := by
    by_contra hc
    rw [List.getElem?_eq_none (by omega)] at hp
    cases hp
  constructor
  · intro hno
    have hens : ensureTcoordsArray pd ("tcoords_" ++ cd.mName) =
        (2, List.replicate (2 * pd.points.length) (Dbl.fin (-1)),
          addArray ("tcoords_" ++ cd.mName)
            (DataArray.float 2 (List.replicate (2 * pd.points.length) (Dbl.fin (-1))))
            pd.arrays) := by
      unfold ensureTcoordsArray
      cases h : getArray pd ("tcoords_" ++ cd.mName) with
      | none => rfl
      | some a =>
        cases a with
        | uchar comps data => rfl
        | float comps data => exact absurd h (hno comps data)
    obtain ⟨hkeep, _⟩ := computeTextureCoords_point pd pd' cd hcal (by rw [hens]) hrun i p hp
    rw [hkeep hfail, hens]
    unfold tuple2At
    simp only [List.getElem?_replicate_of_lt (show i * 2 + 0 < 2 * pd.points.length by omega),
      List.getElem?_replicate_of_lt (show i * 2 + 1 < 2 * pd.points.length by omega)]
  · intro data hdata
    have hens : ensureTcoordsArray pd ("tcoords_" ++ cd.mName) = (2, data, pd.arrays) := by
      unfold ensureTcoordsArray
      rw [hdata]
    obtain ⟨hkeep, _⟩ := computeTextureCoords_point pd pd' cd hcal (by rw [hens]) hrun i p hp
    rw [hkeep hfail, hens]
    unfold getTuple2
    rw [hdata]

/-- Witness of C7: the first example point is behind the camera and gets the
sentinel in the array the call creates. -/
theorem C7_texture_sentinel_witness :
    getTuple2 exTextured "tcoords_CAMERA_LEFT" 0 = some (Dbl.fin (-1), Dbl.fin (-1)) :=
  (C7_texture_sentinel exPoints exTextured exLeft rfl (by decide!) 0 (0, 0, -1) rfl
    (by decide!)).1 (fun _ _ h => Option.noConfusion (h : none = some _))

/-- Counterexample to C7 as stated: a collection of one point gets the
coordinate (1, 1) from a first call; the point is then moved behind the camera
and the second call, on the collection that carries the array of the first,
leaves (1, 1) in place instead of (-1, -1). -/
theorem C7_counterexample :
    computeTextureCoords { points := [(1, 1, 1)], arrays := [] } exLeft
      = some exOnePointTextured ∧
    texturePixel exLeft (1, 1, -1) = none ∧
    (computeTextureCoords { exOnePointTextured with points := [(1, 1, -1)] } exLeft).bind
        (fun pd' => getTuple2 pd' "tcoords_CAMERA_LEFT" 0)
      = some (Dbl.fin 1, Dbl.fin 1) := by
  decide!

/-! ## C8: the texture coordinates of projected points -/

theorem ensureTcoordsArray_comps (pd : vtkPolyData) (name : String)
    (hprior : ∀ comps data, getArray pd name = some (DataArray.float comps data) → comps = 2) :
    (ensureTcoordsArray pd name).1 = 2 := by
  unfold ensureTcoordsArray
  cases h : getArray pd name with
  | none => rfl
  | some a =>
    cases a with
    | uchar comps data => rfl
    | float comps data => exact hprior comps data h

/-- For a size from 2 to `2^53` the quotient `x / (w-1)` of the code is the
double nearest to the exact quotient. -/
theorem divSize_of_two_le (x : ℚ) (w : Nat) (hw : 2 ≤ w) (hw2 : w ≤ 2 ^ 53) :
    Dbl.divSize x (sizeSub w 1) = Dbl.ofRat (x / ((w : ℚ) - 1)) := by
  have e1 : sizeSub w 1 = w - 1 := sizeSub_one w (by omega) (by omega)
  have c1 : ((w - 1 : Nat) : ℚ) = (w : ℚ) - 1 := by
    rw [Nat.cast_sub (by omega)]; simp
  rw [e1, divSize_of_exact x (w - 1) (by omega)
    (roundValue_natCast 53 (by norm_num) (-1022) (by norm_num) (w - 1) (by omega)), c1]

/-- C8 (as amended). For a calibrated record, chest camera or not, when
`computeTextureCoords` returns, a point `p` for which the camera model applied
to `p` itself (the cached `mLocalToCamera` is not applied) succeeds with pixel
`(px, py)` has the texture coordinate `(float(px/(w-1)), float(py/(h-1)))`,
the quotients computed in `double` and narrowed to `float`, whatever the
pixel: there is no bounds test and no vignette test.  For sizes from 2 to
`2^53` each coordinate is the float nearest to the double nearest to the exact
quotient.  On a 640 wide image pixel x = 0 gives u = 0 and pixel x = 639 gives
u = 1; on a 4 wide image pixel x = 1 gives the float 11184811/33554432, not
1/3. -/
theorem C8_texture_coords (pd pd' : vtkPolyData) (cd : CameraData)
    (hcal : cd.mHasCalibration = true)
    (hprior : ∀ comps data,
      getArray pd ("tcoords_" ++ cd.mName) = some (DataArray.float comps data) → comps = 2)
    (hrun : computeTextureCoords pd cd = some pd')
    (i : Nat) (p : Vec3) (hp : pd.points[i]? = some p)
    (pix : ℚ × ℚ) (hpix : texturePixel cd p = some pix) :
    getTuple2 pd' ("tcoords_" ++ cd.mName) i =
      some (Dbl.toFloat (Dbl.divSize pix.1 (sizeSub (toSizeT cd.mImageMessage.width) 1)),
            Dbl.toFloat (Dbl.divSize pix.2 (sizeSub (toSizeT cd.mImageMessage.height) 1))) ∧
    (2 ≤ toSizeT cd.mImageMessage.width → toSizeT cd.mImageMessage.width ≤ 2 ^ 53 →
      2 ≤ toSizeT cd.mImageMessage.height → toSizeT cd.mImageMessage.height ≤ 2 ^ 53 →
      getTuple2 pd' ("tcoords_" ++ cd.mName) i =
        some (Dbl.toFloat (Dbl.ofRat (pix.1 / ((toSizeT cd.mImageMessage.width : ℚ) - 1))),
              Dbl.toFloat (Dbl.ofRat (pix.2 / ((toSizeT cd.mImageMessage.height : ℚ) - 1))))) ∧
    (toSizeT cd.mImageMessage.width = 640 → pix.1 = 0 →
      (getTuple2 pd' ("tcoords_" ++ cd.mName) i).map Prod.fst = some (Dbl.fin 0)) ∧
    (toSizeT cd.mImageMessage.width = 640 → pix.1 = 639 →
      (getTuple2 pd' ("tcoords_" ++ cd.mName) i).map Prod.fst = some (Dbl.fin 1)) ∧
    (toSizeT cd.mImageMessage.width = 4 → pix.1 = 1 →
      (getTuple2 pd' ("tcoords_" ++ cd.mName) i).map Prod.fst
        = some (Dbl.fin (11184811 / 33554432))) := by
  obtain ⟨_, hset⟩ := computeTextureCoords_point pd pd' cd hcal
    (ensureTcoordsArray_comps pd _ hprior) hrun i p hp
  have hval := hset pix hpix
  refine ⟨hval, ?_, ?_, ?_, ?_⟩
  · intro hw hw2 hh hh2
    rw [hval, divSize_of_two_le _ _ hw hw2, divSize_of_two_le _ _ hh hh2]
  · intro hw h0
    rw [hval, hw, h0]
    have : Dbl.toFloat (Dbl.divSize 0 (sizeSub 640 1)) = Dbl.fin 0 := by decide!
    simp [this]
  · intro hw h0
    rw [hval, hw, h0]
    have : Dbl.toFloat (Dbl.divSize 639 (sizeSub 640 1)) = Dbl.fin 1 := by decide!
    simp [this]
  · intro hw h0
    rw [hval, hw, h0]
    have : Dbl.toFloat (Dbl.divSize 1 (sizeSub 4 1)) = Dbl.fin (11184811 / 33554432) := by
      decide!
    simp [this]

/-- Witness of C8: the second example point projects to pixel (5, 5), outside
the 2x2 image, and gets the coordinate (5, 5). -/
theorem C8_texture_coords_witness :
    getTuple2 exTextured "tcoords_CAMERA_LEFT" 1 =
      some (Dbl.toFloat (Dbl.divSize 5 (sizeSub 2 1)), Dbl.toFloat (Dbl.divSize 5 (sizeSub 2 1))) ∧
    Dbl.toFloat (Dbl.divSize 5 (sizeSub 2 1)) = Dbl.fin 5 :=
  ⟨(C8_texture_coords exPoints exTextured exLeft rfl
    (fun _ _ h => Option.noConfusion (h : none = some _)) (by decide!) 1 (5, 5, 1) rfl
    (5, 5) (by decide!)).1, by decide!⟩

/-- Counterexample to C8 as stated: the cached `mLocalToCamera` shifts x by
10, so the projection of section 4.4 of the point (1, 1, 1) is the pixel
(11, 1) and the claim gives the coordinate (11/(2-1), 1/(2-1)) = (11, 1), in
exact arithmetic and in the arithmetic of the code; `computeTextureCoords`
projects the point itself and writes (1, 1). -/
theorem C8_counterexample :
    exLeftShifted.mHasCalibration = true ∧
    projectedPixel exLeftShifted (1, 1, 1) = some (11, 1) ∧
    (toSizeT exLeftShifted.mImageMessage.width, toSizeT exLeftShifted.mImageMessage.height)
      = (2, 2) ∧
    (computeTextureCoords { points := [(1, 1, 1)], arrays := [] } exLeftShifted).bind
        (fun pd' => getTuple2 pd' "tcoords_CAMERA_LEFT" 0)
      = some (Dbl.fin 1, Dbl.fin 1) ∧
    Dbl.fin ((11 : ℚ) / (2 - 1)) ≠ Dbl.fin 1 ∧
    Dbl.toFloat (Dbl.divSize 11 (sizeSub 2 1)) = Dbl.fin 11 := by
  decide!


/-! ## C9: the decode step of the colorizer -/

/-- C9. For a calibrated record with an empty decoded buffer: when the raw
frame is MJPEG the record `colorizePoints` leaves has the decoded buffer that
`toVtkImage` produces (`toVtkImage` returns exactly when `buf_size` bytes fit
the scalar memory of its image, which they do for sizes from 1 to `2^31`);
when the raw frame is raw RGB, `toVtkImage` copies the raw data into the
decoded buffer (and returns exactly when they fit the scalar memory) while
`colorizePoints` returns the point collection and the record unchanged,
colouring nothing. -/
theorem C9_colorizer_decode (env : Env) (pd : vtkPolyData) (cd : CameraData)
    (hcal : cd.mHasCalibration = true) (hempty : cd.mImageBuffer = []) :
    (cd.mImageMessage.pixelformat = PIXEL_FORMAT_MJPEG →
      ∀ pd' cd', colorizePoints env pd cd = some (pd', cd') →
        (∀ fresh r, toVtkImage env fresh cd = some r →
          cd'.mImageBuffer = r.2.1.mImageBuffer) ∧
        (∀ fresh, (toVtkImage env fresh cd).map (fun r => r.2.1.mImageBuffer) =
          if sizeMul (sizeMul (toSizeT cd.mImageMessage.width)
              (toSizeT cd.mImageMessage.height)) 3
            ≤ scalarCapacity (toSizeT cd.mImageMessage.width) (toSizeT cd.mImageMessage.height)
          then some cd'.mImageBuffer else none) ∧
        (1 ≤ toSizeT cd.mImageMessage.width → toSizeT cd.mImageMessage.width ≤ 2 ^ 31 →
          1 ≤ toSizeT cd.mImageMessage.height → toSizeT cd.mImageMessage.height ≤ 2 ^ 31 →
          ∀ fresh, (toVtkImage env fresh cd).map (fun r => r.2.1.mImageBuffer)
            = some cd'.mImageBuffer)) ∧
    (cd.mImageMessage.pixelformat = PIXEL_FORMAT_RGB →
      colorizePoints env pd cd = some (pd, cd) ∧
      (sizeMul (sizeMul (toSizeT cd.mImageMessage.width) (toSizeT cd.mImageMessage.height)) 3
          ≠ 0 →
        ∀ fresh, (toVtkImage env fresh cd).map (fun r => r.2.1.mImageBuffer) =
          if cd.mImageMessage.data.length
            ≤ scalarCapacity (toSizeT cd.mImageMessage.width) (toSizeT cd.mImageMessage.height)
          then some cd.mImageMessage.data else none)) := by
  have hne : ¬ PIXEL_FORMAT_MJPEG = PIXEL_FORMAT_RGB := by decide
  have hne2 : ¬ PIXEL_FORMAT_RGB = PIXEL_FORMAT_MJPEG := by decide
  have hl : cd.mImageBuffer.length = 0 := by rw [hempty]; rfl
  constructor
  · intro hj pd' cd' hrun
    have hrgb : ¬ cd.mImageMessage.pixelformat = PIXEL_FORMAT_RGB := by rw [hj]; exact hne
    obtain ⟨hcd', _, _⟩ := colorizePoints_run env pd pd' cd cd' hcal (Or.inr hj) hrun
    have hbuf : cd'.mImageBuffer = jpegInto env cd.mImageMessage
        (toSizeT cd.mImageMessage.width) (toSizeT cd.mImageMessage.height)
        (sizeMul (sizeMul (toSizeT cd.mImageMessage.width)
          (toSizeT cd.mImageMessage.height)) 3) := by
      rw [hcd']
      simp [colorizeDecode, hempty]
    have hif : ∀ fresh, (toVtkImage env fresh cd).map (fun r => r.2.1.mImageBuffer) =
        if sizeMul (sizeMul (toSizeT cd.mImageMessage.width)
            (toSizeT cd.mImageMessage.height)) 3
          ≤ scalarCapacity (toSizeT cd.mImageMessage.width) (toSizeT cd.mImageMessage.height)
        then some cd'.mImageBuffer else none := by
      intro fresh
      by_cases h0 : sizeMul (sizeMul (toSizeT cd.mImageMessage.width)
          (toSizeT cd.mImageMessage.height)) 3 = 0
      · have e : toVtkImage env fresh cd = some (vtkImageData.empty, cd, 0) := by
          simp [toVtkImage, h0]
        rw [e, hbuf, h0, if_pos (Nat.zero_le _)]
        simp [hempty, jpegInto]
      · have e : toVtkImage env fresh cd = fillImage fresh (toSizeT cd.mImageMessage.width)
            (toSizeT cd.mImageMessage.height)
            { cd with mImageBuffer := (jpegInto env cd.mImageMessage
                (toSizeT cd.mImageMessage.width) (toSizeT cd.mImageMessage.height)
                (sizeMul (sizeMul (toSizeT cd.mImageMessage.width)
                  (toSizeT cd.mImageMessage.height)) 3)) } 1 := by
          unfold toVtkImage
          simp only []
          rw [if_neg h0, if_pos hl, if_neg hrgb, if_neg (not_not.mpr hj)]
        rw [e]
        by_cases hle : sizeMul (sizeMul (toSizeT cd.mImageMessage.width)
            (toSizeT cd.mImageMessage.height)) 3
            ≤ scalarCapacity (toSizeT cd.mImageMessage.width) (toSizeT cd.mImageMessage.height)
        · rw [if_pos hle, fillImage_of_le _ _ _ _ _ (by simpa [jpegInto_length] using hle), hbuf]
          rfl
        · rw [if_neg hle, fillImage_of_gt _ _ _ _ _ (by simp only [jpegInto_length]; omega)]
          rfl
    refine ⟨?_, hif, ?_⟩
    · intro fresh r hr
      have h := hif fresh
      rw [hr] at h
      split_ifs at h
      · exact (Option.some.inj h).symm
      · cases h
    · intro hw1 hw2 hh1 hh2 fresh
      obtain ⟨hcap, hb⟩ := scalarCapacity_eq _ _ hw1 hw2 hh1 hh2
      rw [hif fresh, if_pos (by rw [hcap, hb])]
  · intro hr
    constructor
    · simp [colorizePoints, hcal, hempty, hr, hne2]
    · intro h0 fresh
      have e : toVtkImage env fresh cd = fillImage fresh (toSizeT cd.mImageMessage.width)
          (toSizeT cd.mImageMessage.height)
          { cd with mImageBuffer := cd.mImageMessage.data } 0 := by
        unfold toVtkImage
        simp only []
        rw [if_neg h0, if_pos hl, if_pos hr]
      rw [e]
      by_cases hle : cd.mImageMessage.data.length
          ≤ scalarCapacity (toSizeT cd.mImageMessage.width) (toSizeT cd.mImageMessage.height)
      · rw [if_pos hle, fillImage_of_le _ _ _ _ _ hle]
        rfl
      · rw [if_neg hle, fillImage_of_gt _ _ _ _ _ (by simp only []; omega)]
        rfl

/-- Witness of C9, and the failing input: a calibrated record with an empty
decoded buffer and a 2x2 raw RGB frame.  `toVtkImage` fills the decoded
buffer with the twelve raw bytes; `colorizePoints` leaves the example points
without any `rgb` array, although the third point projects to pixel (1, 1). -/
theorem C9_colorizer_decode_witness :
    colorizePoints exEnv exPoints exRgb = some (exPoints, exRgb) ∧
    (toVtkImage exEnv (fun _ => 0) exRgb).map (fun r => r.2.1.mImageBuffer) = some exBytes ∧
    getTuple3 exPoints "rgb" 2 = none :=
  ⟨((C9_colorizer_decode exEnv exPoints exRgb rfl rfl).2 rfl).1,
   (((C9_colorizer_decode exEnv exPoints exRgb rfl rfl).2 rfl).2 (by decide) (fun _ => 0)).trans
     (by decide),
   by decide⟩

/-! ## C10: the reads of the decoded buffer -/

/-- C10. A reachable record state in which an accepted point is read out of
range: a single-image message delivers a 2x2 raw RGB frame with only three
data bytes, `toVtkImage` copies them into the decoded buffer, and
`colorizePoints` then accepts the third example point at pixel (1, 1), whose
offset `3*(py*w+px) + 2 = 11` is not below the buffer length 3; the reads
`mImageBuffer[9..11]` are out of range. -/
theorem C10_read_out_of_range :
    exShortFrameRecord.map (fun cd => cd.mHasCalibration) = some true ∧
    exShortFrameRecord.map (fun cd => cd.mImageBuffer) = some [1, 2, 3] ∧
    exShortFrameRecord.map (fun cd => (toSizeT cd.mImageMessage.width,
      toSizeT cd.mImageMessage.height)) = some (2, 2) ∧
    exShortFrameRecord.map (fun cd => computeDist cd) = some false ∧
    exPoints.points[2]? = some ((1, 1, 1) : Vec3) ∧
    exShortFrameRecord.map (fun cd => projectedPixel cd (1, 1, 1)) = some (some (1, 1)) ∧
    toInt 1 = some 1 ∧ intMul3 1 = some 3 ∧
    sizeAdd (bufIndex 2 3 1) 2 = 11 ∧ ¬ (11 < [1, 2, 3].length) ∧
    exShortFrameRecord.map (fun cd => (colorizePoints exEnvRgb exPoints cd).isNone)
      = some true := by
  refine ⟨by decide!, by decide!, by decide!, by decide!, by decide!, by decide!, by decide!,
    by decide!, by decide!, by decide!, by decide!⟩


/-! ## Lemmas on the registration -/

theorem qvalue_qinsert_same {K V : Type} [LT K] [DecidableRel (fun a b : K => a < b)]
    [DecidableEq K] (k : K) (v : V) (m : List (K × V)) :
    qvalue k (qinsert k v m) = some v := by
  induction m with
  | nil => simp [qinsert, qvalue]
  | cons e rest ih =>
    obtain ⟨k', v'⟩ := e
    unfold qinsert
    by_cases h1 : k < k'
    · simp [h1, qvalue]
    · by_cases h2 : k = k'
      · subst h2
        simp [h1, qvalue]
      · have h3 : ¬ k' = k := fun e => h2 e.symm
        simp [h1, h2, qvalue, h3, ih]

theorem qvalue_qinsert_other {K V : Type} [LT K] [DecidableRel (fun a b : K => a < b)]
    [DecidableEq K] (k k2 : K) (v : V) (m : List (K × V)) (h : k2 ≠ k) :
    qvalue k2 (qinsert k v m) = qvalue k2 m := by
  have hk : ¬ k = k2 := fun e => h e.symm
  induction m with
  | nil => simp [qinsert, qvalue, hk]
  | cons e rest ih =>
    obtain ⟨k', v'⟩ := e
    unfold qinsert
    by_cases h1 : k < k'
    · simp [h1, qvalue, hk]
    · by_cases h2 : k = k'
      · subst h2
        simp [h1, qvalue, hk]
      · by_cases h3 : k' = k2
        · subst h3
          simp [h1, h2, qvalue]
        · simp [h1, h2, qvalue, h3, ih]

theorem mem_qinsert {K V : Type} [LT K] [DecidableRel (fun a b : K => a < b)]
    [DecidableEq K] (k : K) (v : V) (m : List (K × V)) (e : K × V)
    (he : e ∈ qinsert k v m) : e = (k, v) ∨ e ∈ m := by
  induction m with
  | nil => simpa [qinsert] using he
  | cons e0 rest ih =>
    obtain ⟨k', v'⟩ := e0
    unfold qinsert at he
    by_cases h1 : k < k'
    · simp only [h1, if_true, List.mem_cons] at he
      rcases he with he | he | he
      · exact Or.inl he
      · exact Or.inr (he ▸ List.mem_cons_self _ _)
      · exact Or.inr (List.mem_cons_of_mem _ he)
    · by_cases h2 : k = k'
      · subst h2
        simp only [h1, if_true, if_false, List.mem_cons] at he
        rcases he with he | he
        · exact Or.inl he
        · exact Or.inr (List.mem_cons_of_mem _ he)
      · simp only [h1, h2, if_false, List.mem_cons] at he
        rcases he with he | he
        · exact Or.inr (he ▸ List.mem_cons_self _ _)
        · rcases ih he with h | h
          · exact Or.inl h
          · exact Or.inr (List.mem_cons_of_mem _ h)

theorem mem_of_qvalue {K V : Type} [DecidableEq K] (k : K) (v : V) (m : List (K × V))
    (h : qvalue k m = some v) : (k, v) ∈ m := by
  induction m with
  | nil => simp [qvalue] at h
  | cons e rest ih =>
    obtain ⟨k', v'⟩ := e
    by_cases hk : k' = k
    · simp only [qvalue, hk, if_true, Option.some.injEq] at h
      rw [hk, h]
      exact List.mem_cons_self _ _
    · simp only [qvalue, hk, if_false] at h
      exact List.mem_cons_of_mem _ (ih h)

theorem qvalue_isSome_iff {K V : Type} [DecidableEq K] (k : K) (m : List (K × V)) :
    (qvalue k m).isSome ↔ k ∈ m.map Prod.fst := by
  induction m with
  | nil => simp [qvalue]
  | cons e rest ih =>
    obtain ⟨k', v'⟩ := e
    by_cases hk : k' = k
    · simp [qvalue, hk]
    · have hk2 : ¬ k = k' := fun e => hk e.symm
      simp [qvalue, hk, hk2, ih]

/-- Inserting a key that the map does not hold adds one entry with that key
and leaves the number of entries of every other key. -/
theorem count_keys_qinsert {K V : Type} [LT K] [DecidableRel (fun a b : K => a < b)]
    [DecidableEq K] (k k2 : K) (v : V) (m : List (K × V)) (hk : k ∉ m.map Prod.fst) :
    ((qinsert k v m).map Prod.fst).count k2 =
      (m.map Prod.fst).count k2 + (if k2 = k then 1 else 0) := by
  induction m with
  | nil =>
    by_cases h : k2 = k
    · simp [qinsert, h]
    · have h' : ¬ k = k2 := fun e => h e.symm
      simp [qinsert, h, List.count_cons, h']
  | cons e rest ih =>
    obtain ⟨k', v'⟩ := e
    simp only [List.map_cons, List.mem_cons, not_or] at hk
    obtain ⟨hne, hrest⟩ := hk
    unfold qinsert
    by_cases h1 : k < k'
    · simp only [h1, if_true, List.map_cons, List.count_cons]
      by_cases h : k2 = k
      · simp [h]
      · have h' : ¬ k = k2 := fun e => h e.symm
        simp [h, h']
    · simp only [h1, hne, if_false, List.map_cons, List.count_cons, ih hrest]
      omega

/-- The queue `addCameraStream` leaves: it always returns true, creates the
record when the camera has none, stores the binding, and subscribes the
channel when it has no subscriber. -/
theorem addCameraStream_eq (setup : Setup) (q : Queue) (channel cameraName : String)
    (imageType : Int) :
    addCameraStream setup q channel cameraName imageType =
      (true,
       { mCameraData :=
           if (qvalue cameraName q.mCameraData).isSome then q.mCameraData
           else qinsert cameraName (initCameraData setup cameraName setup.newCameraData).2
             q.mCameraData
         mChannelMap :=
           qinsert channel
             (qinsert imageType cameraName (channelBindings channel q.mChannelMap))
             q.mChannelMap
         mSubscribers :=
           if (qvalue channel q.mSubscribers).isSome then q.mSubscribers
           else qinsert channel
             (if imageType ≥ 0 then Slot.onImagesMessage else Slot.onImageMessage)
             q.mSubscribers }) := by
  have hinit : (initCameraData setup cameraName setup.newCameraData).1 = true := rfl
  unfold addCameraStream
  by_cases h1 : (qvalue cameraName q.mCameraData).isSome = true <;>
    by_cases h2 : (qvalue channel q.mSubscribers).isSome = true <;>
    simp [h1, h2, hinit]

theorem channelBindings_mem (channel : String) (m : List (String × List (Int × String)))
    (b : Int × String) (hb : b ∈ channelBindings channel m) :
    ∃ e ∈ m, e.1 = channel ∧ b ∈ e.2 := by
  unfold channelBindings at hb
  cases h : qvalue channel m with
  | none => rw [h] at hb; simp at hb
  | some bs =>
    rw [h] at hb
    exact ⟨(channel, bs), mem_of_qvalue _ _ _ h, rfl, hb⟩

/-- Step `addCameraStream` keeps the registry invariant. -/
theorem addCameraStream_registryInv (setup : Setup) (q : Queue) (channel cameraName : String)
    (imageType : Int) (hinv : RegistryInv q) :
    RegistryInv (addCameraStream setup q channel cameraName imageType).2 := by
  obtain ⟨ha, hb, hc⟩ := hinv
  rw [addCameraStream_eq]
  -- records are kept, and the camera of the call has one afterwards
  have hkeep : ∀ name : String, (qvalue name q.mCameraData).isSome →
      (qvalue name (if (qvalue cameraName q.mCameraData).isSome then q.mCameraData
        else qinsert cameraName (initCameraData setup cameraName setup.newCameraData).2
          q.mCameraData)).isSome := by
    intro name hn
    by_cases h1 : (qvalue cameraName q.mCameraData).isSome = true
    · rw [if_pos h1]; exact hn
    · rw [if_neg h1]
      by_cases h2 : name = cameraName
      · rw [h2, qvalue_qinsert_same]; rfl
      · rw [qvalue_qinsert_other _ _ _ _ h2]; exact hn
  have hnew : (qvalue cameraName (if (qvalue cameraName q.mCameraData).isSome
      then q.mCameraData
      else qinsert cameraName (initCameraData setup cameraName setup.newCameraData).2
        q.mCameraData)).isSome := by
    by_cases h1 : (qvalue cameraName q.mCameraData).isSome = true
    · rw [if_pos h1]; exact h1
    · rw [if_neg h1]
      rw [qvalue_qinsert_same]; rfl
  -- subscribers are kept, and the channel of the call has one afterwards
  have hskeep : ∀ ch : String, (qvalue ch q.mSubscribers).isSome →
      (qvalue ch (if (qvalue channel q.mSubscribers).isSome then q.mSubscribers
        else qinsert channel
          (if imageType ≥ 0 then Slot.onImagesMessage else Slot.onImageMessage)
          q.mSubscribers)).isSome := by
    intro ch hn
    by_cases h1 : (qvalue channel q.mSubscribers).isSome = true
    · rw [if_pos h1]; exact hn
    · rw [if_neg h1]
      by_cases h2 : ch = channel
      · rw [h2, qvalue_qinsert_same]; rfl
      · rw [qvalue_qinsert_other _ _ _ _ h2]; exact hn
  have hsnew : (qvalue channel (if (qvalue channel q.mSubscribers).isSome then q.mSubscribers
        else qinsert channel
          (if imageType ≥ 0 then Slot.onImagesMessage else Slot.onImageMessage)
          q.mSubscribers)).isSome := by
    by_cases h1 : (qvalue channel q.mSubscribers).isSome = true
    · rw [if_pos h1]; exact h1
    · rw [if_neg h1]
      rw [qvalue_qinsert_same]; rfl
  refine ⟨?_, ?_, ?_⟩
  · intro e he b hbe
    simp only [getCameraData]
    rcases mem_qinsert _ _ _ _ he with h | h
    · rw [h] at hbe
      simp only at hbe
      rcases mem_qinsert _ _ _ _ hbe with h2 | h2
      · rw [h2]; exact hnew
      · obtain ⟨e0, he0, _, hb0⟩ := channelBindings_mem _ _ _ h2
        exact hkeep _ (ha e0 he0 b hb0)
    · exact hkeep _ (ha e h b hbe)
  · intro e he
    simp only
    rcases mem_qinsert _ _ _ _ he with h | h
    · rw [h]; exact hsnew
    · exact hskeep _ (hb e h)
  · intro ch
    simp only
    by_cases h1 : (qvalue channel q.mSubscribers).isSome = true
    · rw [if_pos h1]; exact hc ch
    · rw [if_neg h1]
      have habs : channel ∉ q.mSubscribers.map Prod.fst := fun hm =>
        h1 ((qvalue_isSome_iff _ _).mpr hm)
      rw [count_keys_qinsert _ _ _ _ habs]
      by_cases h2 : ch = channel
      · rw [h2, List.count_eq_zero_of_not_mem habs]
        simp
      · simpa [h2] using hc ch

/-- Step `addCameraStream` with an image type that is -1 or non-negative
keeps the sentinel invariant. -/
theorem addCameraStream_sentinelInv (setup : Setup) (q : Queue) (channel cameraName : String)
    (imageType : Int) (ht : -1 ≤ imageType) (hinv : SentinelInv q) :
    SentinelInv (addCameraStream setup q channel cameraName imageType).2 := by
  rw [addCameraStream_eq]
  intro ch hch
  simp only at hch ⊢
  by_cases hc : ch = channel
  · subst hc
    have hbind : channelBindings ch (qinsert ch
        (qinsert imageType cameraName (channelBindings ch q.mChannelMap)) q.mChannelMap) =
        qinsert imageType cameraName (channelBindings ch q.mChannelMap) := by
      unfold channelBindings
      rw [qvalue_qinsert_same]
      rfl
    rw [hbind]
    by_cases ht1 : imageType = -1
    · rw [ht1, qvalue_qinsert_same]; rfl
    · rw [qvalue_qinsert_other _ _ _ _ (fun e => ht1 e.symm)]
      by_cases h1 : (qvalue ch q.mSubscribers).isSome = true
      · rw [if_pos h1] at hch
        exact hinv ch hch
      · rw [if_neg h1] at hch
        rw [qvalue_qinsert_same] at hch
        have hge : imageType ≥ 0 := by omega
        simp [hge] at hch
  · have hbind : channelBindings ch (qinsert channel
        (qinsert imageType cameraName (channelBindings channel q.mChannelMap)) q.mChannelMap) =
        channelBindings ch q.mChannelMap := by
      unfold channelBindings
      rw [qvalue_qinsert_other _ _ _ _ hc]
    rw [hbind]
    apply hinv ch
    by_cases h1 : (qvalue channel q.mSubscribers).isSome = true
    · rw [if_pos h1] at hch; exact hch
    · rw [if_neg h1] at hch
      rw [qvalue_qinsert_other _ _ _ _ hc] at hch
      exact hch

theorem addCameraStreams_registryInv (setup : Setup) :
    ∀ (calls : List (String × String × Int)) (q : Queue), RegistryInv q →
      RegistryInv (addCameraStreams setup q calls) := by
  intro calls
  induction calls with
  | nil => intro q h; exact h
  | cons c rest ih =>
    intro q h
    exact ih _ (addCameraStream_registryInv setup q c.1 c.2.1 c.2.2 h)

theorem addCameraStreams_sentinelInv (setup : Setup) :
    ∀ (calls : List (String × String × Int)) (q : Queue),
      (∀ c ∈ calls, -1 ≤ c.2.2) → SentinelInv q →
      SentinelInv (addCameraStreams setup q calls) := by
  intro calls
  induction calls with
  | nil => intro q _ h; exact h
  | cons c rest ih =>
    intro q ht h
    exact ih _ (fun c' hc' => ht c' (List.mem_cons_of_mem _ hc'))
      (addCameraStream_sentinelInv setup q c.1 c.2.1 c.2.2 (ht c (List.mem_cons_self _ _)) h)

theorem newQueue_inv : RegistryInv newQueue ∧ SentinelInv newQueue := by
  refine ⟨⟨?_, ?_, ?_⟩, ?_⟩
  · intro e he; simp [newQueue] at he
  · intro e he; simp [newQueue] at he
  · intro ch; simp [newQueue]
  · intro ch h; simp [newQueue, qvalue] at h

/-! ## C11: the registry after `addCameraStream` calls -/

/-- C11. Let `q` be the queue after any sequence of `addCameraStream` calls
on a new queue.  Every camera name bound in the channel map has a record,
and every channel of the channel map has exactly one subscriber, so
`onImagesMessage` finds every record it looks up and returns on every
well-formed message.  When every image type passed is -1 or non-negative, a
channel connected to `onImageMessage` has a binding for -1 and
`onImageMessage` returns.  An image type below -1 breaks this: the first call
for a channel connects it to `onImageMessage` (the test is `imageType >= 0`)
but stores no binding for -1, and `onImageMessage`, which reads the binding
-1, then looks up the empty camera name and dereferences a null record. -/
theorem C11_registry_after_addCameraStream (setup : Setup)
    (calls : List (String × String × Int)) :
    (∀ e ∈ (addCameraStreams setup newQueue calls).mChannelMap, ∀ b ∈ e.2,
      (getCameraData (addCameraStreams setup newQueue calls) b.2).isSome) ∧
    (∀ e ∈ (addCameraStreams setup newQueue calls).mChannelMap,
      ((addCameraStreams setup newQueue calls).mSubscribers.map Prod.fst).count e.1 = 1) ∧
    (∀ (env : Env) (data : List Nat) (channel : String), (env.images_decode data).WF →
      (onImagesMessage env (addCameraStreams setup newQueue calls) data channel).isSome) ∧
    ((∀ c ∈ calls, -1 ≤ c.2.2) →
      ∀ channel : String,
        qvalue channel (addCameraStreams setup newQueue calls).mSubscribers
          = some Slot.onImageMessage →
        (qvalue (-1) (channelBindings channel
          (addCameraStreams setup newQueue calls).mChannelMap)).isSome ∧
        ∀ (env : Env) (data : List Nat),
          (onImageMessage env (addCameraStreams setup newQueue calls) data channel).isSome) ∧
    (∀ (channel cameraName : String) (imageType : Int), imageType < -1 →
      qvalue channel (addCameraStream setup newQueue channel cameraName imageType).2.mSubscribers
        = some Slot.onImageMessage ∧
      qvalue (-1) (channelBindings channel
        (addCameraStream setup newQueue channel cameraName imageType).2.mChannelMap) = none ∧
      (cameraName ≠ "" → ∀ (env : Env) (data : List Nat),
        onImageMessage env (addCameraStream setup newQueue channel cameraName imageType).2
          data channel = none)) := by
  obtain ⟨ha, hb, hc⟩ := addCameraStreams_registryInv setup calls newQueue newQueue_inv.1
  refine ⟨ha, ?_, ?_, ?_, ?_⟩
  · intro e he
    have h1 := hc e.1
    have h2 : 0 < ((addCameraStreams setup newQueue calls).mSubscribers.map Prod.fst).count e.1 :=
      List.count_pos_iff.mpr ((qvalue_isSome_iff _ _).mp (hb e he))
    omega
  · intro env data channel hwf
    obtain ⟨q', hrun, _⟩ := onImagesMessage_spec env _ data channel hwf (by
      intro b hbv
      have hmem : b ∈ channelBindings channel
          (addCameraStreams setup newQueue calls).mChannelMap :=
        (List.takeWhile_sublist _).subset hbv
      obtain ⟨e, he, _, hbe⟩ := channelBindings_mem _ _ _ hmem
      exact ha e he b hbe)
    rw [hrun]; rfl
  · intro ht channel hch
    have hs := addCameraStreams_sentinelInv setup calls newQueue ht newQueue_inv.2 channel hch
    refine ⟨hs, ?_⟩
    intro env data
    obtain ⟨name, hname⟩ := Option.isSome_iff_exists.mp hs
    obtain ⟨e, he, _, hbe⟩ := channelBindings_mem _ _ _ (mem_of_qvalue _ _ _ hname)
    obtain ⟨cd, hcd⟩ := Option.isSome_iff_exists.mp (ha e he _ hbe)
    obtain ⟨q', hrun, _⟩ := onImageMessage_spec env _ data channel cd (by
      rw [hname]; exact hcd)
    rw [hrun]; rfl
  · intro channel cameraName imageType ht
    have hge : ¬ imageType ≥ 0 := by omega
    have hne : ¬ imageType = -1 := by omega
    have hq : (addCameraStream setup newQueue channel cameraName imageType).2 =
        { mCameraData := [(cameraName, (initCameraData setup cameraName setup.newCameraData).2)]
          mChannelMap := [(channel, [(imageType, cameraName)])]
          mSubscribers := [(channel, Slot.onImageMessage)] } := by
      rw [addCameraStream_eq]
      simp [newQueue, qvalue, qinsert, channelBindings, hge]
    rw [hq]
    refine ⟨by simp [qvalue], by simp [channelBindings, qvalue, hne], ?_⟩
    intro hname env data
    have hname2 : ¬ cameraName = "" := hname
    simp [onImageMessage, channelBindings, qvalue, hne, getCameraData, hname2]

/-- Witness of C11, and the failing input.  After the four calls of `init`
the single-image channel `CAMERA_LEFT` and the multi-image channel `CAMERA`
are served; after `addCameraStream("CAMERA_X", "CAMERA_X", -2)` on a new queue
a message on `CAMERA_X` goes to `onImageMessage`, which finds no record. -/
theorem C11_registry_after_addCameraStream_witness :
    (onImageMessage exEnv (addCameraStreams exSetup newQueue initCalls) [1, 1, 7, 8, 9]
      "CAMERA_LEFT").isSome ∧
    (onImagesMessage exEnv (addCameraStreams exSetup newQueue initCalls) [0] "CAMERA").isSome ∧
    qvalue "CAMERA_X" (addCameraStream exSetup newQueue "CAMERA_X" "CAMERA_X" (-2)).2.mSubscribers
      = some Slot.onImageMessage ∧
    onImageMessage exEnv (addCameraStream exSetup newQueue "CAMERA_X" "CAMERA_X" (-2)).2
      [1, 1, 7, 8, 9] "CAMERA_X" = none :=
  ⟨(((C11_registry_after_addCameraStream exSetup initCalls).2.2.2.1 (by decide)
      "CAMERA_LEFT" (by decide!)).2 exEnv [1, 1, 7, 8, 9]),
   (C11_registry_after_addCameraStream exSetup initCalls).2.2.1 exEnv [0] "CAMERA" (by decide),
   ((C11_registry_after_addCameraStream exSetup []).2.2.2.2 "CAMERA_X" "CAMERA_X" (-2)
      (by decide)).1,
   ((C11_registry_after_addCameraStream exSetup []).2.2.2.2 "CAMERA_X" "CAMERA_X" (-2)
      (by decide)).2.2 (by decide) exEnv [1, 1, 7, 8, 9]⟩

end ddBotImageQueue
